import Mathlib

/-!
# benchmarkjunit: translating `go test -bench` output into a JUnit report

A shallow embedding of `pkg/benchmarkjunit/parse.go` and theorems about it.

Conventions of the embedding.

* A Go `string` is a finite sequence of bytes.  It is represented by `Str = List Char`,
  one list element per byte; `len(s)` is `s.length` and `s[:n]` is `s.take n`.  All
  theorems quantify over arbitrary lists.
* The four regular expressions of `parse.go` are written in a small regular-expression
  syntax (`Re`) and run by a backtracking matcher (`Re.run`).  Go's `regexp` package
  returns the leftmost match, and among those the one a backtracking search finds first,
  which is what `Re.FindStringSubmatch` computes.
* The Go standard-library functions on floating-point numbers and durations
  (`strconv.ParseFloat`, `time.ParseDuration`, `Duration.Seconds`, `fmt.Sprintf("%f", _)`)
  are an interface, `GoLib`, that every definition takes as a parameter.
* Go slices share their backing array when a struct holding them is copied.  The one place
  where `parse` observes this is described at `parse.State`.
-/

/-- A Go string: a sequence of bytes. -/
abbrev Str := List Char

/-! ## Regular expressions -/

/-- The fragment of Go regular-expression syntax used by `parse.go`.  Repetition is only
ever applied to a character class, so `star` and `plus` take the class directly. -/
inductive Re where
  /-- `^`, beginning of text -/
  | bot
  /-- `$`, end of text (no multi-line flag is set) -/
  | eot
  /-- a literal string -/
  | lit (s : Str)
  /-- `c*` for a character class `c`, greedy -/
  | star (p : Char → Bool)
  /-- `c+` for a character class `c`, greedy -/
  | plus (p : Char → Bool)
  /-- the `i`-th capturing group `(r)` -/
  | group (i : Nat) (r : Re)
  /-- `a|b`, preferring `a` -/
  | alt (a b : Re)
  /-- `(?:r)?`, preferring to match `r` -/
  | opt (r : Re)
  /-- `ab` -/
  | seq (a b : Re)

/-- The submatches found so far, indexed by group number. -/
abbrev Caps := List Str

/-- Remove the literal `l` from the front of the input, if it is there. -/
def Re.stripLit : Str → Str → Option Str
  | [], s => some s
  | _ :: _, [] => none
  | c :: cs, d :: ds => if c = d then Re.stripLit cs ds else none

/-- Greedy repetition of a character class: consume as many characters as possible, and
give them back one at a time while the continuation `k` fails. -/
def Re.many (p : Char → Bool) (k : Nat → Str → Option Caps) : Nat → Str → Option Caps
  | pos, [] => k pos []
  | pos, c :: cs =>
    if p c then
      match Re.many p k (pos + 1) cs with
      | some r => some r
      | none => k pos (c :: cs)
    else k pos (c :: cs)

/-- Backtracking matcher in continuation-passing style.  `pos` is the offset of the
remaining input `s` in the text, `caps` the submatches recorded so far, and `k` what
remains to be matched after this expression. -/
def Re.run : Re → Nat → Str → Caps → (Nat → Str → Caps → Option Caps) → Option Caps
  | .bot, pos, s, caps, k => if pos = 0 then k pos s caps else none
  | .eot, pos, s, caps, k => if s = [] then k pos s caps else none
  | .lit l, pos, s, caps, k =>
    match Re.stripLit l s with
    | some s' => k (pos + l.length) s' caps
    | none => none
  | .star p, pos, s, caps, k => Re.many p (fun pos' s' => k pos' s' caps) pos s
  | .plus p, pos, s, caps, k =>
    match s with
    | [] => none
    | c :: cs => if p c then Re.many p (fun pos' s' => k pos' s' caps) (pos + 1) cs else none
  | .group i r, pos, s, caps, k =>
    Re.run r pos s caps (fun pos' s' caps' => k pos' s' (caps'.set i (s.take (pos' - pos))))
  | .alt a b, pos, s, caps, k =>
    match Re.run a pos s caps k with
    | some r => some r
    | none => Re.run b pos s caps k
  | .opt r, pos, s, caps, k =>
    match Re.run r pos s caps k with
    | some res => some res
    | none => k pos s caps
  | .seq a b, pos, s, caps, k =>
    Re.run a pos s caps (fun pos' s' caps' => Re.run b pos' s' caps' k)

/-- The largest group number of an expression. -/
def Re.numSubexp : Re → Nat
  | .group i r => max i r.numSubexp
  | .alt a b => max a.numSubexp b.numSubexp
  | .seq a b => max a.numSubexp b.numSubexp
  | .opt r => r.numSubexp
  | _ => 0

/-- Leftmost search: try every start offset in turn.  Group 0 is the whole match; groups
that take no part in the match are the empty string. -/
def Re.findFrom (re : Re) : Nat → Str → Option Caps
  | pos, [] =>
    Re.run (.group 0 re) pos [] (List.replicate (re.numSubexp + 1) []) (fun _ _ caps => some caps)
  | pos, c :: cs =>
    match Re.run (.group 0 re) pos (c :: cs) (List.replicate (re.numSubexp + 1) [])
        (fun _ _ caps => some caps) with
    | some r => some r
    | none => Re.findFrom re (pos + 1) cs

/-- Go's `(*Regexp).FindStringSubmatch`: `none` is the nil slice returned when there is no
match. -/
def Re.FindStringSubmatch (re : Re) (s : Str) : Option (List Str) := re.findFrom 0 s

/-- Go's `(*Regexp).MatchString`. -/
def Re.MatchString (re : Re) (s : Str) : Bool := (re.FindStringSubmatch s).isSome

/-- A sequence of expressions. -/
def Re.seqs : List Re → Re
  | [] => .lit []
  | [r] => r
  | r :: rs => .seq r (Re.seqs rs)

/-- The class `\s`, which in Go is `[\t\n\f\r ]`. -/
def Re.space (c : Char) : Bool := c = '\t' || c = '\n' || c = '\x0c' || c = '\r' || c = ' '

/-- The class `\S`. -/
def Re.nonSpace (c : Char) : Bool := !Re.space c

/-- The class `\d`, which in Go is `[0-9]`. -/
def Re.digit (c : Char) : Bool := decide ('0' ≤ c) && decide (c ≤ '9')

/-- The class `[\d\.]`. -/
def Re.digitOrDot (c : Char) : Bool := Re.digit c || c = '.'

/-- The pattern `^pkg:\s+(\S+)\s*$`. -/
def reSuiteStart : Re :=
  Re.seqs [.bot, .lit "pkg:".toList, .plus Re.space, .group 1 (.plus Re.nonSpace),
    .star Re.space, .eot]

/-- The pattern `^(ok|FAIL)\s+(\S+)\s+(\S+)\s*$`. -/
def reSuiteEnd : Re :=
  Re.seqs [.bot, .group 1 (.alt (.lit "ok".toList) (.lit "FAIL".toList)), .plus Re.space,
    .group 2 (.plus Re.nonSpace), .plus Re.space, .group 3 (.plus Re.nonSpace),
    .star Re.space, .eot]

/-- The pattern
`^(Benchmark\S*)\s+(\d+)\s+([\d\.]+) ns/op(?:\s+([\d\.]+) MB/s)?(?:\s+([\d\.]+) B/op)?(?:\s+([\d\.]+) allocs/op)?\s*$`. -/
def reBenchMetrics : Re :=
  Re.seqs [.bot, .group 1 (.seq (.lit "Benchmark".toList) (.star Re.nonSpace)), .plus Re.space,
    .group 2 (.plus Re.digit), .plus Re.space, .group 3 (.plus Re.digitOrDot),
    .lit " ns/op".toList,
    .opt (Re.seqs [.plus Re.space, .group 4 (.plus Re.digitOrDot), .lit " MB/s".toList]),
    .opt (Re.seqs [.plus Re.space, .group 5 (.plus Re.digitOrDot), .lit " B/op".toList]),
    .opt (Re.seqs [.plus Re.space, .group 6 (.plus Re.digitOrDot), .lit " allocs/op".toList]),
    .star Re.space, .eot]

/-- The pattern `^--- (BENCH|SKIP|FAIL):\s+(\S+)\s*$`. -/
def reActionLine : Re :=
  Re.seqs [.bot, .lit "--- ".toList,
    .group 1 (.alt (.lit "BENCH".toList) (.alt (.lit "SKIP".toList) (.lit "FAIL".toList))),
    .lit ":".toList, .plus Re.space, .group 2 (.plus Re.nonSpace), .star Re.space, .eot]

/-! ## Standard library -/

/-- Go's `strings.Split(s, "\n")`: the pieces between line feeds; never the empty list. -/
def strings.Split : Str → List Str
  | [] => [[]]
  | c :: cs =>
    if c = '\n' then [] :: strings.Split cs
    else
      match strings.Split cs with
      | [] => [[c]]
      | l :: ls => (c :: l) :: ls

/-- Go's `strings.HasPrefix`. -/
def strings.HasPrefix (s pre : Str) : Bool := pre.isPrefixOf s

/-- Go's `strings.TrimPrefix`. -/
def strings.TrimPrefix (s pre : Str) : Str :=
  if strings.HasPrefix s pre then s.drop pre.length else s

/-- Go's `path.Base`: the last element of a slash-separated path, after removing trailing
slashes; `.` for the empty path and `/` for a path of slashes only. -/
def path.Base (p : Str) : Str :=
  if p = [] then ['.']
  else
    let p := (p.reverse.dropWhile (fun c => c = '/')).reverse
    let p := (p.reverse.takeWhile (fun c => c ≠ '/')).reverse
    if p = [] then ['/'] else p

/-- The Go standard-library functions on numbers and durations that `parse.go` calls.
They are not part of the program; every definition below takes them as a parameter and
every theorem holds for all of them. -/
structure GoLib where
  /-- the type `float64` -/
  Float64 : Type
  /-- `strconv.ParseFloat(s, 64)`; `none` when the returned error is not nil -/
  ParseFloat : Str → Option Float64
  /-- `x * y` on `float64` -/
  mul : Float64 → Float64 → Float64
  /-- `x / y` on `float64` -/
  div : Float64 → Float64 → Float64
  /-- the constant `1000000000` converted to `float64` -/
  billion : Float64
  /-- `fmt.Sprintf("%f", x)` -/
  Sprintf : Float64 → Str
  /-- the type `time.Duration` -/
  Duration : Type
  /-- `time.ParseDuration(s)`; `none` when the returned error is not nil -/
  ParseDuration : Str → Option Duration
  /-- `d.Seconds()` -/
  Seconds : Duration → Float64

/-! ## Data model (`parse.go`, lines 52-91) -/

/-- Property defines the xml element that stores additional metrics about each benchmark. -/
structure Property where
  Name : Str
  Value : Str
deriving DecidableEq

/-- Properties defines the xml element that stores the list of properties of one benchmark. -/
structure Properties where
  PropertyList : List Property
deriving DecidableEq

/-- Failure defines the xml element that stores failure text. -/
structure Failure where
  Text : Str
deriving DecidableEq

/-- TestCase defines the xml element that stores all information associated with one
benchmark.  `Failure` is a pointer in Go; `none` is nil. -/
structure TestCase where
  ClassName : Str
  Name : Str
  Time : Str
  Failure : Option Failure
  Skipped : Bool
  PropertyList : Properties
deriving DecidableEq

/-- TestSuite defines the outer-most xml element that contains all TestCases.  `Tests` and
`Failures` are Go `int`s that start at zero and grow by one per line. -/
structure TestSuite where
  Name : Str
  Tests : Nat
  Failures : Nat
  Time : Str
  TestCases : List TestCase
deriving DecidableEq

/-- TestSuites defines the xml element that stores the list of TestSuites. -/
structure TestSuites where
  XMLName : Str
  List : List TestSuite
deriving DecidableEq

/-! ## `truncate`, `recordLogText`, `propertiesFromMatch` -/

/-- The function `truncate` (`parse.go`, lines 93-101).  The limit is a Go `int`; the
program only ever passes 1000, and negative limits are left out. -/
def truncate (str : Str) (n : Nat) : Str :=
  if str.length ≤ n then str
  else if n > 3 then str.take (n - 3) ++ "...".toList
  else str.take n

/-- The method `(*TestSuite).recordLogText` (`parse.go`, lines 103-121), as a function from
the suite before the call to the suite after it.  The `logrus.Error` call of the first
branch writes to the process log only. -/
def TestSuite.recordLogText (s : TestSuite) (text : Str) : TestSuite :=
  match s.TestCases.getLast? with
  | none => s
  | some tc =>
    let text := truncate text 1000
    match tc.Failure with
    | none => s
    | some _ =>
      { s with
        TestCases := s.TestCases.dropLast ++
          [{ tc with
             Failure := some { Text := text }
             PropertyList :=
               { PropertyList := tc.PropertyList.PropertyList ++
                   [{ Name := "categorized_fail".toList, Value := text }] } }] }

/-- The two errors of `propertiesFromMatch`, each with the token that did not parse. -/
inductive MetricError where
  /-- `error parsing opcount %q: %v` -/
  | opcount (tok : Str)
  /-- `error parsing ns/op %q: %v` -/
  | nsop (tok : Str)
deriving DecidableEq

/-- The function `propertiesFromMatch` (`parse.go`, lines 123-149): the property list and
the test duration for a match of `reBenchMetrics`.  The element `match[i]` is `m.getD i []`;
a match of a pattern has one element per group, so no index is out of range. -/
def propertiesFromMatch (lib : GoLib) (m : List Str) : Except MetricError (Properties × Str) :=
  match lib.ParseFloat (m.getD 2 []) with
  | none => .error (.opcount (m.getD 2 []))
  | some opCount =>
    match lib.ParseFloat (m.getD 3 []) with
    | none => .error (.nsop (m.getD 3 []))
    | some opDuration =>
      let benchmarkDuration := lib.Sprintf (lib.div (lib.mul opCount opDuration) lib.billion)
      let props : List Property := []
      let props := props ++ [{ Name := "op count".toList, Value := m.getD 2 [] }]
      let props := props ++ [{ Name := "avg op duration (ns/op)".toList, Value := m.getD 3 [] }]
      let props :=
        if (m.getD 4 []).length > 0 then props ++ [{ Name := "MB/s".toList, Value := m.getD 4 [] }]
        else props
      let props :=
        if (m.getD 5 []).length > 0 then
          props ++ [{ Name := "alloced B/op".toList, Value := m.getD 5 [] }]
        else props
      let props :=
        if (m.getD 6 []).length > 0 then
          props ++ [{ Name := "allocs/op".toList, Value := m.getD 6 [] }]
        else props
      .ok ({ PropertyList := props }, benchmarkDuration)

/-! ## `parse` -/

/-- The errors `parse` returns. -/
inductive ParseError where
  /-- `mismatched package summary for %q with %q benchmarks` -/
  | mismatched (path name : Str)
  /-- `failed to parse package test time %q: %v` -/
  | testTime (tok : Str)
  /-- `error parsing benchmark metric values: %v` -/
  | metricValues (e : MetricError)
deriving DecidableEq

/-- The local variables of `parse` between two iterations of its loop.

`suites.List = append(suites.List, suite)` copies the struct `suite`, and the copy's
`TestCases` slice has the same backing array and length as that of `suite`.  Until `suite`
is replaced or grows, `recordLogText`, which writes through a pointer to the last element of
`suite.TestCases`, therefore also changes the last case of those copies.  `shared` counts
them: they are the last `shared` elements of `suites.List`.  A later `append` to
`suite.TestCases` writes past the length of every copy and is not seen by them. -/
structure parse.State where
  suites : TestSuites
  suite : TestSuite
  logText : Str
  shared : Nat
deriving DecidableEq

/-- The state at loop entry: `var suites TestSuites; var suite TestSuite; var logText string`. -/
def parse.init : parse.State :=
  { suites := { XMLName := [], List := [] }
    suite := { Name := [], Tests := 0, Failures := 0, Time := [], TestCases := [] }
    logText := []
    shared := 0 }

/-- The branch `else if len(logText) > 0` of the loop body (`parse.go`, lines 162-165),
taken by every line that is not indented: `suite.recordLogText(logText); logText = ""`. -/
def parse.State.flush (st : parse.State) : parse.State :=
  if st.logText.length > 0 then
    { st with
      suite := st.suite.recordLogText st.logText
      suites :=
        { st.suites with
          List := st.suites.List.take (st.suites.List.length - st.shared) ++
            (st.suites.List.drop (st.suites.List.length - st.shared)).map
              (fun s => s.recordLogText st.logText) }
      logText := [] }
  else st

/-- The `switch` of the loop body (`parse.go`, lines 167-219), entered with the log text
already recorded.  `MatchString` followed by `FindStringSubmatch` on the same pattern and
line is one case distinction on the result of `FindStringSubmatch`. -/
def parse.dispatch (lib : GoLib) (st : parse.State) (line : Str) :
    Except ParseError parse.State :=
  match reSuiteStart.FindStringSubmatch line with
  | some m =>
    .ok { st with
          suite := { Name := m.getD 1 [], Tests := 0, Failures := 0, Time := [], TestCases := [] }
          shared := 0 }
  | none =>
  match reSuiteEnd.FindStringSubmatch line with
  | some m =>
    if m.getD 2 [] ≠ st.suite.Name then .error (.mismatched (m.getD 2 []) st.suite.Name)
    else
      match lib.ParseDuration (m.getD 3 []) with
      | none => .error (.testTime (m.getD 3 []))
      | some duration =>
        let suite := { st.suite with Time := lib.Sprintf (lib.Seconds duration) }
        .ok { st with
              suite := suite
              suites := { st.suites with List := st.suites.List ++ [suite] }
              shared := st.shared + 1 }
  | none =>
  match reBenchMetrics.FindStringSubmatch line with
  | some m =>
    match propertiesFromMatch lib m with
    | .error e => .error (.metricValues e)
    | .ok (props, duration) =>
      let tc : TestCase :=
        { ClassName := path.Base st.suite.Name, Name := m.getD 1 [], Time := duration,
          Failure := none, Skipped := false, PropertyList := props }
      .ok { st with
            suite := { st.suite with
                       TestCases := st.suite.TestCases ++ [tc]
                       Tests := st.suite.Tests + 1 }
            shared := 0 }
  | none =>
  match reActionLine.FindStringSubmatch line with
  | some m =>
    if m.getD 1 [] = "SKIP".toList then
      .ok { st with
            suite := { st.suite with
                       TestCases := st.suite.TestCases ++
                         [{ ClassName := path.Base st.suite.Name, Name := m.getD 2 [],
                            Time := "0".toList, Failure := none, Skipped := true,
                            PropertyList := { PropertyList := [] } }] }
            shared := 0 }
    else if m.getD 1 [] = "FAIL".toList then
      .ok { st with
            suite := { st.suite with
                       TestCases := st.suite.TestCases ++
                         [{ ClassName := path.Base st.suite.Name, Name := m.getD 2 [],
                            Time := "0".toList, Failure := some { Text := [] }, Skipped := false,
                            PropertyList := { PropertyList := [] } }]
                       Failures := st.suite.Failures + 1
                       Tests := st.suite.Tests + 1 }
            shared := 0 }
    else .ok st
  | none => .ok st

/-- One iteration of the loop of `parse` (`parse.go`, lines 157-219). -/
def parse.step (lib : GoLib) (st : parse.State) (line : Str) : Except ParseError parse.State :=
  if strings.HasPrefix line "    ".toList then
    .ok { st with logText := st.logText ++ (strings.TrimPrefix line "    ".toList ++ "\n".toList) }
  else parse.dispatch lib st.flush line

/-- The loop of `parse` over the lines; an error ends it at once. -/
def parse.loop (lib : GoLib) : parse.State → List Str → Except ParseError parse.State
  | st, [] => .ok st
  | st, line :: lines =>
    match parse.step lib st line with
    | .error e => .error e
    | .ok st' => parse.loop lib st' lines

/-- The function `parse` (`parse.go`, lines 151-222).  The result is Go's pair
`(*TestSuites, error)`, `none` standing for nil. -/
def parse (lib : GoLib) (raw : Str) : Option TestSuites × Option ParseError :=
  match parse.loop lib parse.init (strings.Split raw) with
  | .error e => (none, some e)
  | .ok st => (some st.suites, none)

/-! ## An interpretation of the library interface

`decimalLib` interprets `GoLib` by exact decimal arithmetic.  It is used to evaluate the
definitions on concrete inputs; no theorem with a `lib` parameter depends on it.  It covers
the numerals of at most 300 characters that `reBenchMetrics` can capture and the durations
of one numeral and one unit that `go test` prints (`1.490s`). -/

/-- The value of a string of decimal digits. -/
def decimalLib.value (s : Str) : Nat := s.foldl (fun n c => 10 * n + (c.toNat - 48)) 0

/-- A numeral `digits`, `digits.digits`, `digits.` or `.digits` as numerator and denominator. -/
def decimalLib.numeral (s : Str) : Option (Nat × Nat) :=
  match s.dropWhile Re.digit with
  | [] => if s = [] then none else some (decimalLib.value s, 1)
  | c :: fp =>
    if c = '.' ∧ fp.all Re.digit = true ∧ (s.takeWhile Re.digit ≠ [] ∨ fp ≠ []) then
      some (decimalLib.value (s.takeWhile Re.digit ++ fp), 10 ^ fp.length)
    else none

/-- The numerals of at most 300 characters; all of them round to a finite `float64`. -/
def decimalLib.ParseFloat (s : Str) : Option (Nat × Nat) :=
  if s.length ≤ 300 then decimalLib.numeral s else none

/-- Fixed-point notation with six fractional digits, rounding half to even. -/
def decimalLib.Sprintf (x : Nat × Nat) : Str :=
  if x.2 = 0 then (if x.1 = 0 then "NaN".toList else "+Inf".toList)
  else
    let q := x.1 * 10 ^ 6 / x.2
    let r := x.1 * 10 ^ 6 % x.2
    let q := if 2 * r > x.2 ∨ (2 * r = x.2 ∧ q % 2 = 1) then q + 1 else q
    let frac := Nat.toDigits 10 (q % 10 ^ 6)
    Nat.toDigits 10 (q / 10 ^ 6) ++ ['.'] ++ List.replicate (6 - frac.length) '0' ++ frac

/-- Nanoseconds per unit. -/
def decimalLib.unit (u : Str) : Option Nat :=
  if u = "ns".toList then some 1
  else if u = "us".toList then some 1000
  else if u = "ms".toList then some 1000000
  else if u = "s".toList then some 1000000000
  else if u = "m".toList then some 60000000000
  else if u = "h".toList then some 3600000000000
  else none

/-- A duration of one numeral and one unit, in nanoseconds. -/
def decimalLib.ParseDuration (s : Str) : Option Nat :=
  if s = "0".toList then some 0
  else
    match decimalLib.numeral (s.takeWhile Re.digitOrDot),
        decimalLib.unit (s.dropWhile Re.digitOrDot) with
    | some x, some u => if x.1 * u / x.2 < 2 ^ 63 then some (x.1 * u / x.2) else none
    | _, _ => none

/-- Exact decimal arithmetic on fractions. -/
def decimalLib : GoLib where
  Float64 := Nat × Nat
  ParseFloat := decimalLib.ParseFloat
  mul := fun x y => (x.1 * y.1, x.2 * y.2)
  div := fun x y => (x.1 * y.2, x.2 * y.1)
  billion := (1000000000, 1)
  Sprintf := decimalLib.Sprintf
  Duration := Nat
  ParseDuration := decimalLib.ParseDuration
  Seconds := fun d => (d, 1000000000)

/-! ## The example lines given in the comments of `parse.go` -/

/-- Each pattern matches the lines that the comment above it in `parse.go` lists, with the
submatches one expects. -/
theorem patterns_on_documented_lines :
    reSuiteStart.FindStringSubmatch "pkg: k8s.io/test-infra/experiment/dummybenchmarks".toList =
        some ["pkg: k8s.io/test-infra/experiment/dummybenchmarks".toList,
          "k8s.io/test-infra/experiment/dummybenchmarks".toList] ∧
      reSuiteEnd.FindStringSubmatch
          "ok  \tk8s.io/test-infra/experiment/dummybenchmarks/subpkg\t1.490s".toList =
        some ["ok  \tk8s.io/test-infra/experiment/dummybenchmarks/subpkg\t1.490s".toList,
          "ok".toList, "k8s.io/test-infra/experiment/dummybenchmarks/subpkg".toList,
          "1.490s".toList] ∧
      reSuiteEnd.FindStringSubmatch
          "FAIL\tk8s.io/test-infra/experiment/dummybenchmarks\t17.829s".toList =
        some ["FAIL\tk8s.io/test-infra/experiment/dummybenchmarks\t17.829s".toList,
          "FAIL".toList, "k8s.io/test-infra/experiment/dummybenchmarks".toList,
          "17.829s".toList] ∧
      reBenchMetrics.FindStringSubmatch
          "Benchmark-4                 \t20000000\t       77.9 ns/op".toList =
        some ["Benchmark-4                 \t20000000\t       77.9 ns/op".toList,
          "Benchmark-4".toList, "20000000".toList, "77.9".toList, [], [], []] ∧
      reBenchMetrics.FindStringSubmatch
          "BenchmarkAllocsAndBytes-4   \t10000000\t       131 ns/op\t 152.50 MB/s\t     112 B/op\t       2 allocs/op".toList =
        some ["BenchmarkAllocsAndBytes-4   \t10000000\t       131 ns/op\t 152.50 MB/s\t     112 B/op\t       2 allocs/op".toList,
          "BenchmarkAllocsAndBytes-4".toList, "10000000".toList, "131".toList,
          "152.50".toList, "112".toList, "2".toList] ∧
      reActionLine.FindStringSubmatch "--- BENCH: BenchmarkLog-4".toList =
        some ["--- BENCH: BenchmarkLog-4".toList, "BENCH".toList, "BenchmarkLog-4".toList] ∧
      reActionLine.FindStringSubmatch "--- SKIP: BenchmarkSkip".toList =
        some ["--- SKIP: BenchmarkSkip".toList, "SKIP".toList, "BenchmarkSkip".toList] ∧
      reActionLine.FindStringSubmatch "--- FAIL: BenchmarkFatal".toList =
        some ["--- FAIL: BenchmarkFatal".toList, "FAIL".toList, "BenchmarkFatal".toList] := by
  decide

/-! ## The line patterns exclude one another -/

/-- An anchored expression only matches at offset 0. -/
theorem Re.findFrom_bot (r : Re) (s : Str) :
    ∀ pos : Nat, pos ≠ 0 → (Re.seq .bot r).findFrom pos s = none := by
  induction s with
  | nil => intro pos h; simp [Re.findFrom, Re.run, h]
  | cons c t ih =>
    intro pos h
    simp [Re.findFrom, Re.run, h]
    exact ih (pos + 1) (by omega)

/-- An anchored expression that starts with a literal only matches text starting with it. -/
theorem Re.find_lit_head {c : Char} {l : Str} {r : Re} {s : Str} {m : List Str}
    (h : (Re.seq .bot (.seq (.lit (c :: l)) r)).FindStringSubmatch s = some m) :
    ∃ t, s = c :: t := by
  unfold Re.FindStringSubmatch at h
  cases s with
  | nil => simp [Re.findFrom, Re.run, Re.stripLit] at h
  | cons d t =>
    by_cases hd : c = d
    · exact ⟨t, by rw [hd]⟩
    · simp [Re.findFrom, Re.run, Re.stripLit, hd, Re.findFrom_bot] at h

/-- The same for a literal inside a group. -/
theorem Re.find_group_lit_head {c : Char} {l : Str} {i : Nat} {x r : Re} {s : Str} {m : List Str}
    (h : (Re.seq .bot (.seq (.group i (.seq (.lit (c :: l)) x)) r)).FindStringSubmatch s =
      some m) :
    ∃ t, s = c :: t := by
  unfold Re.FindStringSubmatch at h
  cases s with
  | nil => simp [Re.findFrom, Re.run, Re.stripLit] at h
  | cons d t =>
    by_cases hd : c = d
    · exact ⟨t, by rw [hd]⟩
    · simp [Re.findFrom, Re.run, Re.stripLit, hd, Re.findFrom_bot] at h

/-- The same for a choice of two literals inside a group. -/
theorem Re.find_group_alt_head {a b : Char} {u v : Str} {i : Nat} {r : Re} {s : Str}
    {m : List Str}
    (h : (Re.seq .bot (.seq (.group i (.alt (.lit (a :: u)) (.lit (b :: v)))) r)).FindStringSubmatch
      s = some m) :
    ∃ t, s = a :: t ∨ s = b :: t := by
  unfold Re.FindStringSubmatch at h
  cases s with
  | nil => simp [Re.findFrom, Re.run, Re.stripLit] at h
  | cons d t =>
    by_cases hd : a = d
    · exact ⟨t, Or.inl (by rw [hd])⟩
    · by_cases hd₂ : b = d
      · exact ⟨t, Or.inr (by rw [hd₂])⟩
      · simp [Re.findFrom, Re.run, Re.stripLit, hd, hd₂, Re.findFrom_bot] at h

/-- A suite-start line begins with `p`. -/
theorem reSuiteStart_head {s : Str} {m : List Str}
    (h : reSuiteStart.FindStringSubmatch s = some m) : ∃ t, s = 'p' :: t :=
  Re.find_lit_head (l := "kg:".toList) h

/-- A suite-end line begins with `o` or `F`. -/
theorem reSuiteEnd_head {s : Str} {m : List Str}
    (h : reSuiteEnd.FindStringSubmatch s = some m) : ∃ t, s = 'o' :: t ∨ s = 'F' :: t :=
  Re.find_group_alt_head (u := "k".toList) (v := "AIL".toList) h

/-- A metrics line begins with `B`. -/
theorem reBenchMetrics_head {s : Str} {m : List Str}
    (h : reBenchMetrics.FindStringSubmatch s = some m) : ∃ t, s = 'B' :: t :=
  Re.find_group_lit_head (l := "enchmark".toList) h

/-- An action line begins with `-`. -/
theorem reActionLine_head {s : Str} {m : List Str}
    (h : reActionLine.FindStringSubmatch s = some m) : ∃ t, s = '-' :: t :=
  Re.find_lit_head (l := "-- ".toList) h

/-- A line indented by four spaces begins with a space. -/
theorem HasPrefix_head {s : Str} (h : strings.HasPrefix s "    ".toList = true) :
    ∃ t, s = ' ' :: t := by
  cases s with
  | nil => simp [strings.HasPrefix, List.isPrefixOf] at h
  | cons d t =>
    have h1 : "    ".toList = [' ', ' ', ' ', ' '] := rfl
    rw [h1] at h
    simp [strings.HasPrefix, List.isPrefixOf] at h
    exact ⟨t, by rw [h.1]⟩

/-- No line matches both `reSuiteStart` and `reSuiteEnd`. -/
theorem reSuiteStart_none_of_end {s : Str} {m : List Str}
    (h : reSuiteEnd.FindStringSubmatch s = some m) : reSuiteStart.FindStringSubmatch s = none := by
  cases h' : reSuiteStart.FindStringSubmatch s with
  | none => rfl
  | some m' =>
    obtain ⟨t, ht⟩ := reSuiteStart_head h'
    obtain ⟨u, hu | hu⟩ := reSuiteEnd_head h <;> simp [ht] at hu

/-- No line matches both `reSuiteStart` and `reBenchMetrics`. -/
theorem reSuiteStart_none_of_metrics {s : Str} {m : List Str}
    (h : reBenchMetrics.FindStringSubmatch s = some m) :
    reSuiteStart.FindStringSubmatch s = none := by
  cases h' : reSuiteStart.FindStringSubmatch s with
  | none => rfl
  | some m' =>
    obtain ⟨t, ht⟩ := reSuiteStart_head h'
    obtain ⟨u, hu⟩ := reBenchMetrics_head h
    simp [ht] at hu

/-- No line matches both `reSuiteEnd` and `reBenchMetrics`. -/
theorem reSuiteEnd_none_of_metrics {s : Str} {m : List Str}
    (h : reBenchMetrics.FindStringSubmatch s = some m) :
    reSuiteEnd.FindStringSubmatch s = none := by
  cases h' : reSuiteEnd.FindStringSubmatch s with
  | none => rfl
  | some m' =>
    obtain ⟨u, hu⟩ := reBenchMetrics_head h
    obtain ⟨t, ht | ht⟩ := reSuiteEnd_head h' <;> simp [ht] at hu

/-- No line matches both `reSuiteStart` and `reActionLine`. -/
theorem reSuiteStart_none_of_action {s : Str} {m : List Str}
    (h : reActionLine.FindStringSubmatch s = some m) :
    reSuiteStart.FindStringSubmatch s = none := by
  cases h' : reSuiteStart.FindStringSubmatch s with
  | none => rfl
  | some m' =>
    obtain ⟨t, ht⟩ := reSuiteStart_head h'
    obtain ⟨u, hu⟩ := reActionLine_head h
    simp [ht] at hu

/-- No line matches both `reSuiteEnd` and `reActionLine`. -/
theorem reSuiteEnd_none_of_action {s : Str} {m : List Str}
    (h : reActionLine.FindStringSubmatch s = some m) :
    reSuiteEnd.FindStringSubmatch s = none := by
  cases h' : reSuiteEnd.FindStringSubmatch s with
  | none => rfl
  | some m' =>
    obtain ⟨u, hu⟩ := reActionLine_head h
    obtain ⟨t, ht | ht⟩ := reSuiteEnd_head h' <;> simp [ht] at hu

/-- No line matches both `reBenchMetrics` and `reActionLine`. -/
theorem reBenchMetrics_none_of_action {s : Str} {m : List Str}
    (h : reActionLine.FindStringSubmatch s = some m) :
    reBenchMetrics.FindStringSubmatch s = none := by
  cases h' : reBenchMetrics.FindStringSubmatch s with
  | none => rfl
  | some m' =>
    obtain ⟨u, hu⟩ := reActionLine_head h
    obtain ⟨t, ht⟩ := reBenchMetrics_head h'
    simp [ht] at hu

/-- A suite-start line is not indented. -/
theorem not_indented_of_start {s : Str} {m : List Str}
    (h : reSuiteStart.FindStringSubmatch s = some m) :
    strings.HasPrefix s "    ".toList = false := by
  cases h' : strings.HasPrefix s "    ".toList with
  | false => rfl
  | true =>
    obtain ⟨u, hu⟩ := HasPrefix_head h'
    obtain ⟨t, ht⟩ := reSuiteStart_head h
    simp [ht] at hu

/-- A suite-end line is not indented. -/
theorem not_indented_of_end {s : Str} {m : List Str}
    (h : reSuiteEnd.FindStringSubmatch s = some m) :
    strings.HasPrefix s "    ".toList = false := by
  cases h' : strings.HasPrefix s "    ".toList with
  | false => rfl
  | true =>
    obtain ⟨u, hu⟩ := HasPrefix_head h'
    obtain ⟨t, ht | ht⟩ := reSuiteEnd_head h <;> simp [ht] at hu

/-- A metrics line is not indented. -/
theorem not_indented_of_metrics {s : Str} {m : List Str}
    (h : reBenchMetrics.FindStringSubmatch s = some m) :
    strings.HasPrefix s "    ".toList = false := by
  cases h' : strings.HasPrefix s "    ".toList with
  | false => rfl
  | true =>
    obtain ⟨u, hu⟩ := HasPrefix_head h'
    obtain ⟨t, ht⟩ := reBenchMetrics_head h
    simp [ht] at hu

/-- An action line is not indented. -/
theorem not_indented_of_action {s : Str} {m : List Str}
    (h : reActionLine.FindStringSubmatch s = some m) :
    strings.HasPrefix s "    ".toList = false := by
  cases h' : strings.HasPrefix s "    ".toList with
  | false => rfl
  | true =>
    obtain ⟨u, hu⟩ := HasPrefix_head h'
    obtain ⟨t, ht⟩ := reActionLine_head h
    simp [ht] at hu

/-! ## Frame lemmas for `recordLogText` and `flush` -/

theorem TestSuite.recordLogText_Name (s : TestSuite) (text : Str) :
    (s.recordLogText text).Name = s.Name := by
  unfold TestSuite.recordLogText; split
  · rfl
  · dsimp only; split <;> rfl

theorem TestSuite.recordLogText_Tests (s : TestSuite) (text : Str) :
    (s.recordLogText text).Tests = s.Tests := by
  unfold TestSuite.recordLogText; split
  · rfl
  · dsimp only; split <;> rfl

theorem TestSuite.recordLogText_Failures (s : TestSuite) (text : Str) :
    (s.recordLogText text).Failures = s.Failures := by
  unfold TestSuite.recordLogText; split
  · rfl
  · dsimp only; split <;> rfl

theorem TestSuite.recordLogText_length (s : TestSuite) (text : Str) :
    (s.recordLogText text).TestCases.length = s.TestCases.length := by
  unfold TestSuite.recordLogText; split
  · rfl
  · rename_i tc h
    dsimp only; split
    · rfl
    · have hne : s.TestCases ≠ [] := by
        intro h0; rw [h0] at h; simp at h
      simp [List.length_dropLast]
      have := List.length_pos.mpr hne
      omega

theorem parse.State.flush_logText (st : parse.State) : st.flush.logText = [] := by
  unfold parse.State.flush; split
  · rfl
  · rename_i h
    simpa using h

theorem parse.State.flush_Name (st : parse.State) : st.flush.suite.Name = st.suite.Name := by
  unfold parse.State.flush; split
  · exact TestSuite.recordLogText_Name _ _
  · rfl

theorem parse.State.flush_Tests (st : parse.State) : st.flush.suite.Tests = st.suite.Tests := by
  unfold parse.State.flush; split
  · exact TestSuite.recordLogText_Tests _ _
  · rfl

theorem parse.State.flush_Failures (st : parse.State) :
    st.flush.suite.Failures = st.suite.Failures := by
  unfold parse.State.flush; split
  · exact TestSuite.recordLogText_Failures _ _
  · rfl

theorem parse.State.flush_length (st : parse.State) :
    st.flush.suite.TestCases.length = st.suite.TestCases.length := by
  unfold parse.State.flush; split
  · exact TestSuite.recordLogText_length _ _
  · rfl

theorem parse.State.flush_suites_length (st : parse.State) :
    st.flush.suites.List.length = st.suites.List.length := by
  unfold parse.State.flush; split
  · simp
  · rfl

theorem parse.State.flush_of_empty (st : parse.State) (h : st.logText = []) : st.flush = st := by
  unfold parse.State.flush; simp [h]

theorem parse.State.flush_flush (st : parse.State) : st.flush.flush = st.flush :=
  parse.State.flush_of_empty _ st.flush_logText

/-! ## The loop -/

theorem parse.loop_append (lib : GoLib) (xs ys : List Str) :
    ∀ st : parse.State, parse.loop lib st (xs ++ ys) =
      match parse.loop lib st xs with
      | .error e => .error e
      | .ok st' => parse.loop lib st' ys := by
  induction xs with
  | nil => intro st; rfl
  | cons x xs ih =>
    intro st
    simp only [List.cons_append, parse.loop]
    cases parse.step lib st x with
    | error e => rfl
    | ok st' => exact ih st'

theorem parse.step_of_not_indented (lib : GoLib) (st : parse.State) {line : Str}
    (h : strings.HasPrefix line "    ".toList = false) :
    parse.step lib st line = parse.dispatch lib st.flush line := by
  unfold parse.step
  rw [h]
  rfl

/-! ## Suite-end lines -/

/-- What `parse.dispatch` does on a suite-end line. -/
theorem parse.dispatch_end (lib : GoLib) (st : parse.State) {line : Str} {m : List Str}
    (h : reSuiteEnd.FindStringSubmatch line = some m) :
    parse.dispatch lib st line =
      if m.getD 2 [] ≠ st.suite.Name then .error (.mismatched (m.getD 2 []) st.suite.Name)
      else
        match lib.ParseDuration (m.getD 3 []) with
        | none => .error (.testTime (m.getD 3 []))
        | some duration =>
          .ok { st with
                suite := { st.suite with Time := lib.Sprintf (lib.Seconds duration) }
                suites := { st.suites with
                            List := st.suites.List ++
                              [{ st.suite with Time := lib.Sprintf (lib.Seconds duration) }] }
                shared := st.shared + 1 } := by
  unfold parse.dispatch
  rw [reSuiteStart_none_of_end h, h]

/-- C1: if `parse` reaches a suite-end line whose captured path differs from the name of the
current suite (the empty name when no suite-start line came before), it returns the
mismatch error and a nil report, whatever lines follow. -/
theorem parse_suite_end_mismatch (lib : GoLib) (raw : Str) (pre post : List Str) (line : Str)
    (m : List Str) (st : parse.State)
    (hsplit : strings.Split raw = pre ++ line :: post)
    (hpre : parse.loop lib parse.init pre = .ok st)
    (hend : reSuiteEnd.FindStringSubmatch line = some m)
    (hne : m.getD 2 [] ≠ st.suite.Name) :
    parse lib raw = (none, some (.mismatched (m.getD 2 []) st.suite.Name)) := by
  unfold parse
  rw [hsplit, parse.loop_append, hpre]
  simp only [parse.loop]
  rw [parse.step_of_not_indented lib st (not_indented_of_end hend), parse.dispatch_end lib _ hend,
    parse.State.flush_Name, if_pos hne]

/-- C1 at a concrete input: the open suite is `foo`, the suite-end line names `bar`. -/
theorem parse_suite_end_mismatch_witness :
    parse decimalLib "pkg: foo\nok  \tbar\t1.490s\nBenchmarkX 1 1 ns/op".toList =
      (none, some (.mismatched "bar".toList "foo".toList)) :=
  parse_suite_end_mismatch decimalLib "pkg: foo\nok  \tbar\t1.490s\nBenchmarkX 1 1 ns/op".toList
    ["pkg: foo".toList] ["BenchmarkX 1 1 ns/op".toList] "ok  \tbar\t1.490s".toList
    ["ok  \tbar\t1.490s".toList, "ok".toList, "bar".toList, "1.490s".toList]
    { parse.init with suite := { parse.init.suite with Name := "foo".toList } }
    (by decide) (by rfl) (by decide) (by decide)

/-! ## `truncate` -/

theorem truncate_length_le (s : Str) (n : Nat) : (truncate s n).length ≤ n := by
  unfold truncate
  split
  · assumption
  · split
    · have h3 : "...".toList.length = 3 := rfl
      rw [List.length_append, List.length_take, h3]
      omega
    · rw [List.length_take]
      omega

/-- What `recordLogText` leaves in the last case when that case has a `Failure`. -/
theorem TestSuite.recordLogText_getLast (suite : TestSuite) (text : Str) (tc : TestCase)
    (f : Failure) (hlast : suite.TestCases.getLast? = some tc) (hf : tc.Failure = some f) :
    (suite.recordLogText text).TestCases =
      suite.TestCases.dropLast ++
        [{ tc with
           Failure := some { Text := truncate text 1000 }
           PropertyList :=
             { PropertyList := tc.PropertyList.PropertyList ++
                 [{ Name := "categorized_fail".toList, Value := truncate text 1000 }] } }] := by
  unfold TestSuite.recordLogText
  rw [hlast]
  dsimp only
  rw [hf]

/-- C4: `truncate s n` is `s` when `s` has at most `n` characters, otherwise the first
`n - 3` characters and `...` when `n > 3`, and the first `n` characters when `n ≤ 3`; the
result never has more than `n` characters.  The text `recordLogText` stores in a failing
last case is the log text when it has at most 1000 characters and otherwise its first 997
characters followed by `...`. -/
theorem truncate_spec (s : Str) (n : Nat) :
    (s.length ≤ n → truncate s n = s) ∧
    (n < s.length → 3 < n → truncate s n = s.take (n - 3) ++ "...".toList) ∧
    (n < s.length → n ≤ 3 → truncate s n = s.take n) ∧
    (truncate s n).length ≤ n ∧
    (∀ (suite : TestSuite) (tc : TestCase) (f : Failure),
      suite.TestCases.getLast? = some tc → tc.Failure = some f →
      ((suite.recordLogText s).TestCases.getLast?).map (fun c => c.Failure) =
        some (some { Text := if s.length ≤ 1000 then s else s.take 997 ++ "...".toList })) := by
  refine ⟨?_, ?_, ?_, truncate_length_le s n, ?_⟩
  · intro h
    simp [truncate, h]
  · intro h h3
    simp [truncate, Nat.not_le.mpr h, h3]
  · intro h h3
    simp [truncate, Nat.not_le.mpr h, Nat.not_lt.mpr h3]
  · intro suite tc f hlast hf
    rw [TestSuite.recordLogText_getLast suite s tc f hlast hf]
    simp [truncate]

/-! ## Action lines -/

/-- What `parse.dispatch` does on an action line. -/
theorem parse.dispatch_action (lib : GoLib) (st : parse.State) {line : Str} {m : List Str}
    (h : reActionLine.FindStringSubmatch line = some m) :
    parse.dispatch lib st line =
      if m.getD 1 [] = "SKIP".toList then
        .ok { st with
              suite := { st.suite with
                         TestCases := st.suite.TestCases ++
                           [{ ClassName := path.Base st.suite.Name, Name := m.getD 2 [],
                              Time := "0".toList, Failure := none, Skipped := true,
                              PropertyList := { PropertyList := [] } }] }
              shared := 0 }
      else if m.getD 1 [] = "FAIL".toList then
        .ok { st with
              suite := { st.suite with
                         TestCases := st.suite.TestCases ++
                           [{ ClassName := path.Base st.suite.Name, Name := m.getD 2 [],
                              Time := "0".toList, Failure := some { Text := [] },
                              Skipped := false, PropertyList := { PropertyList := [] } }]
                         Failures := st.suite.Failures + 1
                         Tests := st.suite.Tests + 1 }
              shared := 0 }
      else .ok st := by
  unfold parse.dispatch
  rw [reSuiteStart_none_of_action h, reSuiteEnd_none_of_action h,
    reBenchMetrics_none_of_action h, h]

/-- C5: on a skip action line for benchmark `name`, one loop iteration appends exactly one
case to the current suite (after the pending log text, if any, has been recorded), and that
case has `Skipped = true`, `Time = "0"`, no `Failure`, no properties and `Name = name`. -/
theorem parse_step_skip (lib : GoLib) (st : parse.State) (line : Str) (m : List Str)
    (hact : reActionLine.FindStringSubmatch line = some m)
    (hskip : m.getD 1 [] = "SKIP".toList) :
    ∃ st' tc, parse.step lib st line = .ok st' ∧
      st'.suite.TestCases = st.flush.suite.TestCases ++ [tc] ∧
      st'.suite.TestCases.length = st.suite.TestCases.length + 1 ∧
      tc.Skipped = true ∧ tc.Time = "0".toList ∧ tc.Failure = none ∧
      tc.PropertyList.PropertyList = [] ∧ tc.Name = m.getD 2 [] := by
  rw [parse.step_of_not_indented lib st (not_indented_of_action hact),
    parse.dispatch_action lib _ hact, if_pos hskip]
  refine ⟨_, _, rfl, rfl, ?_, rfl, rfl, rfl, rfl, rfl⟩
  simp [parse.State.flush_length]

/-- C5 at a concrete input: the line `--- SKIP: BenchmarkSkip` in a suite with one case. -/
theorem parse_step_skip_witness :
    ∃ st' tc,
      parse.step decimalLib
        { parse.init with
          suite := { parse.init.suite with
                     Name := "foo".toList
                     Tests := 1
                     TestCases := [{ ClassName := "foo".toList, Name := "BenchmarkA".toList,
                                     Time := "0.000000".toList, Failure := none, Skipped := false,
                                     PropertyList := { PropertyList := [] } }] } }
        "--- SKIP: BenchmarkSkip".toList = .ok st' ∧
      st'.suite.TestCases =
        (parse.State.flush
          { parse.init with
            suite := { parse.init.suite with
                       Name := "foo".toList
                       Tests := 1
                       TestCases := [{ ClassName := "foo".toList, Name := "BenchmarkA".toList,
                                       Time := "0.000000".toList, Failure := none,
                                       Skipped := false,
                                       PropertyList := { PropertyList := [] } }] } }).suite.TestCases
          ++ [tc] ∧
      st'.suite.TestCases.length = 1 + 1 ∧
      tc.Skipped = true ∧ tc.Time = "0".toList ∧ tc.Failure = none ∧
      tc.PropertyList.PropertyList = [] ∧ tc.Name = "BenchmarkSkip".toList :=
  parse_step_skip decimalLib _ "--- SKIP: BenchmarkSkip".toList
    ["--- SKIP: BenchmarkSkip".toList, "SKIP".toList, "BenchmarkSkip".toList]
    (by decide) (by decide)

/-! ## Suite-start and metrics lines -/

/-- What `parse.dispatch` does on a suite-start line. -/
theorem parse.dispatch_start (lib : GoLib) (st : parse.State) {line : Str} {m : List Str}
    (h : reSuiteStart.FindStringSubmatch line = some m) :
    parse.dispatch lib st line =
      .ok { st with
            suite := { Name := m.getD 1 [], Tests := 0, Failures := 0, Time := [],
                       TestCases := [] }
            shared := 0 } := by
  unfold parse.dispatch
  rw [h]

/-- What `parse.dispatch` does on a metrics line. -/
theorem parse.dispatch_metrics (lib : GoLib) (st : parse.State) {line : Str} {m : List Str}
    (h : reBenchMetrics.FindStringSubmatch line = some m) :
    parse.dispatch lib st line =
      match propertiesFromMatch lib m with
      | .error e => .error (.metricValues e)
      | .ok (props, duration) =>
        .ok { st with
              suite := { st.suite with
                         TestCases := st.suite.TestCases ++
                           [{ ClassName := path.Base st.suite.Name, Name := m.getD 1 [],
                              Time := duration, Failure := none, Skipped := false,
                              PropertyList := props }]
                         Tests := st.suite.Tests + 1 }
              shared := 0 } := by
  unfold parse.dispatch
  rw [reSuiteStart_none_of_metrics h, reSuiteEnd_none_of_metrics h, h]

/-- `propertiesFromMatch` succeeds when both numeric tokens parse. -/
theorem propertiesFromMatch_ok (lib : GoLib) (m : List Str)
    (h2 : (lib.ParseFloat (m.getD 2 [])).isSome = true)
    (h3 : (lib.ParseFloat (m.getD 3 [])).isSome = true) :
    ∃ p, propertiesFromMatch lib m = .ok p := by
  obtain ⟨a, ha⟩ := Option.isSome_iff_exists.mp h2
  obtain ⟨b, hb⟩ := Option.isSome_iff_exists.mp h3
  unfold propertiesFromMatch
  rw [ha, hb]
  exact ⟨_, rfl⟩

/-- `propertiesFromMatch` fails exactly when one of the two numeric tokens does not parse. -/
theorem propertiesFromMatch_error_iff (lib : GoLib) (m : List Str) :
    (∃ e, propertiesFromMatch lib m = .error e) ↔
      (lib.ParseFloat (m.getD 2 []) = none ∨ lib.ParseFloat (m.getD 3 []) = none) := by
  unfold propertiesFromMatch
  cases h2 : lib.ParseFloat (m.getD 2 []) with
  | none => simp
  | some a =>
    cases h3 : lib.ParseFloat (m.getD 3 []) with
    | none => simp
    | some b => simp

/-- A run of metrics lines whose numeric tokens parse adds one case per line. -/
theorem parse.loop_metrics (lib : GoLib) (ms : List Str)
    (hms : ∀ l ∈ ms, ∃ m, reBenchMetrics.FindStringSubmatch l = some m ∧
      (lib.ParseFloat (m.getD 2 [])).isSome = true ∧
      (lib.ParseFloat (m.getD 3 [])).isSome = true) :
    ∀ st : parse.State, st.logText = [] →
      ∃ st', parse.loop lib st ms = .ok st' ∧ st'.logText = [] ∧ st'.suites = st.suites ∧
        st'.suite.Name = st.suite.Name ∧ st'.suite.Tests = st.suite.Tests + ms.length ∧
        st'.suite.Failures = st.suite.Failures ∧
        st'.suite.TestCases.length = st.suite.TestCases.length + ms.length ∧
        st'.suite.TestCases.map (fun c => c.Name) =
          st.suite.TestCases.map (fun c => c.Name) ++
            ms.map (fun l => ((reBenchMetrics.FindStringSubmatch l).getD []).getD 1 []) := by
  induction ms with
  | nil => intro st h; exact ⟨st, rfl, h, rfl, rfl, rfl, rfl, rfl, by simp⟩
  | cons l ls ih =>
    intro st hlog
    obtain ⟨m, hm, h2, h3⟩ := hms l (List.mem_cons_self _ _)
    obtain ⟨p, hp⟩ := propertiesFromMatch_ok lib m h2 h3
    have hstep := parse.step_of_not_indented lib st (not_indented_of_metrics hm)
    rw [parse.State.flush_of_empty st hlog, parse.dispatch_metrics lib st hm, hp] at hstep
    obtain ⟨st', hl, hlog', hsuites, hname, htests, hfail, hlen, hmap⟩ :=
      ih (fun x hx => hms x (List.mem_cons_of_mem _ hx)) _
        (show (parse.State.mk st.suites
          { st.suite with
            TestCases := st.suite.TestCases ++
              [{ ClassName := path.Base st.suite.Name, Name := m.getD 1 [], Time := p.2,
                 Failure := none, Skipped := false, PropertyList := p.1 }]
            Tests := st.suite.Tests + 1 } st.logText 0).logText = [] from hlog)
    dsimp only at hsuites hname htests hfail hlen hmap
    refine ⟨st', ?_, hlog', hsuites, hname, ?_, hfail, ?_, ?_⟩
    · simp only [parse.loop, hstep]
      exact hl
    · rw [htests]; simp only [List.length_cons]; omega
    · rw [hlen]; simp only [List.length_cons, List.length_append, List.length_nil]; omega
    · rw [hmap]; simp [hm]

/-- One block: a suite-start line, metrics lines whose numeric tokens parse, and a suite-end
line that names the same path and carries a duration.  The loop goes through it and appends
one suite to the report. -/
theorem parse.loop_block (lib : GoLib) (start : Str) (ms : List Str) (fin : Str)
    (m0 me : List Str)
    (hstart : reSuiteStart.FindStringSubmatch start = some m0)
    (hms : ∀ l ∈ ms, ∃ m, reBenchMetrics.FindStringSubmatch l = some m ∧
      (lib.ParseFloat (m.getD 2 [])).isSome = true ∧
      (lib.ParseFloat (m.getD 3 [])).isSome = true)
    (hend : reSuiteEnd.FindStringSubmatch fin = some me)
    (hname : me.getD 2 [] = m0.getD 1 [])
    (hdur : (lib.ParseDuration (me.getD 3 [])).isSome = true) :
    ∀ st : parse.State, st.logText = [] →
      ∃ st' s, parse.loop lib st (start :: (ms ++ [fin])) = .ok st' ∧ st'.logText = [] ∧
        st'.suites = { st.suites with List := st.suites.List ++ [s] } ∧
        s.Name = m0.getD 1 [] ∧ s.Tests = ms.length ∧ s.Failures = 0 ∧
        s.TestCases.length = ms.length ∧
        s.TestCases.map (fun c => c.Name) =
          ms.map (fun l => ((reBenchMetrics.FindStringSubmatch l).getD []).getD 1 []) := by
  intro st hlog
  obtain ⟨d, hd⟩ := Option.isSome_iff_exists.mp hdur
  have h1 := parse.step_of_not_indented lib st (not_indented_of_start hstart)
  rw [parse.State.flush_of_empty st hlog, parse.dispatch_start lib st hstart] at h1
  obtain ⟨st2, hl, hlog2, hsuites, hn, htests, hfail, hlen, hmap⟩ :=
    parse.loop_metrics lib ms hms
      { st with
        suite := { Name := m0.getD 1 [], Tests := 0, Failures := 0, Time := [], TestCases := [] }
        shared := 0 } hlog
  dsimp only at hsuites hn htests hfail hlen hmap
  have h3 := parse.step_of_not_indented lib st2 (not_indented_of_end hend)
  rw [parse.State.flush_of_empty st2 hlog2, parse.dispatch_end lib st2 hend,
    if_neg (by rw [hn, hname]; exact fun h => h rfl), hd] at h3
  refine ⟨{ st2 with
            suite := { st2.suite with Time := lib.Sprintf (lib.Seconds d) }
            suites := { st2.suites with
                        List := st2.suites.List ++
                          [{ st2.suite with Time := lib.Sprintf (lib.Seconds d) }] }
            shared := st2.shared + 1 },
    { st2.suite with Time := lib.Sprintf (lib.Seconds d) }, ?_, hlog2, ?_, hn, ?_,
    hfail, ?_, ?_⟩
  · simp only [parse.loop, h1]
    rw [parse.loop_append, hl]
    simp only [parse.loop, h3]
  · simp only [hsuites]
  · simpa using htests
  · simpa using hlen
  · simpa using hmap

/-! ## One suite, and several suites -/

/-- C2, as the code has it: for every `N` and every input that is one suite-start line, `N`
metrics lines whose op-count and ns/op tokens parse as numbers, and a suite-end line that
names the same path and whose third token parses as a duration, `parse` succeeds and the
report has exactly one suite, with `Tests = N`, `Failures = 0` and `N` cases that carry the
benchmark names of the metrics lines in input order. -/
theorem parse_one_suite (lib : GoLib) (raw : Str) (start : Str) (ms : List Str) (fin : Str)
    (m0 me : List Str)
    (hsplit : strings.Split raw = start :: (ms ++ [fin]))
    (hstart : reSuiteStart.FindStringSubmatch start = some m0)
    (hms : ∀ l ∈ ms, ∃ m, reBenchMetrics.FindStringSubmatch l = some m ∧
      (lib.ParseFloat (m.getD 2 [])).isSome = true ∧
      (lib.ParseFloat (m.getD 3 [])).isSome = true)
    (hend : reSuiteEnd.FindStringSubmatch fin = some me)
    (hname : me.getD 2 [] = m0.getD 1 [])
    (hdur : (lib.ParseDuration (me.getD 3 [])).isSome = true) :
    ∃ s, parse lib raw = (some { XMLName := [], List := [s] }, none) ∧
      s.Name = m0.getD 1 [] ∧ s.Tests = ms.length ∧ s.Failures = 0 ∧
      s.TestCases.length = ms.length ∧
      s.TestCases.map (fun c => c.Name) =
        ms.map (fun l => ((reBenchMetrics.FindStringSubmatch l).getD []).getD 1 []) := by
  obtain ⟨st', s, hl, _, hsuites, hrest⟩ :=
    parse.loop_block lib start ms fin m0 me hstart hms hend hname hdur parse.init rfl
  refine ⟨s, ?_, hrest⟩
  unfold parse
  rw [hsplit, hl]
  dsimp only
  rw [hsuites]
  rfl

/-- The amended C2 at a concrete input with two metrics lines. -/
theorem parse_one_suite_witness :
    ∃ s, parse decimalLib
        "pkg: foo\nBenchmarkA-4 \t20000000\t 77.9 ns/op\nBenchmarkB 3 5 ns/op 2 allocs/op\nok  \tfoo\t1.490s".toList =
          (some { XMLName := [], List := [s] }, none) ∧
      s.Name = "foo".toList ∧ s.Tests = 2 ∧ s.Failures = 0 ∧ s.TestCases.length = 2 ∧
      s.TestCases.map (fun c => c.Name) = ["BenchmarkA-4".toList, "BenchmarkB".toList] :=
  parse_one_suite decimalLib
    "pkg: foo\nBenchmarkA-4 \t20000000\t 77.9 ns/op\nBenchmarkB 3 5 ns/op 2 allocs/op\nok  \tfoo\t1.490s".toList
    "pkg: foo".toList
    ["BenchmarkA-4 \t20000000\t 77.9 ns/op".toList, "BenchmarkB 3 5 ns/op 2 allocs/op".toList]
    "ok  \tfoo\t1.490s".toList
    ["pkg: foo".toList, "foo".toList]
    ["ok  \tfoo\t1.490s".toList, "ok".toList, "foo".toList, "1.490s".toList]
    (by decide) (by decide) (by decide) (by decide) (by decide) (by decide)

/-- C2 as stated fails: a suite-start line, one line that matches `reBenchMetrics` and a
suite-end line naming the same path, on which `parse` returns an error and no report,
because the ns/op token `1.2.3` is not a number. -/
theorem parse_one_suite_counterexample :
    strings.Split "pkg: foo\nBenchmarkA 1 1.2.3 ns/op\nok foo 1s".toList =
        ["pkg: foo".toList, "BenchmarkA 1 1.2.3 ns/op".toList, "ok foo 1s".toList] ∧
      reSuiteStart.FindStringSubmatch "pkg: foo".toList =
        some ["pkg: foo".toList, "foo".toList] ∧
      reBenchMetrics.FindStringSubmatch "BenchmarkA 1 1.2.3 ns/op".toList =
        some ["BenchmarkA 1 1.2.3 ns/op".toList, "BenchmarkA".toList, "1".toList,
          "1.2.3".toList, [], [], []] ∧
      reSuiteEnd.FindStringSubmatch "ok foo 1s".toList =
        some ["ok foo 1s".toList, "ok".toList, "foo".toList, "1s".toList] ∧
      parse decimalLib "pkg: foo\nBenchmarkA 1 1.2.3 ns/op\nok foo 1s".toList =
        (none, some (.metricValues (.nsop "1.2.3".toList))) := by
  decide

/-- Several blocks in a row: the loop appends one suite per block, in order. -/
theorem parse.loop_blocks (lib : GoLib) (blocks : List (Str × List Str × Str))
    (hblocks : ∀ b ∈ blocks, ∃ m0 me,
      reSuiteStart.FindStringSubmatch b.1 = some m0 ∧
      (∀ l ∈ b.2.1, ∃ m, reBenchMetrics.FindStringSubmatch l = some m ∧
        (lib.ParseFloat (m.getD 2 [])).isSome = true ∧
        (lib.ParseFloat (m.getD 3 [])).isSome = true) ∧
      reSuiteEnd.FindStringSubmatch b.2.2 = some me ∧
      me.getD 2 [] = m0.getD 1 [] ∧
      (lib.ParseDuration (me.getD 3 [])).isSome = true) :
    ∀ st : parse.State, st.logText = [] →
      ∃ st' new, parse.loop lib st (blocks.flatMap (fun b => b.1 :: (b.2.1 ++ [b.2.2]))) = .ok st' ∧
        st'.logText = [] ∧
        st'.suites = { st.suites with List := st.suites.List ++ new } ∧
        new.map (fun s => s.Name) =
          blocks.map (fun b => ((reSuiteStart.FindStringSubmatch b.1).getD []).getD 1 []) ∧
        new.map (fun s => s.Tests) = blocks.map (fun b => b.2.1.length) := by
  induction blocks with
  | nil => intro st h; exact ⟨st, [], rfl, h, by simp, rfl, rfl⟩
  | cons b bs ih =>
    intro st hlog
    obtain ⟨m0, me, hstart, hms, hend, hname, hdur⟩ := hblocks b (List.mem_cons_self _ _)
    obtain ⟨st1, s, hl1, hlog1, hsuites1, hn, ht, _⟩ :=
      parse.loop_block lib b.1 b.2.1 b.2.2 m0 me hstart hms hend hname hdur st hlog
    obtain ⟨st2, new, hl2, hlog2, hsuites2, hnames, htests⟩ :=
      ih (fun x hx => hblocks x (List.mem_cons_of_mem _ hx)) st1 hlog1
    refine ⟨st2, s :: new, ?_, hlog2, ?_, ?_, ?_⟩
    · rw [List.flatMap_cons, parse.loop_append, hl1]
      exact hl2
    · rw [hsuites2, hsuites1]
      simp
    · simp [hnames, hn, hstart]
    · simp [htests, ht]

/-- C6, as the code has it: for every input made of `k` blocks, each a suite-start line,
metrics lines whose op-count and ns/op tokens parse as numbers, and a suite-end line that
names the same path and whose third token parses as a duration, `parse` succeeds and the
report has exactly `k` suites, in input order, each with the name of its block and `Tests`
equal to the number of metrics lines of its block. -/
theorem parse_blocks (lib : GoLib) (raw : Str) (blocks : List (Str × List Str × Str))
    (hsplit : strings.Split raw = blocks.flatMap (fun b => b.1 :: (b.2.1 ++ [b.2.2])))
    (hblocks : ∀ b ∈ blocks, ∃ m0 me,
      reSuiteStart.FindStringSubmatch b.1 = some m0 ∧
      (∀ l ∈ b.2.1, ∃ m, reBenchMetrics.FindStringSubmatch l = some m ∧
        (lib.ParseFloat (m.getD 2 [])).isSome = true ∧
        (lib.ParseFloat (m.getD 3 [])).isSome = true) ∧
      reSuiteEnd.FindStringSubmatch b.2.2 = some me ∧
      me.getD 2 [] = m0.getD 1 [] ∧
      (lib.ParseDuration (me.getD 3 [])).isSome = true) :
    ∃ rep, parse lib raw = (some rep, none) ∧ rep.List.length = blocks.length ∧
      rep.List.map (fun s => s.Name) =
        blocks.map (fun b => ((reSuiteStart.FindStringSubmatch b.1).getD []).getD 1 []) ∧
      rep.List.map (fun s => s.Tests) = blocks.map (fun b => b.2.1.length) := by
  obtain ⟨st', new, hl, _, hsuites, hnames, htests⟩ :=
    parse.loop_blocks lib blocks hblocks parse.init rfl
  have hlist : st'.suites.List = new := by rw [hsuites]; simp [parse.init]
  refine ⟨st'.suites, ?_, ?_, ?_, ?_⟩
  · unfold parse
    rw [hsplit, hl]
  · rw [hlist, ← List.length_map new (fun s => s.Name), hnames, List.length_map]
  · rw [hlist]; exact hnames
  · rw [hlist]; exact htests

/-- The amended C6 at a concrete input: two blocks, with zero and with two benchmarks. -/
theorem parse_blocks_witness :
    ∃ rep, parse decimalLib
        "pkg: k8s.io/a\nok  \tk8s.io/a\t0.5s\npkg: k8s.io/a/sub\nBenchmarkA 1 1 ns/op\nBenchmarkB 2 2.5 ns/op\nok  \tk8s.io/a/sub\t1.490s".toList =
          (some rep, none) ∧
      rep.List.length = 2 ∧
      rep.List.map (fun s => s.Name) = ["k8s.io/a".toList, "k8s.io/a/sub".toList] ∧
      rep.List.map (fun s => s.Tests) = [0, 2] :=
  parse_blocks decimalLib
    "pkg: k8s.io/a\nok  \tk8s.io/a\t0.5s\npkg: k8s.io/a/sub\nBenchmarkA 1 1 ns/op\nBenchmarkB 2 2.5 ns/op\nok  \tk8s.io/a/sub\t1.490s".toList
    [("pkg: k8s.io/a".toList, [], "ok  \tk8s.io/a\t0.5s".toList),
     ("pkg: k8s.io/a/sub".toList,
      ["BenchmarkA 1 1 ns/op".toList, "BenchmarkB 2 2.5 ns/op".toList],
      "ok  \tk8s.io/a/sub\t1.490s".toList)]
    (by decide)
    (by
      intro b hb
      simp only [List.mem_cons, List.mem_singleton, List.not_mem_nil, or_false] at hb
      rcases hb with rfl | rfl
      · exact ⟨["pkg: k8s.io/a".toList, "k8s.io/a".toList],
          ["ok  \tk8s.io/a\t0.5s".toList, "ok".toList, "k8s.io/a".toList, "0.5s".toList],
          by decide, (by intro l hl; cases hl), by decide, by decide, by decide⟩
      · refine ⟨["pkg: k8s.io/a/sub".toList, "k8s.io/a/sub".toList],
          ["ok  \tk8s.io/a/sub\t1.490s".toList, "ok".toList, "k8s.io/a/sub".toList,
            "1.490s".toList],
          by decide, ?_, by decide, by decide, by decide⟩
        intro l hl
        simp only [List.mem_cons, List.mem_singleton, List.not_mem_nil, or_false] at hl
        rcases hl with rfl | rfl
        · exact ⟨["BenchmarkA 1 1 ns/op".toList, "BenchmarkA".toList, "1".toList, "1".toList,
            [], [], []], by decide, by decide, by decide⟩
        · exact ⟨["BenchmarkB 2 2.5 ns/op".toList, "BenchmarkB".toList, "2".toList,
            "2.5".toList, [], [], []], by decide, by decide, by decide⟩)

/-- C6 as stated fails: two blocks, each a suite-start line, lines that match
`reBenchMetrics` and a suite-end line naming the same path, on which `parse` returns an
error and no report, because the third token of the last line is not a duration. -/
theorem parse_blocks_counterexample :
    strings.Split "pkg: a\nok a 1s\npkg: b\nBenchmarkX 1 1 ns/op\nok b (cached)".toList =
        ["pkg: a".toList, "ok a 1s".toList, "pkg: b".toList, "BenchmarkX 1 1 ns/op".toList,
          "ok b (cached)".toList] ∧
      reSuiteStart.FindStringSubmatch "pkg: a".toList = some ["pkg: a".toList, "a".toList] ∧
      reSuiteEnd.FindStringSubmatch "ok a 1s".toList =
        some ["ok a 1s".toList, "ok".toList, "a".toList, "1s".toList] ∧
      reSuiteStart.FindStringSubmatch "pkg: b".toList = some ["pkg: b".toList, "b".toList] ∧
      reBenchMetrics.FindStringSubmatch "BenchmarkX 1 1 ns/op".toList =
        some ["BenchmarkX 1 1 ns/op".toList, "BenchmarkX".toList, "1".toList, "1".toList,
          [], [], []] ∧
      reSuiteEnd.FindStringSubmatch "ok b (cached)".toList =
        some ["ok b (cached)".toList, "ok".toList, "b".toList, "(cached)".toList] ∧
      parse decimalLib "pkg: a\nok a 1s\npkg: b\nBenchmarkX 1 1 ns/op\nok b (cached)".toList =
        (none, some (.testTime "(cached)".toList)) := by
  decide

/-! ## When `parse` fails -/

/-- One loop iteration fails exactly on a suite-end line with a mismatched name or an
unparsable duration, and on a metrics line with an unparsable number. -/
theorem parse.step_error_iff (lib : GoLib) (st : parse.State) (line : Str) :
    (∃ e, parse.step lib st line = .error e) ↔
      strings.HasPrefix line "    ".toList = false ∧
      ((∃ m, reSuiteEnd.FindStringSubmatch line = some m ∧
          (m.getD 2 [] ≠ st.suite.Name ∨ lib.ParseDuration (m.getD 3 []) = none)) ∨
       (∃ m, reBenchMetrics.FindStringSubmatch line = some m ∧
          (lib.ParseFloat (m.getD 2 []) = none ∨ lib.ParseFloat (m.getD 3 []) = none))) := by
  cases hind : strings.HasPrefix line "    ".toList with
  | true =>
    have : parse.step lib st line =
        .ok { st with
              logText := st.logText ++ (strings.TrimPrefix line "    ".toList ++ "\n".toList) } := by
      unfold parse.step; rw [hind]; rfl
    rw [this]
    simp
  | false =>
    rw [parse.step_of_not_indented lib st hind]
    cases hs : reSuiteStart.FindStringSubmatch line with
    | some m0 =>
      rw [parse.dispatch_start lib _ hs]
      constructor
      · rintro ⟨e, he⟩; cases he
      · rintro ⟨_, ⟨m, hm, _⟩ | ⟨m, hm, _⟩⟩
        · rw [reSuiteStart_none_of_end hm] at hs; cases hs
        · rw [reSuiteStart_none_of_metrics hm] at hs; cases hs
    | none =>
      cases he : reSuiteEnd.FindStringSubmatch line with
      | some me =>
        rw [parse.dispatch_end lib _ he, parse.State.flush_Name]
        constructor
        · rintro ⟨e, h⟩
          refine ⟨rfl, Or.inl ⟨me, rfl, ?_⟩⟩
          by_cases hn : me.getD 2 [] ≠ st.suite.Name
          · exact Or.inl hn
          · right
            rw [if_neg hn] at h
            cases hd : lib.ParseDuration (me.getD 3 []) with
            | none => rfl
            | some d => rw [hd] at h; cases h
        · rintro ⟨_, ⟨m, hm, h⟩ | ⟨m, hm, _⟩⟩
          · cases hm
            by_cases hn : me.getD 2 [] ≠ st.suite.Name
            · rw [if_pos hn]; exact ⟨_, rfl⟩
            · rw [if_neg hn]
              rcases h with h | h
              · exact absurd h hn
              · rw [h]; exact ⟨_, rfl⟩
          · rw [reSuiteEnd_none_of_metrics hm] at he; cases he
      | none =>
        cases hm : reBenchMetrics.FindStringSubmatch line with
        | some mm =>
          rw [parse.dispatch_metrics lib _ hm]
          constructor
          · rintro ⟨e, h⟩
            refine ⟨rfl, Or.inr ⟨mm, rfl, ?_⟩⟩
            apply (propertiesFromMatch_error_iff lib mm).mp
            cases hp : propertiesFromMatch lib mm with
            | error e' => exact ⟨e', rfl⟩
            | ok p => rw [hp] at h; cases h
          · rintro ⟨_, ⟨m, hm', _⟩ | ⟨m, hm', h⟩⟩
            · cases hm'
            · cases hm'
              obtain ⟨e', he'⟩ := (propertiesFromMatch_error_iff lib mm).mpr h
              rw [he']
              exact ⟨_, rfl⟩
        | none =>
          constructor
          · rintro ⟨e, h⟩
            unfold parse.dispatch at h
            rw [hs, he, hm] at h
            dsimp only at h
            split at h
            · split at h
              · cases h
              · split at h <;> cases h
            · cases h
          · rintro ⟨_, ⟨m, hm', _⟩ | ⟨m, hm', _⟩⟩ <;> cases hm'

/-- The loop fails exactly when it reaches a line on which an iteration fails. -/
theorem parse.loop_error_iff (lib : GoLib) (lines : List Str) :
    ∀ st0 : parse.State, (∃ e, parse.loop lib st0 lines = .error e) ↔
      ∃ pre line post st, lines = pre ++ line :: post ∧ parse.loop lib st0 pre = .ok st ∧
        ∃ e, parse.step lib st line = .error e := by
  induction lines with
  | nil =>
    intro st0
    constructor
    · rintro ⟨e, h⟩; cases h
    · rintro ⟨pre, line, post, st, h, _⟩
      simp at h
  | cons l ls ih =>
    intro st0
    constructor
    · rintro ⟨e, h⟩
      cases hstep : parse.step lib st0 l with
      | error e' => exact ⟨[], l, ls, st0, rfl, rfl, e', hstep⟩
      | ok st1 =>
        simp only [parse.loop, hstep] at h
        obtain ⟨pre, line, post, st, hsplit, hpre, he⟩ := (ih st1).mp ⟨e, h⟩
        refine ⟨l :: pre, line, post, st, by rw [hsplit]; rfl, ?_, he⟩
        simp only [parse.loop, hstep]
        exact hpre
    · rintro ⟨pre, line, post, st, hsplit, hpre, e, he⟩
      cases pre with
      | nil =>
        simp only [List.nil_append, List.cons.injEq] at hsplit
        obtain ⟨rfl, rfl⟩ := hsplit
        cases hpre
        exact ⟨e, by simp only [parse.loop, he]⟩
      | cons p ps =>
        simp only [List.cons_append, List.cons.injEq] at hsplit
        obtain ⟨rfl, rfl⟩ := hsplit
        cases hstep : parse.step lib st0 l with
        | error e' => exact ⟨e', by simp only [parse.loop, hstep]⟩
        | ok st1 =>
          simp only [parse.loop, hstep] at hpre
          obtain ⟨e', he'⟩ := (ih st1).mpr ⟨ps, line, post, st, rfl, hpre, e, he⟩
          exact ⟨e', by simp only [parse.loop, hstep]; exact he'⟩

/-- C7: `parse` returns an error exactly when it reaches a line that is not indented and is
(a) a suite-end line whose path differs from the name of the current suite, (b) a suite-end
line whose third token is not a duration, or (c) a metrics line whose op-count or ns/op
token is not a number.  In every other case it returns a report, and a report and an error
are never returned together. -/
theorem parse_error_iff (lib : GoLib) (raw : Str) :
    ((parse lib raw).2 ≠ none ↔
      ∃ pre line post st, strings.Split raw = pre ++ line :: post ∧
        parse.loop lib parse.init pre = .ok st ∧
        strings.HasPrefix line "    ".toList = false ∧
        ((∃ m, reSuiteEnd.FindStringSubmatch line = some m ∧
            (m.getD 2 [] ≠ st.suite.Name ∨ lib.ParseDuration (m.getD 3 []) = none)) ∨
         (∃ m, reBenchMetrics.FindStringSubmatch line = some m ∧
            (lib.ParseFloat (m.getD 2 []) = none ∨ lib.ParseFloat (m.getD 3 []) = none)))) ∧
    ((parse lib raw).2 = none ↔ (parse lib raw).1 ≠ none) := by
  have key := parse.loop_error_iff lib (strings.Split raw) parse.init
  constructor
  · have h1 : (parse lib raw).2 ≠ none ↔
        ∃ e, parse.loop lib parse.init (strings.Split raw) = .error e := by
      unfold parse
      cases parse.loop lib parse.init (strings.Split raw) with
      | error e => simp
      | ok st => simp
    rw [h1, key]
    constructor
    · rintro ⟨pre, line, post, st, hsplit, hpre, he⟩
      exact ⟨pre, line, post, st, hsplit, hpre, (parse.step_error_iff lib st line).mp he⟩
    · rintro ⟨pre, line, post, st, hsplit, hpre, he⟩
      exact ⟨pre, line, post, st, hsplit, hpre, (parse.step_error_iff lib st line).mpr he⟩
  · unfold parse
    cases parse.loop lib parse.init (strings.Split raw) with
    | error e => simp
    | ok st => simp

/-! ## Lines of no recognised shape -/

/-- The `switch` never touches the log-text buffer. -/
theorem parse.dispatch_logText (lib : GoLib) (st st' : parse.State) (line : Str)
    (h : parse.dispatch lib st line = .ok st') : st'.logText = st.logText := by
  unfold parse.dispatch at h
  split at h
  · cases h; rfl
  · split at h
    · split at h
      · cases h
      · split at h
        · cases h
        · cases h; rfl
    · split at h
      · split at h
        · cases h
        · cases h; rfl
      · split at h
        · split at h
          · cases h; rfl
          · split at h <;> (cases h; rfl)
        · cases h; rfl

/-- After a line that is not indented the log-text buffer is empty. -/
theorem parse.step_logText (lib : GoLib) (st st' : parse.State) (line : Str)
    (hind : strings.HasPrefix line "    ".toList = false)
    (h : parse.step lib st line = .ok st') : st'.logText = [] := by
  rw [parse.step_of_not_indented lib st hind] at h
  rw [parse.dispatch_logText lib _ _ _ h]
  exact st.flush_logText

/-- On a line of no recognised shape an iteration only records the pending log text. -/
theorem parse.step_inert (lib : GoLib) (st : parse.State) (line : Str)
    (hind : strings.HasPrefix line "    ".toList = false)
    (h1 : reSuiteStart.FindStringSubmatch line = none)
    (h2 : reSuiteEnd.FindStringSubmatch line = none)
    (h3 : reBenchMetrics.FindStringSubmatch line = none)
    (h4 : reActionLine.FindStringSubmatch line = none) :
    parse.step lib st line = .ok st.flush := by
  rw [parse.step_of_not_indented lib st hind]
  unfold parse.dispatch
  rw [h1, h2, h3, h4]

/-- The log-text buffer is empty after a prefix of lines that is empty or ends with a line
that is not indented. -/
theorem parse.loop_logText (lib : GoLib) (pre : List Str) (st0 st : parse.State)
    (h0 : st0.logText = [])
    (hlast : ∀ l, pre.getLast? = some l → strings.HasPrefix l "    ".toList = false)
    (h : parse.loop lib st0 pre = .ok st) : st.logText = [] := by
  rcases List.eq_nil_or_concat pre with rfl | ⟨init, l, rfl⟩
  · cases h; exact h0
  · rw [List.concat_eq_append] at h hlast
    rw [parse.loop_append] at h
    cases hi : parse.loop lib st0 init with
    | error e => rw [hi] at h; cases h
    | ok st1 =>
      rw [hi] at h
      simp only [parse.loop] at h
      cases hs : parse.step lib st1 l with
      | error e => rw [hs] at h; cases h
      | ok st2 =>
        rw [hs] at h
        cases h
        exact parse.step_logText lib st1 _ l (hlast l (by simp)) hs

/-- C8, as the code has it: a line of none of the five shapes, inserted after a line that
is not indented (or as the first line), or before a line that is not indented, does not
change the result of `parse`. -/
theorem parse_insert_inert (lib : GoLib) (raw raw' : Str) (pre post : List Str) (line : Str)
    (hsplit : strings.Split raw = pre ++ post)
    (hsplit' : strings.Split raw' = pre ++ line :: post)
    (hind : strings.HasPrefix line "    ".toList = false)
    (h1 : reSuiteStart.FindStringSubmatch line = none)
    (h2 : reSuiteEnd.FindStringSubmatch line = none)
    (h3 : reBenchMetrics.FindStringSubmatch line = none)
    (h4 : reActionLine.FindStringSubmatch line = none)
    (hpos : (∀ l, pre.getLast? = some l → strings.HasPrefix l "    ".toList = false) ∨
      (∃ l, post.head? = some l ∧ strings.HasPrefix l "    ".toList = false)) :
    parse lib raw' = parse lib raw := by
  unfold parse
  rw [hsplit, hsplit', parse.loop_append, parse.loop_append]
  cases hpre : parse.loop lib parse.init pre with
  | error e => rfl
  | ok st =>
    dsimp only
    simp only [parse.loop, parse.step_inert lib st line hind h1 h2 h3 h4]
    have hpost : parse.loop lib st.flush post = parse.loop lib st post := by
      rcases hpos with hlast | ⟨l, hl, hlind⟩
      · rw [parse.State.flush_of_empty st
          (parse.loop_logText lib pre parse.init st rfl hlast hpre)]
      · cases post with
        | nil => cases hl
        | cons p ps =>
          simp only [List.head?_cons, Option.some.injEq] at hl
          subst hl
          simp only [parse.loop]
          rw [parse.step_of_not_indented lib st hlind,
            parse.step_of_not_indented lib st.flush hlind, parse.State.flush_flush]
    rw [hpost]

/-- The amended C8 at a concrete input: the line `FAIL`, which has none of the five shapes,
inserted between an indented line and the suite-end line. -/
theorem parse_insert_inert_witness :
    parse decimalLib "pkg: foo\n--- FAIL: BenchmarkX\n    a\nFAIL\nFAIL\tfoo\t1s".toList =
      parse decimalLib "pkg: foo\n--- FAIL: BenchmarkX\n    a\nFAIL\tfoo\t1s".toList :=
  parse_insert_inert decimalLib
    "pkg: foo\n--- FAIL: BenchmarkX\n    a\nFAIL\tfoo\t1s".toList
    "pkg: foo\n--- FAIL: BenchmarkX\n    a\nFAIL\nFAIL\tfoo\t1s".toList
    ["pkg: foo".toList, "--- FAIL: BenchmarkX".toList, "    a".toList]
    ["FAIL\tfoo\t1s".toList] "FAIL".toList
    (by decide) (by decide) (by decide) (by decide) (by decide) (by decide) (by decide)
    (Or.inr ⟨"FAIL\tfoo\t1s".toList, rfl, by decide⟩)

/-- C8 as stated fails: the empty line has none of the five shapes, and inserting it
between two indented lines changes the report.  Without it the failing case gets the text
of both lines; with it the text of the second line only, and two `categorized_fail`
properties. -/
theorem parse_insert_inert_counterexample :
    strings.Split "pkg: foo\n--- FAIL: BenchmarkX\n    a\n    b\nFAIL\tfoo\t1s".toList =
        ["pkg: foo".toList, "--- FAIL: BenchmarkX".toList, "    a".toList] ++
          ["    b".toList, "FAIL\tfoo\t1s".toList] ∧
      strings.Split "pkg: foo\n--- FAIL: BenchmarkX\n    a\n\n    b\nFAIL\tfoo\t1s".toList =
        ["pkg: foo".toList, "--- FAIL: BenchmarkX".toList, "    a".toList] ++
          [] :: ["    b".toList, "FAIL\tfoo\t1s".toList] ∧
      strings.HasPrefix [] "    ".toList = false ∧
      reSuiteStart.FindStringSubmatch [] = none ∧
      reSuiteEnd.FindStringSubmatch [] = none ∧
      reBenchMetrics.FindStringSubmatch [] = none ∧
      reActionLine.FindStringSubmatch [] = none ∧
      (parse decimalLib "pkg: foo\n--- FAIL: BenchmarkX\n    a\n    b\nFAIL\tfoo\t1s".toList).1.map
          (fun r => r.List.map (fun s => s.TestCases.map (fun c => (c.Failure, c.PropertyList)))) =
        some [[(some { Text := "a\nb\n".toList },
          { PropertyList := [{ Name := "categorized_fail".toList, Value := "a\nb\n".toList }] })]] ∧
      (parse decimalLib
          "pkg: foo\n--- FAIL: BenchmarkX\n    a\n\n    b\nFAIL\tfoo\t1s".toList).1.map
          (fun r => r.List.map (fun s => s.TestCases.map (fun c => (c.Failure, c.PropertyList)))) =
        some [[(some { Text := "b\n".toList },
          { PropertyList := [{ Name := "categorized_fail".toList, Value := "a\n".toList },
                             { Name := "categorized_fail".toList, Value := "b\n".toList }] })]] := by
  decide

/-! ## Frame lemmas for the loop -/

theorem parse.loop_append_ok (lib : GoLib) (xs ys : List Str) (st st' : parse.State)
    (h : parse.loop lib st (xs ++ ys) = .ok st') :
    ∃ st1, parse.loop lib st xs = .ok st1 ∧ parse.loop lib st1 ys = .ok st' := by
  rw [parse.loop_append] at h
  cases h1 : parse.loop lib st xs with
  | error e => rw [h1] at h; cases h
  | ok st1 => rw [h1] at h; exact ⟨st1, rfl, h⟩

theorem parse.loop_cons_ok (lib : GoLib) (x : Str) (ys : List Str) (st st' : parse.State)
    (h : parse.loop lib st (x :: ys) = .ok st') :
    ∃ st1, parse.step lib st x = .ok st1 ∧ parse.loop lib st1 ys = .ok st' := by
  simp only [parse.loop] at h
  cases h1 : parse.step lib st x with
  | error e => rw [h1] at h; cases h
  | ok st1 => rw [h1] at h; exact ⟨st1, rfl, h⟩

/-- Indented lines only extend the log-text buffer. -/
theorem parse.loop_indented (lib : GoLib) (conts : List Str)
    (hconts : ∀ l ∈ conts, strings.HasPrefix l "    ".toList = true) :
    ∀ st : parse.State, parse.loop lib st conts =
      .ok { st with
            logText := st.logText ++
              conts.flatMap (fun l => strings.TrimPrefix l "    ".toList ++ "\n".toList) } := by
  induction conts with
  | nil => intro st; simp [parse.loop]
  | cons c cs ih =>
    intro st
    have hc : parse.step lib st c =
        .ok { st with
              logText := st.logText ++ (strings.TrimPrefix c "    ".toList ++ "\n".toList) } := by
      unfold parse.step
      rw [hconts c (List.mem_cons_self _ _)]
      rfl
    simp only [parse.loop, hc]
    rw [ih (fun l hl => hconts l (List.mem_cons_of_mem _ hl))]
    simp [List.flatMap_cons, List.append_assoc]

/-- A line that is not indented is treated alike before and after the pending log text is
recorded. -/
theorem parse.loop_flush_head (lib : GoLib) (st : parse.State) (l : Str) (ls : List Str)
    (hind : strings.HasPrefix l "    ".toList = false) :
    parse.loop lib st (l :: ls) = parse.loop lib st.flush (l :: ls) := by
  simp only [parse.loop]
  rw [parse.step_of_not_indented lib st hind, parse.step_of_not_indented lib st.flush hind,
    parse.State.flush_flush]

/-- The `switch` never removes a suite from the report, and on a line that is neither a
suite-start nor a suite-end line it leaves the report alone and keeps the cases of the
current suite. -/
theorem parse.dispatch_frame (lib : GoLib) (st st' : parse.State) (line : Str)
    (h : parse.dispatch lib st line = .ok st') :
    (∃ extra, st'.suites.List = st.suites.List ++ extra) ∧
    (reSuiteStart.FindStringSubmatch line = none → reSuiteEnd.FindStringSubmatch line = none →
      st'.suites = st.suites ∧ ∃ extra, st'.suite.TestCases = st.suite.TestCases ++ extra) := by
  unfold parse.dispatch at h
  split at h
  · rename_i m hs
    cases h
    exact ⟨⟨[], by simp⟩, fun h1 _ => by rw [hs] at h1; cases h1⟩
  · split at h
    · rename_i m he
      split at h
      · cases h
      · split at h
        · cases h
        · cases h
          exact ⟨⟨_, rfl⟩, fun _ h2 => by rw [he] at h2; cases h2⟩
    · split at h
      · split at h
        · cases h
        · cases h
          exact ⟨⟨[], by simp⟩, fun _ _ => ⟨rfl, _, rfl⟩⟩
      · split at h
        · split at h
          · cases h
            exact ⟨⟨[], by simp⟩, fun _ _ => ⟨rfl, _, rfl⟩⟩
          · split at h
            · cases h
              exact ⟨⟨[], by simp⟩, fun _ _ => ⟨rfl, _, rfl⟩⟩
            · cases h
              exact ⟨⟨[], by simp⟩, fun _ _ => ⟨rfl, [], by simp⟩⟩
        · cases h
          exact ⟨⟨[], by simp⟩, fun _ _ => ⟨rfl, [], by simp⟩⟩

/-- Lines that are not indented, read with an empty log-text buffer, only append suites to
the report. -/
theorem parse.loop_grow (lib : GoLib) (ls : List Str)
    (hls : ∀ l ∈ ls, strings.HasPrefix l "    ".toList = false) :
    ∀ st st' : parse.State, st.logText = [] → parse.loop lib st ls = .ok st' →
      st'.logText = [] ∧ ∃ extra, st'.suites.List = st.suites.List ++ extra := by
  induction ls with
  | nil => intro st st' h0 h; cases h; exact ⟨h0, [], by simp⟩
  | cons l ls ih =>
    intro st st' h0 h
    obtain ⟨st1, hs, hl⟩ := parse.loop_cons_ok lib l ls st st' h
    have hind := hls l (List.mem_cons_self _ _)
    have hlog1 := parse.step_logText lib st st1 l hind hs
    rw [parse.step_of_not_indented lib st hind, parse.State.flush_of_empty st h0] at hs
    obtain ⟨⟨e1, he1⟩, _⟩ := parse.dispatch_frame lib st st1 l hs
    obtain ⟨hlog', e2, he2⟩ := ih (fun x hx => hls x (List.mem_cons_of_mem _ hx)) st1 st' hlog1 hl
    exact ⟨hlog', e1 ++ e2, by rw [he2, he1, List.append_assoc]⟩

/-- Lines that are not indented and are neither suite-start nor suite-end lines, read with
an empty log-text buffer, leave the report alone and only append cases to the suite. -/
theorem parse.loop_cases (lib : GoLib) (ls : List Str)
    (hls : ∀ l ∈ ls, strings.HasPrefix l "    ".toList = false ∧
      reSuiteStart.FindStringSubmatch l = none ∧ reSuiteEnd.FindStringSubmatch l = none) :
    ∀ st st' : parse.State, st.logText = [] → parse.loop lib st ls = .ok st' →
      st'.logText = [] ∧ st'.suites = st.suites ∧
        ∃ extra, st'.suite.TestCases = st.suite.TestCases ++ extra := by
  induction ls with
  | nil => intro st st' h0 h; cases h; exact ⟨h0, rfl, [], by simp⟩
  | cons l ls ih =>
    intro st st' h0 h
    obtain ⟨st1, hs, hl⟩ := parse.loop_cons_ok lib l ls st st' h
    obtain ⟨hind, hns, hne⟩ := hls l (List.mem_cons_self _ _)
    have hlog1 := parse.step_logText lib st st1 l hind hs
    rw [parse.step_of_not_indented lib st hind, parse.State.flush_of_empty st h0] at hs
    obtain ⟨hsu1, e1, he1⟩ := (parse.dispatch_frame lib st st1 l hs).2 hns hne
    obtain ⟨hlog', hsu2, e2, he2⟩ :=
      ih (fun x hx => hls x (List.mem_cons_of_mem _ hx)) st1 st' hlog1 hl
    exact ⟨hlog', by rw [hsu2, hsu1], e1 ++ e2, by rw [he2, he1, List.append_assoc]⟩

/-! ## Which report entries a later line can still change

Only the last `shared` entries of the report can change. -/

theorem parse.State.flush_shared (st : parse.State) : st.flush.shared = st.shared := by
  unfold parse.State.flush; split <;> rfl

theorem parse.State.flush_take (st : parse.State) (n0 : Nat)
    (hI : st.shared + n0 ≤ st.suites.List.length) :
    st.flush.suites.List.take n0 = st.suites.List.take n0 := by
  unfold parse.State.flush; split
  · dsimp only
    rw [List.take_append_of_le_length (by rw [List.length_take]; omega), List.take_take]
    congr 1
    omega
  · rfl

theorem parse.dispatch_shared (lib : GoLib) (n0 : Nat) (st st' : parse.State) (line : Str)
    (hI : st.shared + n0 ≤ st.suites.List.length)
    (h : parse.dispatch lib st line = .ok st') :
    st'.shared + n0 ≤ st'.suites.List.length ∧
      st'.suites.List.take n0 = st.suites.List.take n0 := by
  have happ : ∀ x : TestSuite, (st.suites.List ++ [x]).take n0 = st.suites.List.take n0 :=
    fun x => List.take_append_of_le_length (by omega)
  unfold parse.dispatch at h
  split at h
  · cases h; exact ⟨by dsimp only; omega, rfl⟩
  · split at h
    · split at h
      · cases h
      · split at h
        · cases h
        · cases h
          exact ⟨by simp only [List.length_append, List.length_singleton]; omega, happ _⟩
    · split at h
      · split at h
        · cases h
        · cases h; exact ⟨by dsimp only; omega, rfl⟩
      · split at h
        · split at h
          · cases h; exact ⟨by dsimp only; omega, rfl⟩
          · split at h
            · cases h; exact ⟨by dsimp only; omega, rfl⟩
            · cases h; exact ⟨hI, rfl⟩
        · cases h; exact ⟨hI, rfl⟩

theorem parse.step_shared (lib : GoLib) (n0 : Nat) (st st' : parse.State) (line : Str)
    (hI : st.shared + n0 ≤ st.suites.List.length)
    (h : parse.step lib st line = .ok st') :
    st'.shared + n0 ≤ st'.suites.List.length ∧
      st'.suites.List.take n0 = st.suites.List.take n0 := by
  cases hind : strings.HasPrefix line "    ".toList with
  | true =>
    unfold parse.step at h
    rw [hind] at h
    cases h
    exact ⟨hI, rfl⟩
  | false =>
    rw [parse.step_of_not_indented lib st hind] at h
    obtain ⟨h1, h2⟩ := parse.dispatch_shared lib n0 st.flush st' line
      (by rw [parse.State.flush_shared, parse.State.flush_suites_length]; exact hI) h
    exact ⟨h1, by rw [h2, parse.State.flush_take st n0 hI]⟩

theorem parse.loop_shared (lib : GoLib) (n0 : Nat) (ls : List Str) :
    ∀ st st' : parse.State, st.shared + n0 ≤ st.suites.List.length →
      parse.loop lib st ls = .ok st' →
      st'.suites.List.take n0 = st.suites.List.take n0 := by
  induction ls with
  | nil => intro st st' _ h; cases h; rfl
  | cons l ls ih =>
    intro st st' hI h
    obtain ⟨st1, hs, hl⟩ := parse.loop_cons_ok lib l ls st st' h
    obtain ⟨h1, h2⟩ := parse.step_shared lib n0 st st1 l hI hs
    rw [ih st1 st' h1 hl, h2]

/-! ## A suite-end line that is accepted -/

/-- A suite-end line that is accepted appends the current suite to the report. -/
theorem parse.dispatch_end_ok (lib : GoLib) (st st' : parse.State) (line : Str) (m : List Str)
    (hend : reSuiteEnd.FindStringSubmatch line = some m)
    (h : parse.dispatch lib st line = .ok st') :
    m.getD 2 [] = st.suite.Name ∧ st'.logText = st.logText ∧ st'.shared = st.shared + 1 ∧
      st'.suite.Name = st.suite.Name ∧ st'.suite.TestCases = st.suite.TestCases ∧
      st'.suites.List = st.suites.List ++ [st'.suite] := by
  rw [parse.dispatch_end lib st hend] at h
  split at h
  · cases h
  · rename_i hn
    split at h
    · cases h
    · cases h
      exact ⟨not_not.mp hn, rfl, rfl, rfl, rfl, rfl⟩

/-! ## End of input -/

/-- C9 on the code.  On the input `pkg: foo`, `--- FAIL: BenchmarkX`, `    some log` with
no trailing newline the loop ends with the log text still in the buffer and the failing
case without text.  The difference shows in a report: after a suite-end line, the same
indented last line leaves the reported case without text, while with a trailing newline
the text is recorded. -/
theorem parse_pending_log_dropped :
    (parse.loop decimalLib parse.init
        (strings.Split "pkg: foo\n--- FAIL: BenchmarkX\n    some log".toList)).toOption.map
        (fun st => (st.logText, st.suite.TestCases.map (fun c => (c.Failure, c.PropertyList)))) =
      some ("some log\n".toList, [(some { Text := [] }, { PropertyList := [] })]) ∧
    (parse decimalLib "pkg: foo\n--- FAIL: BenchmarkX\nFAIL\tfoo\t1s\n    some log".toList).1.map
        (fun r => r.List.map (fun s => s.TestCases.map (fun c => (c.Failure, c.PropertyList)))) =
      some [[(some { Text := [] }, { PropertyList := [] })]] ∧
    (parse decimalLib
        "pkg: foo\n--- FAIL: BenchmarkX\nFAIL\tfoo\t1s\n    some log\n".toList).1.map
        (fun r => r.List.map (fun s => s.TestCases.map (fun c => (c.Failure, c.PropertyList)))) =
      some [[(some { Text := "some log\n".toList },
        { PropertyList :=
            [{ Name := "categorized_fail".toList, Value := "some log\n".toList }] })]] := by
  decide

/-! ## After a suite-end line -/

/-- Only a suite-start line changes the name of the current suite. -/
theorem parse.step_Name (lib : GoLib) (st st' : parse.State) (line : Str)
    (hline : strings.HasPrefix line "    ".toList = true ∨
      reSuiteStart.FindStringSubmatch line = none)
    (h : parse.step lib st line = .ok st') : st'.suite.Name = st.suite.Name := by
  cases hind : strings.HasPrefix line "    ".toList with
  | true =>
    unfold parse.step at h
    rw [hind] at h
    cases h
    rfl
  | false =>
    have hs : reSuiteStart.FindStringSubmatch line = none := by
      rcases hline with h1 | h1
      · rw [hind] at h1; cases h1
      · exact h1
    rw [parse.step_of_not_indented lib st hind] at h
    rw [← parse.State.flush_Name st]
    unfold parse.dispatch at h
    rw [hs] at h
    dsimp only at h
    split at h
    · split at h
      · cases h
      · split at h
        · cases h
        · cases h; rfl
    · split at h
      · split at h
        · cases h
        · cases h; rfl
      · split at h
        · split at h
          · cases h; rfl
          · split at h <;> (cases h; rfl)
        · cases h; rfl

theorem parse.loop_Name (lib : GoLib) (ls : List Str)
    (hls : ∀ l ∈ ls, strings.HasPrefix l "    ".toList = true ∨
      reSuiteStart.FindStringSubmatch l = none) :
    ∀ st st' : parse.State, parse.loop lib st ls = .ok st' → st'.suite.Name = st.suite.Name := by
  induction ls with
  | nil => intro st st' h; cases h; rfl
  | cons l ls ih =>
    intro st st' h
    obtain ⟨st1, hs, hl⟩ := parse.loop_cons_ok lib l ls st st' h
    rw [ih (fun x hx => hls x (List.mem_cons_of_mem _ hx)) st1 st' hl,
      parse.step_Name lib st st1 l (hls l (List.mem_cons_self _ _)) hs]

/-- Recording log text changes no suite name in the report. -/
theorem parse.State.flush_names (st : parse.State) :
    st.flush.suites.List.map (fun s => s.Name) = st.suites.List.map (fun s => s.Name) := by
  unfold parse.State.flush; split
  · dsimp only
    rw [List.map_append, List.map_map]
    have hf : ((fun s : TestSuite => s.Name) ∘ fun s : TestSuite => s.recordLogText st.logText) =
        fun s : TestSuite => s.Name := by
      funext s
      exact TestSuite.recordLogText_Name s st.logText
    rw [hf, ← List.map_append, List.take_append_drop]
  · rfl

/-- The names of the suites in the report are never changed or removed. -/
theorem parse.loop_names (lib : GoLib) (ls : List Str) :
    ∀ st st' : parse.State, parse.loop lib st ls = .ok st' →
      ∃ extra, st'.suites.List.map (fun s => s.Name) =
        st.suites.List.map (fun s => s.Name) ++ extra := by
  induction ls with
  | nil => intro st st' h; cases h; exact ⟨[], by simp⟩
  | cons l ls ih =>
    intro st st' h
    obtain ⟨st1, hs, hl⟩ := parse.loop_cons_ok lib l ls st st' h
    obtain ⟨e2, he2⟩ := ih st1 st' hl
    have h1 : ∃ e1, st1.suites.List.map (fun s => s.Name) =
        st.suites.List.map (fun s => s.Name) ++ e1 := by
      cases hind : strings.HasPrefix l "    ".toList with
      | true =>
        unfold parse.step at hs
        rw [hind] at hs
        cases hs
        exact ⟨[], by simp⟩
      | false =>
        rw [parse.step_of_not_indented lib st hind] at hs
        obtain ⟨⟨e, he⟩, _⟩ := parse.dispatch_frame lib _ st1 l hs
        exact ⟨e.map (fun s => s.Name), by rw [he, List.map_append, parse.State.flush_names]⟩
    obtain ⟨e1, he1⟩ := h1
    exact ⟨e1 ++ e2, by rw [he2, he1, List.append_assoc]⟩

/-- C10, as the code has it: after a suite-end line has been processed the current suite
stays open under the same name until the next suite-start line.  A further suite-end line
that arrives before any suite-start line fails with the name-mismatch error when it names
another path; when it names the suite just closed and its third token is a duration, it is
accepted, and the report then holds that suite twice: at the position where the first
suite-end line put it and, with all cases of the current suite, as the last entry. -/
theorem parse_suite_end_again (lib : GoLib) (raw : Str) (pre : List Str) (fin1 : Str)
    (mid : List Str) (fin2 : Str) (m1 m2 : List Str) (st0 st2 : parse.State)
    (hsplit : strings.Split raw = pre ++ fin1 :: (mid ++ [fin2]))
    (hpre : parse.loop lib parse.init pre = .ok st0)
    (hend1 : reSuiteEnd.FindStringSubmatch fin1 = some m1)
    (hmid : ∀ l ∈ mid, strings.HasPrefix l "    ".toList = true ∨
      reSuiteStart.FindStringSubmatch l = none)
    (hrun : parse.loop lib st0 (fin1 :: mid) = .ok st2)
    (hend2 : reSuiteEnd.FindStringSubmatch fin2 = some m2) :
    (m2.getD 2 [] ≠ m1.getD 2 [] →
      parse lib raw = (none, some (.mismatched (m2.getD 2 []) (m1.getD 2 [])))) ∧
    (m2.getD 2 [] = m1.getD 2 [] → ∀ d, lib.ParseDuration (m2.getD 3 []) = some d →
      ∃ rep s1 s2, parse lib raw = (some rep, none) ∧
        rep.List[st0.suites.List.length]? = some s1 ∧ s1.Name = m1.getD 2 [] ∧
        rep.List.getLast? = some s2 ∧ s2.Name = m1.getD 2 [] ∧
        st0.suites.List.length + 1 < rep.List.length ∧
        s2.TestCases = st2.flush.suite.TestCases ∧
        s2.Time = lib.Sprintf (lib.Seconds d)) := by
  obtain ⟨st1, hstep1, hloop⟩ := parse.loop_cons_ok lib _ _ _ _ hrun
  have hstep1' := hstep1
  rw [parse.step_of_not_indented lib st0 (not_indented_of_end hend1)] at hstep1'
  obtain ⟨h1, _, _, h4, _, h6⟩ := parse.dispatch_end_ok lib _ st1 fin1 m1 hend1 hstep1'
  have hname1 : st1.suite.Name = m1.getD 2 [] := by rw [h4, h1]
  have hname2 : st2.suite.Name = m1.getD 2 [] := by
    rw [parse.loop_Name lib mid hmid st1 st2 hloop, hname1]
  have hstep2 := parse.step_of_not_indented lib st2 (not_indented_of_end hend2)
  rw [parse.dispatch_end lib _ hend2, parse.State.flush_Name, hname2] at hstep2
  have hraw : parse.loop lib parse.init (strings.Split raw) =
      match parse.step lib st2 fin2 with
      | .error e => .error e
      | .ok st' => .ok st' := by
    rw [hsplit, parse.loop_append, hpre]
    dsimp only
    rw [← List.cons_append, parse.loop_append, hrun]
    simp only [parse.loop]
  constructor
  · intro hne
    unfold parse
    rw [hraw, hstep2, if_pos hne]
  · intro heq d hd
    rw [if_neg (fun h => h heq), hd] at hstep2
    dsimp only at hstep2
    obtain ⟨e, he⟩ := parse.loop_names lib mid st1 st2 hloop
    have hnames : st2.flush.suites.List.map (fun s => s.Name) =
        st0.suites.List.map (fun s => s.Name) ++ (m1.getD 2 [] :: e) := by
      rw [parse.State.flush_names, he, h6, List.map_append, parse.State.flush_names]
      simp [hname1]
    have hlen : st2.flush.suites.List.length = st0.suites.List.length + (e.length + 1) := by
      have := congrArg List.length hnames
      simpa using this
    have hget : (st2.flush.suites.List.map (fun s => s.Name))[st0.suites.List.length]? =
        some (m1.getD 2 []) := by
      rw [hnames, List.getElem?_append_right (by simp)]
      simp
    rw [List.getElem?_map] at hget
    obtain ⟨s1, hs1, hs1n⟩ := Option.map_eq_some'.mp hget
    refine ⟨{ st2.flush.suites with
              List := st2.flush.suites.List ++
                [{ st2.flush.suite with Time := lib.Sprintf (lib.Seconds d) }] },
      s1, { st2.flush.suite with Time := lib.Sprintf (lib.Seconds d) },
      by unfold parse; rw [hraw, hstep2], ?_, hs1n, ?_, ?_, ?_, rfl, rfl⟩
    · dsimp only
      rw [List.getElem?_append_left (by omega)]
      exact hs1
    · dsimp only
      rw [List.getLast?_concat]
    · dsimp only
      rw [← hname2, ← parse.State.flush_Name st2]
    · dsimp only
      rw [List.length_append, hlen]
      simp only [List.length_singleton]
      omega

/-- The amended C10 at a concrete input: the suite `foo` is closed twice, and the second
entry of the report holds the benchmark read in between. -/
theorem parse_suite_end_again_witness :
    ∃ rep s1 s2,
      parse decimalLib "pkg: foo\nok foo 1s\nBenchmarkA 1 1 ns/op\nok foo 2s".toList =
        (some rep, none) ∧
      rep.List[0]? = some s1 ∧ s1.Name = "foo".toList ∧
      rep.List.getLast? = some s2 ∧ s2.Name = "foo".toList ∧
      0 + 1 < rep.List.length ∧
      s2.TestCases =
        [{ ClassName := "foo".toList, Name := "BenchmarkA".toList, Time := "0.000000".toList,
           Failure := none, Skipped := false,
           PropertyList :=
             { PropertyList :=
                 [{ Name := "op count".toList, Value := "1".toList },
                  { Name := "avg op duration (ns/op)".toList, Value := "1".toList }] } }] ∧
      s2.Time = "2.000000".toList :=
  (parse_suite_end_again decimalLib
    "pkg: foo\nok foo 1s\nBenchmarkA 1 1 ns/op\nok foo 2s".toList
    ["pkg: foo".toList] "ok foo 1s".toList ["BenchmarkA 1 1 ns/op".toList] "ok foo 2s".toList
    ["ok foo 1s".toList, "ok".toList, "foo".toList, "1s".toList]
    ["ok foo 2s".toList, "ok".toList, "foo".toList, "2s".toList]
    { parse.init with suite := { parse.init.suite with Name := "foo".toList } }
    { suites :=
        { XMLName := []
          List := [{ Name := "foo".toList, Tests := 0, Failures := 0,
                     Time := "1.000000".toList, TestCases := [] }] }
      suite :=
        { Name := "foo".toList, Tests := 1, Failures := 0, Time := "1.000000".toList
          TestCases :=
            [{ ClassName := "foo".toList, Name := "BenchmarkA".toList,
               Time := "0.000000".toList, Failure := none, Skipped := false,
               PropertyList :=
                 { PropertyList :=
                     [{ Name := "op count".toList, Value := "1".toList },
                      { Name := "avg op duration (ns/op)".toList, Value := "1".toList }] } }] }
      logText := []
      shared := 0 }
    (by decide) (by rfl) (by decide) (by decide) (by rfl) (by decide)).2
    (by decide) (2000000000 : Nat) (by rfl)

/-- C10 as stated fails: the second suite-end line names the suite just closed and is
accepted, the report holds the suite `foo` twice, and the benchmark read between the two
suite-end lines is in the second entry. -/
theorem parse_suite_end_again_counterexample :
    parse decimalLib "pkg: foo\nok foo 1s\nBenchmarkA 1 1 ns/op\nok foo 2s".toList =
      (some
        { XMLName := []
          List :=
            [{ Name := "foo".toList, Tests := 0, Failures := 0, Time := "1.000000".toList,
               TestCases := [] },
             { Name := "foo".toList, Tests := 1, Failures := 0, Time := "2.000000".toList
               TestCases :=
                 [{ ClassName := "foo".toList, Name := "BenchmarkA".toList,
                    Time := "0.000000".toList, Failure := none, Skipped := false,
                    PropertyList :=
                      { PropertyList :=
                          [{ Name := "op count".toList, Value := "1".toList },
                           { Name := "avg op duration (ns/op)".toList,
                             Value := "1".toList }] } }] }] },
       none) := by
  decide

/-! ## The properties and the time of a metrics line -/

/-- C11: when `propertiesFromMatch` succeeds on a match `m`, the property list is, in this
order, `op count` with `m[2]`, `avg op duration (ns/op)` with `m[3]`, then `MB/s` with
`m[4]`, `alloced B/op` with `m[5]` and `allocs/op` with `m[6]`, each of the last three
present exactly when its submatch is not empty; every value is the submatch itself and
there is no other property. -/
theorem propertiesFromMatch_properties (lib : GoLib) (m : List Str) (props : Properties)
    (duration : Str) (h : propertiesFromMatch lib m = .ok (props, duration)) :
    props.PropertyList =
      [{ Name := "op count".toList, Value := m.getD 2 [] },
       { Name := "avg op duration (ns/op)".toList, Value := m.getD 3 [] }] ++
      (if m.getD 4 [] ≠ [] then [{ Name := "MB/s".toList, Value := m.getD 4 [] }] else []) ++
      (if m.getD 5 [] ≠ [] then [{ Name := "alloced B/op".toList, Value := m.getD 5 [] }]
        else []) ++
      (if m.getD 6 [] ≠ [] then [{ Name := "allocs/op".toList, Value := m.getD 6 [] }]
        else []) := by
  unfold propertiesFromMatch at h
  cases h2 : lib.ParseFloat (m.getD 2 []) with
  | none => rw [h2] at h; cases h
  | some a =>
    cases h3 : lib.ParseFloat (m.getD 3 []) with
    | none => rw [h2, h3] at h; cases h
    | some b =>
      rw [h2, h3] at h
      simp only [Except.ok.injEq, Prod.mk.injEq] at h
      rw [← h.1]
      generalize m.getD 2 [] = x2
      generalize m.getD 3 [] = x3
      generalize m.getD 4 [] = x4
      generalize m.getD 5 [] = x5
      generalize m.getD 6 [] = x6
      cases x4 <;> cases x5 <;> cases x6 <;> simp

/-- C11 at the second example line of `parse.go`, which has all three optional metrics. -/
theorem propertiesFromMatch_properties_witness :
    propertiesFromMatch decimalLib
        ["BenchmarkAllocsAndBytes-4   \t10000000\t       131 ns/op\t 152.50 MB/s\t     112 B/op\t       2 allocs/op".toList,
          "BenchmarkAllocsAndBytes-4".toList, "10000000".toList, "131".toList,
          "152.50".toList, "112".toList, "2".toList] =
      .ok ({ PropertyList :=
               [{ Name := "op count".toList, Value := "10000000".toList },
                { Name := "avg op duration (ns/op)".toList, Value := "131".toList },
                { Name := "MB/s".toList, Value := "152.50".toList },
                { Name := "alloced B/op".toList, Value := "112".toList },
                { Name := "allocs/op".toList, Value := "2".toList }] },
            "1.310000".toList) ∧
    (Properties.mk
        [{ Name := "op count".toList, Value := "10000000".toList },
         { Name := "avg op duration (ns/op)".toList, Value := "131".toList },
         { Name := "MB/s".toList, Value := "152.50".toList },
         { Name := "alloced B/op".toList, Value := "112".toList },
         { Name := "allocs/op".toList, Value := "2".toList }]).PropertyList =
      [{ Name := "op count".toList, Value := "10000000".toList },
       { Name := "avg op duration (ns/op)".toList, Value := "131".toList }] ++
      [{ Name := "MB/s".toList, Value := "152.50".toList }] ++
      [{ Name := "alloced B/op".toList, Value := "112".toList }] ++
      [{ Name := "allocs/op".toList, Value := "2".toList }] :=
  ⟨by rfl,
    propertiesFromMatch_properties decimalLib
      ["BenchmarkAllocsAndBytes-4   \t10000000\t       131 ns/op\t 152.50 MB/s\t     112 B/op\t       2 allocs/op".toList,
        "BenchmarkAllocsAndBytes-4".toList, "10000000".toList, "131".toList,
        "152.50".toList, "112".toList, "2".toList]
      { PropertyList :=
          [{ Name := "op count".toList, Value := "10000000".toList },
           { Name := "avg op duration (ns/op)".toList, Value := "131".toList },
           { Name := "MB/s".toList, Value := "152.50".toList },
           { Name := "alloced B/op".toList, Value := "112".toList },
           { Name := "allocs/op".toList, Value := "2".toList }] }
      "1.310000".toList (by rfl)⟩

/-- The duration that `propertiesFromMatch` returns. -/
theorem propertiesFromMatch_duration (lib : GoLib) (m : List Str) (opCount opDuration : lib.Float64)
    (h2 : lib.ParseFloat (m.getD 2 []) = some opCount)
    (h3 : lib.ParseFloat (m.getD 3 []) = some opDuration) :
    ∃ props, propertiesFromMatch lib m =
      .ok (props, lib.Sprintf (lib.div (lib.mul opCount opDuration) lib.billion)) := by
  unfold propertiesFromMatch
  rw [h2, h3]
  exact ⟨_, rfl⟩

/-! ## The time of a suite and of a case

The numbers are Go `float64` values and the strings are what `fmt.Sprintf("%f", _)` prints;
both belong to the library interface `GoLib`. -/

/-- C12: on a suite-end line that names the current suite and whose third token parses as
the duration `d`, the suite appended to the report has `Time` equal to
`fmt.Sprintf("%f", d.Seconds())`; the token enters only through `d`, so a second line whose
token parses as the same duration leads to the same state, with the same `Time`. -/
theorem parse_step_suite_time (lib : GoLib) (st : parse.State) (line line' : Str)
    (m m' : List Str) (d : lib.Duration)
    (hend : reSuiteEnd.FindStringSubmatch line = some m)
    (hname : m.getD 2 [] = st.suite.Name)
    (hdur : lib.ParseDuration (m.getD 3 []) = some d)
    (hend' : reSuiteEnd.FindStringSubmatch line' = some m')
    (hname' : m'.getD 2 [] = st.suite.Name)
    (hdur' : lib.ParseDuration (m'.getD 3 []) = some d) :
    ∃ st' s, parse.step lib st line = .ok st' ∧
      st'.suites.List = st.flush.suites.List ++ [s] ∧
      s.Time = lib.Sprintf (lib.Seconds d) ∧
      parse.step lib st line' = .ok st' := by
  have h1 := parse.step_of_not_indented lib st (not_indented_of_end hend)
  rw [parse.dispatch_end lib _ hend, parse.State.flush_Name,
    if_neg (fun h => h hname), hdur] at h1
  have h2 := parse.step_of_not_indented lib st (not_indented_of_end hend')
  rw [parse.dispatch_end lib _ hend', parse.State.flush_Name,
    if_neg (fun h => h hname'), hdur'] at h2
  exact ⟨_, { st.flush.suite with Time := lib.Sprintf (lib.Seconds d) }, h1, rfl, rfl, h2⟩

/-- C12 at a concrete input: `1.5s` and `1500ms` both give the time `1.500000`. -/
theorem parse_step_suite_time_witness :
    ∃ st' s,
      parse.step decimalLib
        { parse.init with suite := { parse.init.suite with Name := "foo".toList } }
        "ok  \tfoo\t1.5s".toList = .ok st' ∧
      st'.suites.List =
        (parse.State.flush
          { parse.init with
            suite := { parse.init.suite with Name := "foo".toList } }).suites.List ++ [s] ∧
      s.Time = "1.500000".toList ∧
      parse.step decimalLib
        { parse.init with suite := { parse.init.suite with Name := "foo".toList } }
        "ok  \tfoo\t1500ms".toList = .ok st' :=
  parse_step_suite_time decimalLib
    { parse.init with suite := { parse.init.suite with Name := "foo".toList } }
    "ok  \tfoo\t1.5s".toList "ok  \tfoo\t1500ms".toList
    ["ok  \tfoo\t1.5s".toList, "ok".toList, "foo".toList, "1.5s".toList]
    ["ok  \tfoo\t1500ms".toList, "ok".toList, "foo".toList, "1500ms".toList]
    (1500000000 : Nat)
    (by decide) (by decide) (by rfl) (by decide) (by decide) (by rfl)

/-- C13: on a metrics line whose op-count token parses as `I` and whose ns/op token parses
as `D`, the case that is appended has `Time` equal to `fmt.Sprintf("%f", I*D/1000000000)`,
the product and the quotient being taken in `float64`. -/
theorem parse_step_metrics_time (lib : GoLib) (st : parse.State) (line : Str) (m : List Str)
    (opCount opDuration : lib.Float64)
    (hm : reBenchMetrics.FindStringSubmatch line = some m)
    (h2 : lib.ParseFloat (m.getD 2 []) = some opCount)
    (h3 : lib.ParseFloat (m.getD 3 []) = some opDuration) :
    ∃ st' tc, parse.step lib st line = .ok st' ∧
      st'.suite.TestCases = st.flush.suite.TestCases ++ [tc] ∧
      tc.Time = lib.Sprintf (lib.div (lib.mul opCount opDuration) lib.billion) := by
  obtain ⟨props, hp⟩ := propertiesFromMatch_duration lib m opCount opDuration h2 h3
  have h1 := parse.step_of_not_indented lib st (not_indented_of_metrics hm)
  rw [parse.dispatch_metrics lib _ hm, hp] at h1
  exact ⟨_, _, h1, rfl, rfl⟩

/-- C13 at the first example line of `parse.go`: 20000000 operations of 77.9 ns take
`1.558000` seconds. -/
theorem parse_step_metrics_time_witness :
    ∃ st' tc,
      parse.step decimalLib parse.init
        "Benchmark-4                 \t20000000\t       77.9 ns/op".toList = .ok st' ∧
      st'.suite.TestCases = (parse.State.flush parse.init).suite.TestCases ++ [tc] ∧
      tc.Time = "1.558000".toList :=
  parse_step_metrics_time decimalLib parse.init
    "Benchmark-4                 \t20000000\t       77.9 ns/op".toList
    ["Benchmark-4                 \t20000000\t       77.9 ns/op".toList, "Benchmark-4".toList,
      "20000000".toList, "77.9".toList, [], [], []]
    ((20000000, 1) : Nat × Nat) ((779, 10) : Nat × Nat)
    (by decide) (by rfl) (by rfl)

/-! ## Indented lines -/

/-- C14: a line that begins with four spaces only extends the log-text buffer, by the line
without its first four characters and a newline; the current suite, its cases and
counters, and the report stay as they are, whatever the rest of the line looks like, and
the iteration does not fail. -/
theorem parse_step_indented (lib : GoLib) (st : parse.State) (line : Str)
    (h : strings.HasPrefix line "    ".toList = true) :
    parse.step lib st line =
      .ok { st with logText := st.logText ++ (line.drop 4 ++ "\n".toList) } := by
  unfold parse.step strings.TrimPrefix
  rw [h]
  rfl

/-- C14 at a concrete input: an indented line whose rest is a suite-end line for another
suite. -/
theorem parse_step_indented_witness :
    parse.step decimalLib
        { parse.init with suite := { parse.init.suite with Name := "foo".toList } }
        "    ok  \tbar\tnever".toList =
      .ok { suites := { XMLName := [], List := [] }
            suite := { Name := "foo".toList, Tests := 0, Failures := 0, Time := [],
                       TestCases := [] }
            logText := "ok  \tbar\tnever\n".toList
            shared := 0 } :=
  parse_step_indented decimalLib
    { parse.init with suite := { parse.init.suite with Name := "foo".toList } }
    "    ok  \tbar\tnever".toList (by decide)

/-! ## `recordLogText` and fail action lines -/

/-- C15: `recordLogText` returns the suite unchanged when it has no cases and when its last
case has no `Failure`.  When the last case has a `Failure`, the result differs from the
suite in that last case only: its `Failure.Text` is `truncate(text, 1000)` and one
`categorized_fail` property with that value is added at the end of its properties;
the earlier cases, `Name`, `Tests`, `Failures` and `Time` are as before.  It has no failing
outcome: on a line that is not indented, the result of the iteration is the result of the
`switch` on the state after recording. -/
theorem recordLogText_spec (s : TestSuite) (text : Str) :
    (s.TestCases = [] → s.recordLogText text = s) ∧
    (∀ tc, s.TestCases.getLast? = some tc → tc.Failure = none → s.recordLogText text = s) ∧
    (∀ tc f, s.TestCases.getLast? = some tc → tc.Failure = some f →
      s.recordLogText text =
        { Name := s.Name, Tests := s.Tests, Failures := s.Failures, Time := s.Time,
          TestCases := s.TestCases.dropLast ++
            [{ ClassName := tc.ClassName, Name := tc.Name, Time := tc.Time,
               Failure := some { Text := truncate text 1000 },
               Skipped := tc.Skipped,
               PropertyList :=
                 { PropertyList := tc.PropertyList.PropertyList ++
                     [{ Name := "categorized_fail".toList,
                        Value := truncate text 1000 }] } }] }) ∧
    (∀ (lib : GoLib) (st : parse.State) (line : Str),
      strings.HasPrefix line "    ".toList = false →
      parse.step lib st line = parse.dispatch lib st.flush line) := by
  refine ⟨?_, ?_, ?_, fun lib st line h => parse.step_of_not_indented lib st h⟩
  · intro h
    unfold TestSuite.recordLogText
    rw [h]
    rfl
  · intro tc hlast hf
    unfold TestSuite.recordLogText
    rw [hlast]
    dsimp only
    rw [hf]
  · intro tc f hlast hf
    unfold TestSuite.recordLogText
    rw [hlast]
    dsimp only
    rw [hf]

/-- C16: on a fail action line for benchmark `name` the `switch` appends exactly one case,
with `Name = name`, `Time = "0"`, a `Failure` that is present and empty, `Skipped = false`
and no properties, adds one to `Tests` and one to `Failures`, and leaves the earlier cases,
the name of the suite and the report as they are.  The iteration on such a line is this
`switch` on the state in which pending log text has been recorded. -/
theorem parse_dispatch_fail (lib : GoLib) (st : parse.State) (line : Str) (m : List Str)
    (hact : reActionLine.FindStringSubmatch line = some m)
    (hfail : m.getD 1 [] = "FAIL".toList) :
    (∃ st' tc, parse.dispatch lib st line = .ok st' ∧
      st'.suite.TestCases = st.suite.TestCases ++ [tc] ∧
      tc.Name = m.getD 2 [] ∧ tc.Time = "0".toList ∧ tc.Failure = some { Text := [] } ∧
      tc.Skipped = false ∧ tc.PropertyList.PropertyList = [] ∧
      st'.suite.Tests = st.suite.Tests + 1 ∧ st'.suite.Failures = st.suite.Failures + 1 ∧
      st'.suite.Name = st.suite.Name ∧ st'.suites = st.suites) ∧
    parse.step lib st line = parse.dispatch lib st.flush line := by
  refine ⟨?_, parse.step_of_not_indented lib st (not_indented_of_action hact)⟩
  rw [parse.dispatch_action lib _ hact, if_neg (by rw [hfail]; decide), if_pos hfail]
  exact ⟨_, _, rfl, rfl, rfl, rfl, rfl, rfl, rfl, rfl, rfl, rfl, rfl⟩

/-- C16 at a concrete input: the line `--- FAIL: BenchmarkFatal` in a suite with one case. -/
theorem parse_dispatch_fail_witness :
    (∃ st' tc,
      parse.dispatch decimalLib
        { parse.init with
          suite := { parse.init.suite with
                     Name := "foo".toList
                     Tests := 1
                     TestCases := [{ ClassName := "foo".toList, Name := "BenchmarkA".toList,
                                     Time := "0.000000".toList, Failure := none, Skipped := false,
                                     PropertyList := { PropertyList := [] } }] } }
        "--- FAIL: BenchmarkFatal".toList = .ok st' ∧
      st'.suite.TestCases =
        [{ ClassName := "foo".toList, Name := "BenchmarkA".toList,
           Time := "0.000000".toList, Failure := none, Skipped := false,
           PropertyList := { PropertyList := [] } }] ++ [tc] ∧
      tc.Name = "BenchmarkFatal".toList ∧ tc.Time = "0".toList ∧
      tc.Failure = some { Text := [] } ∧ tc.Skipped = false ∧
      tc.PropertyList.PropertyList = [] ∧
      st'.suite.Tests = 1 + 1 ∧ st'.suite.Failures = 0 + 1 ∧
      st'.suite.Name = "foo".toList ∧ st'.suites = { XMLName := [], List := [] }) ∧
    parse.step decimalLib
        { parse.init with
          suite := { parse.init.suite with
                     Name := "foo".toList
                     Tests := 1
                     TestCases := [{ ClassName := "foo".toList, Name := "BenchmarkA".toList,
                                     Time := "0.000000".toList, Failure := none, Skipped := false,
                                     PropertyList := { PropertyList := [] } }] } }
        "--- FAIL: BenchmarkFatal".toList =
      parse.dispatch decimalLib
        (parse.State.flush
          { parse.init with
            suite := { parse.init.suite with
                       Name := "foo".toList
                       Tests := 1
                       TestCases := [{ ClassName := "foo".toList, Name := "BenchmarkA".toList,
                                       Time := "0.000000".toList, Failure := none,
                                       Skipped := false,
                                       PropertyList := { PropertyList := [] } }] } })
        "--- FAIL: BenchmarkFatal".toList :=
  parse_dispatch_fail decimalLib _ "--- FAIL: BenchmarkFatal".toList
    ["--- FAIL: BenchmarkFatal".toList, "FAIL".toList, "BenchmarkFatal".toList]
    (by decide) (by decide)

/-! ## Class name and name of a case -/

/-- The function `path.Base` on a name that has a non-empty part after its last slash, or no
slash at all, is that part. -/
theorem path.Base_after_last_slash (dir base : Str) (hslash : '/' ∉ base) (hne : base ≠ []) :
    path.Base (dir ++ '/' :: base) = base ∧ path.Base base = base := by
  obtain ⟨c, r, hr⟩ : ∃ c r, base.reverse = c :: r := by
    cases h : base.reverse with
    | nil => exact absurd (List.reverse_eq_nil_iff.mp h) hne
    | cons c r => exact ⟨c, r, rfl⟩
  have hc : c ≠ '/' := by
    intro h
    apply hslash
    rw [← List.mem_reverse, hr, h]
    exact List.mem_cons_self _ _
  have hall : ∀ a ∈ base.reverse, (decide (a ≠ '/')) = true := by
    intro a ha
    rw [List.mem_reverse] at ha
    simp only [decide_eq_true_eq]
    intro h
    exact hslash (h ▸ ha)
  have key : ∀ rest : Str, (rest = [] ∨ ∃ t, rest = '/' :: t) →
      path.Base ((base.reverse ++ rest).reverse) = base := by
    intro rest hrest
    have hq : (base.reverse ++ rest).reverse ≠ [] := by simp [hne]
    have hdrop : (base.reverse ++ rest).dropWhile (fun x => decide (x = '/')) =
        base.reverse ++ rest := by
      rw [hr]
      simp [List.dropWhile_cons, hc]
    have htk : (base.reverse ++ rest).takeWhile (fun x => decide (x ≠ '/')) = base.reverse := by
      rw [List.takeWhile_append_of_pos hall]
      rcases hrest with rfl | ⟨t, rfl⟩ <;> simp
    unfold path.Base
    rw [if_neg hq]
    simp only [List.reverse_reverse]
    rw [hdrop, htk]
    simp only [List.reverse_reverse]
    rw [if_neg hne]
  constructor
  · have := key ('/' :: dir.reverse) (Or.inr ⟨_, rfl⟩)
    simpa using this
  · have := key [] (Or.inl rfl)
    simpa using this

/-- C17, as the code has it: a case that an iteration creates, from a metrics line or from a
skip or fail action line, has as `Name` the benchmark name captured by that line and as
`ClassName` the value of `path.Base` on the name of the current suite; that is the part of
the suite name after its last slash whenever this part is not empty (and the whole name
when it has no slash and is not empty). -/
theorem parse_case_identifiers (lib : GoLib) (st st' : parse.State) (line : Str) (name : Str)
    (hcase : (∃ m, reBenchMetrics.FindStringSubmatch line = some m ∧ name = m.getD 1 []) ∨
      (∃ m, reActionLine.FindStringSubmatch line = some m ∧
        (m.getD 1 [] = "SKIP".toList ∨ m.getD 1 [] = "FAIL".toList) ∧ name = m.getD 2 []))
    (hstep : parse.step lib st line = .ok st') :
    ∃ tc, st'.suite.TestCases = st.flush.suite.TestCases ++ [tc] ∧ tc.Name = name ∧
      tc.ClassName = path.Base st.suite.Name ∧
      (∀ dir base, '/' ∉ base → base ≠ [] →
        (st.suite.Name = dir ++ '/' :: base ∨ st.suite.Name = base) → tc.ClassName = base) := by
  have hbase : ∀ dir base, '/' ∉ base → base ≠ [] →
      (st.suite.Name = dir ++ '/' :: base ∨ st.suite.Name = base) →
      path.Base st.suite.Name = base := by
    intro dir base h1 h2 h3
    rcases h3 with h3 | h3
    · rw [h3]; exact (path.Base_after_last_slash dir base h1 h2).1
    · rw [h3]; exact (path.Base_after_last_slash dir base h1 h2).2
  rcases hcase with ⟨m, hm, rfl⟩ | ⟨m, hm, hkind, rfl⟩
  · rw [parse.step_of_not_indented lib st (not_indented_of_metrics hm),
      parse.dispatch_metrics lib _ hm] at hstep
    cases hp : propertiesFromMatch lib m with
    | error e => rw [hp] at hstep; cases hstep
    | ok p =>
      rw [hp] at hstep
      cases hstep
      exact ⟨_, rfl, rfl, by rw [parse.State.flush_Name],
        fun dir base h1 h2 h3 => by rw [parse.State.flush_Name]; exact hbase dir base h1 h2 h3⟩
  · rw [parse.step_of_not_indented lib st (not_indented_of_action hm),
      parse.dispatch_action lib _ hm] at hstep
    rcases hkind with hk | hk
    · rw [if_pos hk] at hstep
      cases hstep
      exact ⟨_, rfl, rfl, by rw [parse.State.flush_Name],
        fun dir base h1 h2 h3 => by rw [parse.State.flush_Name]; exact hbase dir base h1 h2 h3⟩
    · rw [if_neg (by rw [hk]; decide), if_pos hk] at hstep
      cases hstep
      exact ⟨_, rfl, rfl, by rw [parse.State.flush_Name],
        fun dir base h1 h2 h3 => by rw [parse.State.flush_Name]; exact hbase dir base h1 h2 h3⟩

/-- The amended C17 at a concrete input: a skip action line in the suite
`k8s.io/test-infra/experiment/dummybenchmarks`. -/
theorem parse_case_identifiers_witness :
    ∃ tc,
      [{ ClassName := "dummybenchmarks".toList, Name := "BenchmarkSkip".toList,
         Time := "0".toList, Failure := none, Skipped := true,
         PropertyList := { PropertyList := [] } }] =
        (parse.State.flush
          { parse.init with
            suite := { parse.init.suite with
                       Name := "k8s.io/test-infra/experiment/dummybenchmarks".toList } }).suite.TestCases
          ++ [tc] ∧
      tc.Name = "BenchmarkSkip".toList ∧ tc.ClassName = "dummybenchmarks".toList := by
  obtain ⟨tc, h1, h2, _, h4⟩ :=
    parse_case_identifiers decimalLib
      { parse.init with
        suite := { parse.init.suite with
                   Name := "k8s.io/test-infra/experiment/dummybenchmarks".toList } }
      { suites := { XMLName := [], List := [] }
        suite :=
          { Name := "k8s.io/test-infra/experiment/dummybenchmarks".toList, Tests := 0,
            Failures := 0, Time := []
            TestCases :=
              [{ ClassName := "dummybenchmarks".toList, Name := "BenchmarkSkip".toList,
                 Time := "0".toList, Failure := none, Skipped := true,
                 PropertyList := { PropertyList := [] } }] }
        logText := []
        shared := 0 }
      "--- SKIP: BenchmarkSkip".toList "BenchmarkSkip".toList
      (Or.inr ⟨["--- SKIP: BenchmarkSkip".toList, "SKIP".toList, "BenchmarkSkip".toList],
        by decide, Or.inl (by decide), by decide⟩)
      (by rfl)
  exact ⟨tc, h1, h2,
    h4 "k8s.io/test-infra/experiment".toList "dummybenchmarks".toList (by decide) (by decide)
      (Or.inl (by decide))⟩

/-- C17 as stated fails: the suite name `a/b/` has nothing after its last slash, and the
case that reaches the report has the class name `b`.  A case created before any suite-start
line, when the suite name is empty, has the class name `.`. -/
theorem parse_case_identifiers_counterexample :
    parse decimalLib "pkg: a/b/\n--- SKIP: BenchmarkX\nok a/b/ 1s".toList =
      (some
        { XMLName := []
          List :=
            [{ Name := "a/b/".toList, Tests := 0, Failures := 0, Time := "1.000000".toList
               TestCases :=
                 [{ ClassName := "b".toList, Name := "BenchmarkX".toList, Time := "0".toList,
                    Failure := none, Skipped := true,
                    PropertyList := { PropertyList := [] } }] }] },
       none) ∧
    "a/b/".toList = "a/b".toList ++ '/' :: [] ∧
    (parse.loop decimalLib parse.init
        (strings.Split "--- SKIP: BenchmarkX".toList)).toOption.map
        (fun st => (st.suite.Name, st.suite.TestCases.map (fun c => c.ClassName))) =
      some ([], [".".toList]) := by
  decide

/-! ## The counters of a suite -/

/-- Recording log text keeps the counters of a suite in step with its cases. -/
theorem TestSuite.recordLogText_counted (s : TestSuite) (text : Str)
    (h : s.Failures = s.TestCases.countP (fun c => c.Failure.isSome) ∧
      s.Tests = s.TestCases.countP (fun c => !c.Skipped) ∧
      ∀ c ∈ s.TestCases, c.Failure.isSome = true → c.Skipped = false) :
    (s.recordLogText text).Failures =
        (s.recordLogText text).TestCases.countP (fun c => c.Failure.isSome) ∧
      (s.recordLogText text).Tests =
        (s.recordLogText text).TestCases.countP (fun c => !c.Skipped) ∧
      ∀ c ∈ (s.recordLogText text).TestCases, c.Failure.isSome = true → c.Skipped = false := by
  obtain ⟨hf, ht, hs⟩ := h
  cases hlast : s.TestCases.getLast? with
  | none =>
    have : s.recordLogText text = s := by unfold TestSuite.recordLogText; rw [hlast]
    rw [this]; exact ⟨hf, ht, hs⟩
  | some tc =>
    cases hfail : tc.Failure with
    | none =>
      have : s.recordLogText text = s := by
        unfold TestSuite.recordLogText; rw [hlast]; dsimp only; rw [hfail]
      rw [this]; exact ⟨hf, ht, hs⟩
    | some f =>
      have hcases := TestSuite.recordLogText_getLast s text tc f hlast hfail
      have hold : s.TestCases.dropLast ++ [tc] = s.TestCases :=
        List.dropLast_append_getLast? tc (by rw [hlast]; rfl)
      rw [TestSuite.recordLogText_Failures, TestSuite.recordLogText_Tests, hcases]
      rw [← hold] at hf ht hs
      refine ⟨?_, ?_, ?_⟩
      · rw [hf]
        simp [List.countP_append, List.countP_cons, hfail]
      · rw [ht]
        simp [List.countP_append, List.countP_cons]
      · intro c hc hsome
        rw [List.mem_append, List.mem_singleton] at hc
        rcases hc with hc | hc
        · exact hs c (List.mem_append_left _ hc) hsome
        · rw [hc]
          exact hs tc (List.mem_append_right _ (List.mem_singleton_self _)) (by rw [hfail]; rfl)

/-- Recording the pending log text keeps the counters of the current suite and of every
suite in the report in step with their cases. -/
theorem parse.State.flush_counted (st : parse.State)
    (hinv : ∀ s, (s = st.suite ∨ s ∈ st.suites.List) →
      s.Failures = s.TestCases.countP (fun c => c.Failure.isSome) ∧
      s.Tests = s.TestCases.countP (fun c => !c.Skipped) ∧
      ∀ c ∈ s.TestCases, c.Failure.isSome = true → c.Skipped = false) :
    ∀ s, (s = st.flush.suite ∨ s ∈ st.flush.suites.List) →
      s.Failures = s.TestCases.countP (fun c => c.Failure.isSome) ∧
      s.Tests = s.TestCases.countP (fun c => !c.Skipped) ∧
      ∀ c ∈ s.TestCases, c.Failure.isSome = true → c.Skipped = false := by
  unfold parse.State.flush
  split
  · intro s hs
    dsimp only at hs
    rcases hs with rfl | hs
    · exact TestSuite.recordLogText_counted _ _ (hinv _ (Or.inl rfl))
    · rw [List.mem_append, List.mem_map] at hs
      rcases hs with hs | ⟨s0, hs0, rfl⟩
      · exact hinv s (Or.inr (List.mem_of_mem_take hs))
      · exact TestSuite.recordLogText_counted _ _ (hinv s0 (Or.inr (List.mem_of_mem_drop hs0)))
  · exact hinv

/-- The `switch` keeps the counters in step with the cases. -/
theorem parse.dispatch_counted (lib : GoLib) (st st' : parse.State) (line : Str)
    (hinv : ∀ s, (s = st.suite ∨ s ∈ st.suites.List) →
      s.Failures = s.TestCases.countP (fun c => c.Failure.isSome) ∧
      s.Tests = s.TestCases.countP (fun c => !c.Skipped) ∧
      ∀ c ∈ s.TestCases, c.Failure.isSome = true → c.Skipped = false)
    (h : parse.dispatch lib st line = .ok st') :
    ∀ s, (s = st'.suite ∨ s ∈ st'.suites.List) →
      s.Failures = s.TestCases.countP (fun c => c.Failure.isSome) ∧
      s.Tests = s.TestCases.countP (fun c => !c.Skipped) ∧
      ∀ c ∈ s.TestCases, c.Failure.isSome = true → c.Skipped = false := by
  obtain ⟨hf, ht, hsk⟩ := hinv st.suite (Or.inl rfl)
  have hgrow : ∀ (tc : TestCase) (t f : Nat),
      f = st.suite.Failures + (if tc.Failure.isSome then 1 else 0) →
      t = st.suite.Tests + (if tc.Skipped then 0 else 1) →
      (tc.Failure.isSome = true → tc.Skipped = false) →
      f = (st.suite.TestCases ++ [tc]).countP (fun c => c.Failure.isSome) ∧
      t = (st.suite.TestCases ++ [tc]).countP (fun c => !c.Skipped) ∧
      ∀ c ∈ st.suite.TestCases ++ [tc], c.Failure.isSome = true → c.Skipped = false := by
    intro tc t f hf' ht' hsk'
    refine ⟨?_, ?_, ?_⟩
    · rw [hf', hf, List.countP_append, List.countP_cons, List.countP_nil]
      simp
    · rw [ht', ht, List.countP_append, List.countP_cons, List.countP_nil]
      cases tc.Skipped <;> simp
    · intro c hc
      rw [List.mem_append, List.mem_singleton] at hc
      rcases hc with hc | hc
      · exact hsk c hc
      · rw [hc]; exact hsk'
  unfold parse.dispatch at h
  split at h
  · cases h
    intro s hs
    rcases hs with rfl | hs
    · exact ⟨rfl, rfl, fun c hc => by cases hc⟩
    · exact hinv s (Or.inr hs)
  · split at h
    · split at h
      · cases h
      · split at h
        · cases h
        · cases h
          intro s hs
          dsimp only at hs
          rw [List.mem_append, List.mem_singleton] at hs
          rcases hs with rfl | hs | rfl
          · exact ⟨hf, ht, hsk⟩
          · exact hinv s (Or.inr hs)
          · exact ⟨hf, ht, hsk⟩
    · split at h
      · split at h
        · cases h
        · cases h
          intro s hs
          rcases hs with rfl | hs
          · exact hgrow _ _ _ (by simp) (by simp) (by simp)
          · exact hinv s (Or.inr hs)
      · split at h
        · split at h
          · cases h
            intro s hs
            rcases hs with rfl | hs
            · exact hgrow _ _ _ (by simp) (by simp) (by simp)
            · exact hinv s (Or.inr hs)
          · split at h
            · cases h
              intro s hs
              rcases hs with rfl | hs
              · exact hgrow _ _ _ (by simp) (by simp) (by simp)
              · exact hinv s (Or.inr hs)
            · cases h
              exact hinv
        · cases h
          exact hinv

/-- The loop keeps the counters in step with the cases. -/
theorem parse.loop_counted (lib : GoLib) (ls : List Str) :
    ∀ st st' : parse.State,
      (∀ s, (s = st.suite ∨ s ∈ st.suites.List) →
        s.Failures = s.TestCases.countP (fun c => c.Failure.isSome) ∧
        s.Tests = s.TestCases.countP (fun c => !c.Skipped) ∧
        ∀ c ∈ s.TestCases, c.Failure.isSome = true → c.Skipped = false) →
      parse.loop lib st ls = .ok st' →
      ∀ s, (s = st'.suite ∨ s ∈ st'.suites.List) →
        s.Failures = s.TestCases.countP (fun c => c.Failure.isSome) ∧
        s.Tests = s.TestCases.countP (fun c => !c.Skipped) ∧
        ∀ c ∈ s.TestCases, c.Failure.isSome = true → c.Skipped = false := by
  induction ls with
  | nil => intro st st' hinv h; cases h; exact hinv
  | cons l ls ih =>
    intro st st' hinv h
    obtain ⟨st1, hs, hl⟩ := parse.loop_cons_ok lib l ls st st' h
    refine ih st1 st' ?_ hl
    cases hind : strings.HasPrefix l "    ".toList with
    | true =>
      unfold parse.step at hs
      rw [hind] at hs
      cases hs
      exact hinv
    | false =>
      rw [parse.step_of_not_indented lib st hind] at hs
      exact parse.dispatch_counted lib st.flush st1 l (parse.State.flush_counted st hinv) hs

/-- How the cases of a list divide into skipped ones and others. -/
theorem TestCase.length_eq_countP (cs : List TestCase) :
    cs.length = cs.countP (fun c => !c.Skipped) + cs.countP (fun c => c.Skipped) := by
  induction cs with
  | nil => rfl
  | cons c cs ih =>
    rw [List.length_cons, List.countP_cons, List.countP_cons, ih]
    cases c.Skipped <;> simp <;> omega

/-- C18: after every prefix of the lines of an input that `parse` has gone through, the
current suite and every suite in the report have `Failures` equal to the number of their
cases with a `Failure`, and `Tests` equal to the number of their cases that are not skipped;
hence `Failures ≤ Tests ≤` number of cases, and the number of cases is `Tests` plus the
number of skipped cases.  After all lines the report is the one `parse` returns. -/
theorem parse_counters (lib : GoLib) (raw : Str) (pre post : List Str) (st : parse.State)
    (s : TestSuite)
    (hsplit : strings.Split raw = pre ++ post)
    (hpre : parse.loop lib parse.init pre = .ok st)
    (hs : s = st.suite ∨ s ∈ st.suites.List) :
    (s.Failures = s.TestCases.countP (fun c => c.Failure.isSome) ∧
      s.Tests = s.TestCases.countP (fun c => !c.Skipped) ∧
      s.Failures ≤ s.Tests ∧ s.Tests ≤ s.TestCases.length ∧
      s.TestCases.length = s.Tests + s.TestCases.countP (fun c => c.Skipped)) ∧
    (post = [] → parse lib raw = (some st.suites, none)) := by
  have hinit : ∀ s0, (s0 = parse.init.suite ∨ s0 ∈ parse.init.suites.List) →
      s0.Failures = s0.TestCases.countP (fun c => c.Failure.isSome) ∧
      s0.Tests = s0.TestCases.countP (fun c => !c.Skipped) ∧
      ∀ c ∈ s0.TestCases, c.Failure.isSome = true → c.Skipped = false := by
    intro s0 h0
    rcases h0 with rfl | h0
    · exact ⟨rfl, rfl, fun c hc => by cases hc⟩
    · cases h0
  obtain ⟨hf, ht, hsk⟩ := parse.loop_counted lib pre parse.init st hinit hpre s hs
  refine ⟨⟨hf, ht, ?_, ?_, ?_⟩, ?_⟩
  · rw [hf, ht]
    apply List.countP_mono_left
    intro c hc hsome
    simp only [Bool.not_eq_true']
    exact hsk c hc hsome
  · rw [ht]
    exact List.countP_le_length _
  · rw [ht]
    exact TestCase.length_eq_countP _
  · intro hpost
    unfold parse
    rw [hsplit, hpost, List.append_nil, hpre]

/-- C18 at a concrete input: a suite with a passing, a skipped and a failing benchmark. -/
theorem parse_counters_witness :
    ((2 : Nat) = [TestCase.mk "foo".toList "BenchmarkA".toList "0.000000".toList none false
          { PropertyList := [{ Name := "op count".toList, Value := "1".toList },
                             { Name := "avg op duration (ns/op)".toList, Value := "1".toList }] },
        TestCase.mk "foo".toList "BenchmarkSkip".toList "0".toList none true
          { PropertyList := [] },
        TestCase.mk "foo".toList "BenchmarkFatal".toList "0".toList
          (some { Text := "boom\n".toList }) false
          { PropertyList := [{ Name := "categorized_fail".toList,
                               Value := "boom\n".toList }] }].countP (fun c => !c.Skipped)) ∧
    parse decimalLib
        "pkg: foo\nBenchmarkA 1 1 ns/op\n--- SKIP: BenchmarkSkip\n--- FAIL: BenchmarkFatal\n    boom\nFAIL\tfoo\t1s".toList =
      (some
        { XMLName := []
          List :=
            [{ Name := "foo".toList, Tests := 2, Failures := 1, Time := "1.000000".toList
               TestCases :=
                 [{ ClassName := "foo".toList, Name := "BenchmarkA".toList,
                    Time := "0.000000".toList, Failure := none, Skipped := false,
                    PropertyList :=
                      { PropertyList :=
                          [{ Name := "op count".toList, Value := "1".toList },
                           { Name := "avg op duration (ns/op)".toList,
                             Value := "1".toList }] } },
                  { ClassName := "foo".toList, Name := "BenchmarkSkip".toList,
                    Time := "0".toList, Failure := none, Skipped := true,
                    PropertyList := { PropertyList := [] } },
                  { ClassName := "foo".toList, Name := "BenchmarkFatal".toList,
                    Time := "0".toList, Failure := some { Text := "boom\n".toList },
                    Skipped := false,
                    PropertyList :=
                      { PropertyList :=
                          [{ Name := "categorized_fail".toList,
                             Value := "boom\n".toList }] } }] }] },
       none) := by
  have h := parse_counters decimalLib
    "pkg: foo\nBenchmarkA 1 1 ns/op\n--- SKIP: BenchmarkSkip\n--- FAIL: BenchmarkFatal\n    boom\nFAIL\tfoo\t1s".toList
    ["pkg: foo".toList, "BenchmarkA 1 1 ns/op".toList, "--- SKIP: BenchmarkSkip".toList,
      "--- FAIL: BenchmarkFatal".toList, "    boom".toList, "FAIL\tfoo\t1s".toList] []
    { suites :=
        { XMLName := []
          List :=
            [{ Name := "foo".toList, Tests := 2, Failures := 1, Time := "1.000000".toList
               TestCases :=
                 [{ ClassName := "foo".toList, Name := "BenchmarkA".toList,
                    Time := "0.000000".toList, Failure := none, Skipped := false,
                    PropertyList :=
                      { PropertyList :=
                          [{ Name := "op count".toList, Value := "1".toList },
                           { Name := "avg op duration (ns/op)".toList,
                             Value := "1".toList }] } },
                  { ClassName := "foo".toList, Name := "BenchmarkSkip".toList,
                    Time := "0".toList, Failure := none, Skipped := true,
                    PropertyList := { PropertyList := [] } },
                  { ClassName := "foo".toList, Name := "BenchmarkFatal".toList,
                    Time := "0".toList, Failure := some { Text := "boom\n".toList },
                    Skipped := false,
                    PropertyList :=
                      { PropertyList :=
                          [{ Name := "categorized_fail".toList,
                             Value := "boom\n".toList }] } }] }] }
      suite :=
        { Name := "foo".toList, Tests := 2, Failures := 1, Time := "1.000000".toList
          TestCases :=
            [{ ClassName := "foo".toList, Name := "BenchmarkA".toList,
               Time := "0.000000".toList, Failure := none, Skipped := false,
               PropertyList :=
                 { PropertyList :=
                     [{ Name := "op count".toList, Value := "1".toList },
                      { Name := "avg op duration (ns/op)".toList, Value := "1".toList }] } },
             { ClassName := "foo".toList, Name := "BenchmarkSkip".toList,
               Time := "0".toList, Failure := none, Skipped := true,
               PropertyList := { PropertyList := [] } },
             { ClassName := "foo".toList, Name := "BenchmarkFatal".toList,
               Time := "0".toList, Failure := some { Text := "boom\n".toList },
               Skipped := false,
               PropertyList :=
                 { PropertyList :=
                     [{ Name := "categorized_fail".toList, Value := "boom\n".toList }] } }] }
      logText := []
      shared := 1 }
    _ (by decide) (by rfl) (Or.inl rfl)
  exact ⟨h.1.2.1, h.2 rfl⟩

/-! ## The order of the cases of the `switch` -/

/-- The first element that satisfies a test is the same in every arrangement of a list in
which at most one element satisfies it. -/
theorem List.find?_perm_of_unique {α : Type} (p : α → Bool) (l l' : List α) (hperm : l.Perm l')
    (huniq : ∀ x ∈ l', ∀ y ∈ l', p x = true → p y = true → x = y) :
    l.find? p = l'.find? p := by
  cases h' : l'.find? p with
  | none =>
    rw [List.find?_eq_none] at h' ⊢
    intro x hx
    exact h' x (hperm.mem_iff.mp hx)
  | some y =>
    have hy : p y = true := List.find?_some h'
    have hymem : y ∈ l' := List.mem_of_find?_eq_some h'
    cases h : l.find? p with
    | none =>
      rw [List.find?_eq_none] at h
      exact absurd hy (h y (hperm.mem_iff.mpr hymem))
    | some z =>
      have hz : p z = true := List.find?_some h
      have hzmem : z ∈ l' := hperm.mem_iff.mp (List.mem_of_find?_eq_some h)
      rw [huniq z hzmem y hymem hz hy]

/-- C19: no line matches more than one of `reSuiteStart`, `reSuiteEnd`, `reBenchMetrics` and
`reActionLine`.  Hence a `switch` over these four tests, which takes the first case whose
test holds, takes the same case in whatever order the four tests are arranged. -/
theorem patterns_exclusive (line : Str) :
    ¬ (reSuiteStart.MatchString line = true ∧ reSuiteEnd.MatchString line = true) ∧
    ¬ (reSuiteStart.MatchString line = true ∧ reBenchMetrics.MatchString line = true) ∧
    ¬ (reSuiteStart.MatchString line = true ∧ reActionLine.MatchString line = true) ∧
    ¬ (reSuiteEnd.MatchString line = true ∧ reBenchMetrics.MatchString line = true) ∧
    ¬ (reSuiteEnd.MatchString line = true ∧ reActionLine.MatchString line = true) ∧
    ¬ (reBenchMetrics.MatchString line = true ∧ reActionLine.MatchString line = true) ∧
    (∀ (α : Type) (a b c d : α) (l : List (Bool × α)),
      l.Perm [(reSuiteStart.MatchString line, a), (reSuiteEnd.MatchString line, b),
        (reBenchMetrics.MatchString line, c), (reActionLine.MatchString line, d)] →
      l.find? (fun x => x.1) =
        [(reSuiteStart.MatchString line, a), (reSuiteEnd.MatchString line, b),
          (reBenchMetrics.MatchString line, c), (reActionLine.MatchString line, d)].find?
          (fun x => x.1)) := by
  have h12 : ¬ (reSuiteStart.MatchString line = true ∧ reSuiteEnd.MatchString line = true) := by
    rintro ⟨h1, h2⟩
    obtain ⟨m, hm⟩ := Option.isSome_iff_exists.mp h2
    unfold Re.MatchString at h1
    rw [reSuiteStart_none_of_end hm] at h1
    cases h1
  have h13 : ¬ (reSuiteStart.MatchString line = true ∧
      reBenchMetrics.MatchString line = true) := by
    rintro ⟨h1, h2⟩
    obtain ⟨m, hm⟩ := Option.isSome_iff_exists.mp h2
    unfold Re.MatchString at h1
    rw [reSuiteStart_none_of_metrics hm] at h1
    cases h1
  have h14 : ¬ (reSuiteStart.MatchString line = true ∧
      reActionLine.MatchString line = true) := by
    rintro ⟨h1, h2⟩
    obtain ⟨m, hm⟩ := Option.isSome_iff_exists.mp h2
    unfold Re.MatchString at h1
    rw [reSuiteStart_none_of_action hm] at h1
    cases h1
  have h23 : ¬ (reSuiteEnd.MatchString line = true ∧
      reBenchMetrics.MatchString line = true) := by
    rintro ⟨h1, h2⟩
    obtain ⟨m, hm⟩ := Option.isSome_iff_exists.mp h2
    unfold Re.MatchString at h1
    rw [reSuiteEnd_none_of_metrics hm] at h1
    cases h1
  have h24 : ¬ (reSuiteEnd.MatchString line = true ∧ reActionLine.MatchString line = true) := by
    rintro ⟨h1, h2⟩
    obtain ⟨m, hm⟩ := Option.isSome_iff_exists.mp h2
    unfold Re.MatchString at h1
    rw [reSuiteEnd_none_of_action hm] at h1
    cases h1
  have h34 : ¬ (reBenchMetrics.MatchString line = true ∧
      reActionLine.MatchString line = true) := by
    rintro ⟨h1, h2⟩
    obtain ⟨m, hm⟩ := Option.isSome_iff_exists.mp h2
    unfold Re.MatchString at h1
    rw [reBenchMetrics_none_of_action hm] at h1
    cases h1
  refine ⟨h12, h13, h14, h23, h24, h34, ?_⟩
  intro α a b c d l hperm
  apply List.find?_perm_of_unique _ _ _ hperm
  generalize reSuiteStart.MatchString line = g1 at h12 h13 h14
  generalize reSuiteEnd.MatchString line = g2 at h12 h23 h24
  generalize reBenchMetrics.MatchString line = g3 at h13 h23 h34
  generalize reActionLine.MatchString line = g4 at h14 h24 h34
  intro x hx y hy hpx hpy
  simp only [List.mem_cons, List.mem_singleton, List.not_mem_nil, or_false] at hx hy
  rcases hx with rfl | rfl | rfl | rfl <;> rcases hy with rfl | rfl | rfl | rfl <;>
    first
    | rfl
    | (dsimp only at hpx hpy
       simp_all)

/-! ## Which suites reach the report -/

/-- The `switch` adds one suite to the report on a suite-end line and none on any other. -/
theorem parse.dispatch_suites_length (lib : GoLib) (st st' : parse.State) (line : Str)
    (h : parse.dispatch lib st line = .ok st') :
    st'.suites.List.length =
      st.suites.List.length + (if reSuiteEnd.MatchString line = true then 1 else 0) := by
  cases he : reSuiteEnd.FindStringSubmatch line with
  | some m =>
    have hm : reSuiteEnd.MatchString line = true := by unfold Re.MatchString; rw [he]; rfl
    obtain ⟨_, _, _, _, _, h6⟩ := parse.dispatch_end_ok lib st st' line m he h
    rw [h6, if_pos hm, List.length_append, List.length_singleton]
  | none =>
    have hm : ¬ (reSuiteEnd.MatchString line = true) := by
      unfold Re.MatchString; rw [he]; simp
    rw [if_neg hm, Nat.add_zero]
    unfold parse.dispatch at h
    rw [he] at h
    split at h
    · cases h; rfl
    · dsimp only at h
      split at h
      · split at h
        · cases h
        · cases h; rfl
      · split at h
        · split at h
          · cases h; rfl
          · split at h <;> (cases h; rfl)
        · cases h; rfl

/-- The number of suites in the report grows by the number of suite-end lines read. -/
theorem parse.loop_suites_length (lib : GoLib) (ls : List Str) :
    ∀ st st' : parse.State, parse.loop lib st ls = .ok st' →
      st'.suites.List.length = st.suites.List.length +
        ls.countP (fun l => !strings.HasPrefix l "    ".toList && reSuiteEnd.MatchString l) := by
  induction ls with
  | nil => intro st st' h; cases h; rfl
  | cons l ls ih =>
    intro st st' h
    obtain ⟨st1, hs, hl⟩ := parse.loop_cons_ok lib l ls st st' h
    rw [ih st1 st' hl, List.countP_cons]
    cases hind : strings.HasPrefix l "    ".toList with
    | true =>
      unfold parse.step at hs
      rw [hind] at hs
      cases hs
      simp
    | false =>
      rw [parse.step_of_not_indented lib st hind] at hs
      rw [parse.dispatch_suites_length lib _ st1 l hs, parse.State.flush_suites_length]
      simp only [Bool.not_false, Bool.true_and]
      omega

/-- With no shared entry, recording log text leaves the report alone. -/
theorem parse.State.flush_suites_of_shared_zero (st : parse.State) (h : st.shared = 0) :
    st.flush.suites = st.suites := by
  unfold parse.State.flush
  split
  · simp [h]
  · rfl

/-- A line that is not a suite-end line, read when no report entry is shared, leaves the
report alone and shares no entry. -/
theorem parse.step_unclosed (lib : GoLib) (st st' : parse.State) (line : Str)
    (hshared : st.shared = 0) (hline : reSuiteEnd.FindStringSubmatch line = none)
    (h : parse.step lib st line = .ok st') :
    st'.shared = 0 ∧ st'.suites = st.suites := by
  cases hind : strings.HasPrefix line "    ".toList with
  | true =>
    unfold parse.step at h
    rw [hind] at h
    cases h
    exact ⟨hshared, rfl⟩
  | false =>
    rw [parse.step_of_not_indented lib st hind] at h
    have hsh : st.flush.shared = 0 := by rw [parse.State.flush_shared, hshared]
    rw [← parse.State.flush_suites_of_shared_zero st hshared]
    unfold parse.dispatch at h
    rw [hline] at h
    split at h
    · cases h; exact ⟨rfl, rfl⟩
    · dsimp only at h
      split at h
      · split at h
        · cases h
        · cases h; exact ⟨rfl, rfl⟩
      · split at h
        · split at h
          · cases h; exact ⟨rfl, rfl⟩
          · split at h
            · cases h; exact ⟨rfl, rfl⟩
            · cases h; exact ⟨hsh, rfl⟩
        · cases h; exact ⟨hsh, rfl⟩

theorem parse.loop_unclosed (lib : GoLib) (ls : List Str)
    (hls : ∀ l ∈ ls, reSuiteEnd.FindStringSubmatch l = none) :
    ∀ st st' : parse.State, st.shared = 0 → parse.loop lib st ls = .ok st' →
      st'.shared = 0 ∧ st'.suites = st.suites := by
  induction ls with
  | nil => intro st st' h0 h; cases h; exact ⟨h0, rfl⟩
  | cons l ls ih =>
    intro st st' h0 h
    obtain ⟨st1, hs, hl⟩ := parse.loop_cons_ok lib l ls st st' h
    obtain ⟨h1, h2⟩ := parse.step_unclosed lib st st1 l h0 (hls l (List.mem_cons_self _ _)) hs
    obtain ⟨h3, h4⟩ := ih (fun x hx => hls x (List.mem_cons_of_mem _ hx)) st1 st' h1 hl
    exact ⟨h3, by rw [h4, h2]⟩

/-- C20: a suite-start line replaces the current suite by a fresh one with the captured
name, no cases and both counters zero.  Whenever `parse` succeeds, the report has as many
suites as the input has lines that are not indented and match `reSuiteEnd`.  And the lines
read after a suite-start line, when no suite-end line comes before the next suite-start
line or the end of the input, leave no trace: `parse` returns what it returns on the input
without them. -/
theorem parse_unclosed_suite (lib : GoLib) (raw raw' : Str) (pre : List Str) (start : Str)
    (body rest : List Str) (m : List Str) (st0 : parse.State)
    (hsplit : strings.Split raw = pre ++ start :: (body ++ rest))
    (hsplit' : strings.Split raw' = pre ++ start :: rest)
    (hpre : parse.loop lib parse.init pre = .ok st0)
    (hstart : reSuiteStart.FindStringSubmatch start = some m)
    (hbody : ∀ l ∈ body, reSuiteEnd.FindStringSubmatch l = none)
    (hrest : rest = [] ∨ ∃ s r ms, rest = s :: r ∧ reSuiteStart.FindStringSubmatch s = some ms)
    (hok : (parse lib raw).2 = none) :
    parse.step lib st0 start =
      .ok { suites := st0.flush.suites
            suite := { Name := m.getD 1 [], Tests := 0, Failures := 0, Time := [],
                       TestCases := [] }
            logText := st0.flush.logText
            shared := 0 } ∧
    (∀ (input : Str) (rep : TestSuites), (parse lib input).1 = some rep →
      rep.List.length =
        (strings.Split input).countP
          (fun l => !strings.HasPrefix l "    ".toList && reSuiteEnd.MatchString l)) ∧
    parse lib raw' = parse lib raw := by
  have hstep : parse.step lib st0 start =
      .ok { suites := st0.flush.suites
            suite := { Name := m.getD 1 [], Tests := 0, Failures := 0, Time := [],
                       TestCases := [] }
            logText := st0.flush.logText
            shared := 0 } := by
    rw [parse.step_of_not_indented lib st0 (not_indented_of_start hstart),
      parse.dispatch_start lib _ hstart]
  refine ⟨hstep, ?_, ?_⟩
  · intro input rep hrep
    unfold parse at hrep
    cases hl : parse.loop lib parse.init (strings.Split input) with
    | error e => rw [hl] at hrep; cases hrep
    | ok st =>
      rw [hl] at hrep
      simp only [Option.some.injEq] at hrep
      rw [← hrep, parse.loop_suites_length lib _ parse.init st hl]
      simp [parse.init]
  · obtain ⟨stZ, hZ⟩ : ∃ stZ, parse.loop lib parse.init (strings.Split raw) = .ok stZ := by
      unfold parse at hok
      cases h : parse.loop lib parse.init (strings.Split raw) with
      | error e => rw [h] at hok; cases hok
      | ok stZ => exact ⟨stZ, rfl⟩
    have hparse : parse lib raw = (some stZ.suites, none) := by unfold parse; rw [hZ]
    rw [hsplit] at hZ
    obtain ⟨st0', h0, hZ⟩ := parse.loop_append_ok lib _ _ _ _ hZ
    rw [hpre] at h0
    cases h0
    obtain ⟨st1, hs1, hZ⟩ := parse.loop_cons_ok lib _ _ _ _ hZ
    rw [hstep] at hs1
    cases hs1
    obtain ⟨st2, hb, hZ⟩ := parse.loop_append_ok lib _ _ _ _ hZ
    obtain ⟨hsh2, hsu2⟩ := parse.loop_unclosed lib body hbody _ st2 rfl hb
    dsimp only at hsu2
    have hraw' : parse.loop lib parse.init (strings.Split raw') =
        parse.loop lib
          { suites := st0.flush.suites
            suite := { Name := m.getD 1 [], Tests := 0, Failures := 0, Time := [],
                       TestCases := [] }
            logText := st0.flush.logText
            shared := 0 } rest := by
      rw [hsplit', parse.loop_append, hpre]
      simp only [parse.loop, hstep]
    rw [hparse]
    unfold parse
    rw [hraw']
    rcases hrest with rfl | ⟨s, r, ms, rfl, hs⟩
    · cases hZ
      simp only [parse.loop]
      rw [hsu2]
    · have hind := not_indented_of_start hs
      have hfresh : ∀ X : parse.State, X.shared = 0 →
          parse.step lib X s =
            .ok { suites := X.suites
                  suite := { Name := ms.getD 1 [], Tests := 0, Failures := 0, Time := [],
                             TestCases := [] }
                  logText := []
                  shared := 0 } := by
        intro X hX
        rw [parse.step_of_not_indented lib X hind, parse.dispatch_start lib _ hs,
          parse.State.flush_suites_of_shared_zero X hX, parse.State.flush_logText]
      have e1 := hfresh st2 hsh2
      rw [hsu2] at e1
      have e2 := hfresh
        { suites := st0.flush.suites
          suite := { Name := m.getD 1 [], Tests := 0, Failures := 0, Time := [],
                     TestCases := [] }
          logText := st0.flush.logText
          shared := 0 } rfl
      dsimp only at e2
      simp only [parse.loop, e1] at hZ
      simp only [parse.loop, e2]
      rw [hZ]

/-- C20 at a concrete input: the suite `a` is never closed, and its two benchmarks and the
log text are in no suite of the report, which is the report of the input without them. -/
theorem parse_unclosed_suite_witness :
    parse decimalLib
        "pkg: a\nBenchmarkLost 1 1 ns/op\n--- FAIL: BenchmarkGone\n    log\npkg: b\nBenchmarkB 1 1 ns/op\nok b 1s".toList =
      (some
        { XMLName := []
          List :=
            [{ Name := "b".toList, Tests := 1, Failures := 0, Time := "1.000000".toList
               TestCases :=
                 [{ ClassName := "b".toList, Name := "BenchmarkB".toList,
                    Time := "0.000000".toList, Failure := none, Skipped := false,
                    PropertyList :=
                      { PropertyList :=
                          [{ Name := "op count".toList, Value := "1".toList },
                           { Name := "avg op duration (ns/op)".toList,
                             Value := "1".toList }] } }] }] },
       none) ∧
    parse decimalLib "pkg: a\npkg: b\nBenchmarkB 1 1 ns/op\nok b 1s".toList =
      parse decimalLib
        "pkg: a\nBenchmarkLost 1 1 ns/op\n--- FAIL: BenchmarkGone\n    log\npkg: b\nBenchmarkB 1 1 ns/op\nok b 1s".toList :=
  ⟨by decide,
    (parse_unclosed_suite decimalLib
      "pkg: a\nBenchmarkLost 1 1 ns/op\n--- FAIL: BenchmarkGone\n    log\npkg: b\nBenchmarkB 1 1 ns/op\nok b 1s".toList
      "pkg: a\npkg: b\nBenchmarkB 1 1 ns/op\nok b 1s".toList
      [] "pkg: a".toList
      ["BenchmarkLost 1 1 ns/op".toList, "--- FAIL: BenchmarkGone".toList, "    log".toList]
      ["pkg: b".toList, "BenchmarkB 1 1 ns/op".toList, "ok b 1s".toList]
      ["pkg: a".toList, "a".toList] parse.init
      (by decide) (by decide) (by rfl) (by decide) (by decide)
      (Or.inr ⟨"pkg: b".toList, ["BenchmarkB 1 1 ns/op".toList, "ok b 1s".toList],
        ["pkg: b".toList, "b".toList], rfl, by decide⟩)
      (by decide)).2.2⟩

/-! ## Every block of log text recorded on a failing case

A case is written to by `recordLogText` as long as it is the last case of the current suite:
from the line that adds it to the next line that adds a case or starts a suite.  Every block
of indented lines read in between and followed by a line that is not indented is recorded on
it.  Afterwards the case is out of reach of `recordLogText`, in the current suite and in the
suites of the report. -/

/-- `recordLogText` changes the last case only. -/
theorem TestSuite.recordLogText_getElem_of_lt (s : TestSuite) (text : Str) (i : Nat)
    (hi : i + 1 < s.TestCases.length) :
    (s.recordLogText text).TestCases[i]? = s.TestCases[i]? := by
  unfold TestSuite.recordLogText
  split
  · rfl
  · split
    · rfl
    · dsimp only
      rw [List.getElem?_append_left (by rw [List.length_dropLast]; omega),
        List.dropLast_eq_take, List.getElem?_take, if_pos (by omega)]

/-- Recording the pending log text leaves each suite of the report alone or calls
`recordLogText` on it. -/
theorem parse.State.flush_getElem (st : parse.State) (i : Nat) :
    st.flush.suites.List[i]? = st.suites.List[i]? ∨
      st.flush.suites.List[i]? =
        (st.suites.List[i]?).map (fun s => s.recordLogText st.logText) := by
  unfold parse.State.flush
  split
  · dsimp only
    have hmin : (st.suites.List.take (st.suites.List.length - st.shared)).length =
        st.suites.List.length - st.shared := by
      rw [List.length_take]; omega
    by_cases hi : i < st.suites.List.length - st.shared
    · left
      rw [List.getElem?_append_left (by rw [hmin]; exact hi), List.getElem?_take, if_pos hi]
    · right
      rw [List.getElem?_append_right (by rw [hmin]; omega), List.getElem?_map,
        List.getElem?_drop, hmin]
      congr 2
      omega
  · exact Or.inl rfl

/-- Recording the pending log text keeps every case of the current suite but the last. -/
theorem parse.State.flush_suite_getElem (st : parse.State) (i : Nat)
    (hi : i + 1 < st.suite.TestCases.length) :
    st.flush.suite.TestCases[i]? = st.suite.TestCases[i]? := by
  unfold parse.State.flush
  split
  · exact TestSuite.recordLogText_getElem_of_lt st.suite st.logText i hi
  · rfl

/-- While a case `C ts` is the last case of the current suite and of the report entries
from position `n` on, which are the shared ones, recording the pending log text replaces
it by `C (ts ++ [logText])` in all of them. -/
theorem parse.State.flush_last (st : parse.State) (n : Nat) (base : List TestCase)
    (C : List Str → TestCase) (ts : List Str)
    (hC : ∀ (ts : List Str) (t : Str) (su : TestSuite), su.TestCases = base ++ [C ts] →
      (su.recordLogText t).TestCases = base ++ [C (ts ++ [t])])
    (h1 : st.suite.TestCases = base ++ [C ts])
    (h2 : st.shared + n = st.suites.List.length)
    (h3 : ∀ i s, n ≤ i → st.suites.List[i]? = some s → s.TestCases = base ++ [C ts]) :
    st.flush.suite.TestCases =
        base ++ [C (ts ++ [st.logText].filter (fun t => t ≠ []))] ∧
      st.flush.shared + n = st.flush.suites.List.length ∧
      ∀ i s, n ≤ i → st.flush.suites.List[i]? = some s →
        s.TestCases = base ++ [C (ts ++ [st.logText].filter (fun t => t ≠ []))] := by
  by_cases hlog : st.logText = []
  · rw [parse.State.flush_of_empty st hlog, hlog]
    simp only [ne_eq, not_true_eq_false, decide_False, List.filter_cons_of_neg,
      Bool.false_eq_true, not_false_eq_true, List.filter_nil, List.append_nil]
    exact ⟨h1, h2, h3⟩
  · have hpos : st.logText.length > 0 := List.length_pos.mpr hlog
    have hfil : [st.logText].filter (fun t => t ≠ []) = [st.logText] := by
      simp [hlog]
    rw [hfil]
    refine ⟨?_, ?_, ?_⟩
    · unfold parse.State.flush
      rw [if_pos hpos]
      exact hC ts _ _ h1
    · rw [parse.State.flush_shared, parse.State.flush_suites_length]
      exact h2
    · intro i s hi hs
      have ha : st.suites.List.length - st.shared = n := by omega
      unfold parse.State.flush at hs
      rw [if_pos hpos] at hs
      dsimp only at hs
      rw [ha, List.getElem?_append_right (by rw [List.length_take]; omega),
        List.getElem?_map, List.getElem?_drop] at hs
      cases hd : st.suites.List[n + (i - (List.take n st.suites.List).length)]? with
      | none => rw [hd] at hs; cases hs
      | some s0 =>
        rw [hd] at hs
        cases hs
        exact hC ts _ s0 (h3 _ s0 (by omega) hd)

/-- A line that is not a suite-start line and adds no case: the `switch` keeps the cases of
the current suite, and either does nothing else or, on a suite-end line, appends the
current suite to the report as one more shared entry. -/
theorem parse.dispatch_neutral (lib : GoLib) (st st' : parse.State) (line : Str)
    (hs : reSuiteStart.FindStringSubmatch line = none)
    (hm : reBenchMetrics.FindStringSubmatch line = none)
    (ha : ∀ m, reActionLine.FindStringSubmatch line = some m →
      m.getD 1 [] ≠ "SKIP".toList ∧ m.getD 1 [] ≠ "FAIL".toList)
    (h : parse.dispatch lib st line = .ok st') :
    st'.suite.TestCases = st.suite.TestCases ∧ st'.logText = st.logText ∧
      ((st'.suites = st.suites ∧ st'.shared = st.shared) ∨
       (st'.suites.List = st.suites.List ++ [st'.suite] ∧ st'.shared = st.shared + 1)) := by
  cases he : reSuiteEnd.FindStringSubmatch line with
  | some me =>
    obtain ⟨_, h2, h3, _, h5, h6⟩ := parse.dispatch_end_ok lib st st' line me he h
    exact ⟨h5, h2, Or.inr ⟨h6, h3⟩⟩
  | none =>
    unfold parse.dispatch at h
    rw [hs, he, hm] at h
    dsimp only at h
    split at h
    · rename_i m hact
      obtain ⟨hS, hF⟩ := ha m hact
      rw [if_neg hS, if_neg hF] at h
      cases h
      exact ⟨rfl, rfl, Or.inl ⟨rfl, rfl⟩⟩
    · cases h
      exact ⟨rfl, rfl, Or.inl ⟨rfl, rfl⟩⟩

/-- One line that is not indented, is not a suite-start line and adds no case, read while
`C ts` is the last case of the current suite and of the report entries from position `n`
on: the pending log text, if any, is recorded on that case in all of them. -/
theorem parse.step_segment (lib : GoLib) (n : Nat) (base : List TestCase)
    (C : List Str → TestCase)
    (hC : ∀ (ts : List Str) (t : Str) (su : TestSuite), su.TestCases = base ++ [C ts] →
      (su.recordLogText t).TestCases = base ++ [C (ts ++ [t])])
    (st st' : parse.State) (line : Str) (ts : List Str)
    (hind : strings.HasPrefix line "    ".toList = false)
    (hns : reSuiteStart.FindStringSubmatch line = none)
    (hnm : reBenchMetrics.FindStringSubmatch line = none)
    (hna : ∀ ma, reActionLine.FindStringSubmatch line = some ma →
      ma.getD 1 [] ≠ "SKIP".toList ∧ ma.getD 1 [] ≠ "FAIL".toList)
    (h1 : st.suite.TestCases = base ++ [C ts])
    (h2 : st.shared + n = st.suites.List.length)
    (h3 : ∀ i s, n ≤ i → st.suites.List[i]? = some s → s.TestCases = base ++ [C ts])
    (h : parse.step lib st line = .ok st') :
    st'.logText = [] ∧
      st'.suite.TestCases = base ++ [C (ts ++ [st.logText].filter (fun t => t ≠ []))] ∧
      st'.shared + n = st'.suites.List.length ∧
      ∀ i s, n ≤ i → st'.suites.List[i]? = some s →
        s.TestCases = base ++ [C (ts ++ [st.logText].filter (fun t => t ≠ []))] := by
  rw [parse.step_of_not_indented lib st hind] at h
  obtain ⟨f1, f2, f3⟩ := parse.State.flush_last st n base C ts hC h1 h2 h3
  obtain ⟨d1, d2, d3⟩ := parse.dispatch_neutral lib _ st' line hns hnm hna h
  rw [parse.State.flush_logText] at d2
  refine ⟨d2, by rw [d1]; exact f1, ?_, ?_⟩
  · rcases d3 with ⟨e1, e2⟩ | ⟨e1, e2⟩
    · rw [e1, e2]; exact f2
    · rw [e1, e2, List.length_append, List.length_singleton]; omega
  · intro i s hi hs
    rcases d3 with ⟨e1, _⟩ | ⟨e1, _⟩
    · rw [e1] at hs; exact f3 i s hi hs
    · rw [e1] at hs
      by_cases hlt : i < st.flush.suites.List.length
      · rw [List.getElem?_append_left hlt] at hs
        exact f3 i s hi hs
      · rw [List.getElem?_append_right (by omega)] at hs
        cases hidx : i - st.flush.suites.List.length with
        | zero =>
          rw [hidx] at hs
          simp only [List.getElem?_cons_zero, Option.some.injEq] at hs
          rw [← hs, d1]
          exact f1
        | succ j =>
          rw [hidx] at hs
          simp at hs

/-- Blocks of indented lines, each followed by one line that is not indented, is not a
suite-start line and adds no case, read while `C ts` is the last case of the current suite:
every block that is not empty is recorded on that case, in the current suite and in the
suites appended to the report meanwhile. -/
theorem parse.loop_segments (lib : GoLib) (n : Nat) (base : List TestCase)
    (C : List Str → TestCase)
    (hC : ∀ (ts : List Str) (t : Str) (su : TestSuite), su.TestCases = base ++ [C ts] →
      (su.recordLogText t).TestCases = base ++ [C (ts ++ [t])])
    (segs : List (List Str × Str))
    (hsegs : ∀ sg ∈ segs, (∀ l ∈ sg.1, strings.HasPrefix l "    ".toList = true) ∧
      strings.HasPrefix sg.2 "    ".toList = false ∧
      reSuiteStart.FindStringSubmatch sg.2 = none ∧
      reBenchMetrics.FindStringSubmatch sg.2 = none ∧
      ∀ ma, reActionLine.FindStringSubmatch sg.2 = some ma →
        ma.getD 1 [] ≠ "SKIP".toList ∧ ma.getD 1 [] ≠ "FAIL".toList) :
    ∀ (st st' : parse.State) (ts : List Str),
      st.logText = [] → st.suite.TestCases = base ++ [C ts] →
      st.shared + n = st.suites.List.length →
      (∀ i s, n ≤ i → st.suites.List[i]? = some s → s.TestCases = base ++ [C ts]) →
      parse.loop lib st (segs.flatMap (fun sg => sg.1 ++ [sg.2])) = .ok st' →
      st'.logText = [] ∧
      st'.suite.TestCases = base ++ [C (ts ++ (segs.map (fun sg => sg.1.flatMap
        (fun l => strings.TrimPrefix l "    ".toList ++ "\n".toList))).filter
          (fun t => t ≠ []))] ∧
      st'.shared + n = st'.suites.List.length ∧
      ∀ i s, n ≤ i → st'.suites.List[i]? = some s →
        s.TestCases = base ++ [C (ts ++ (segs.map (fun sg => sg.1.flatMap
          (fun l => strings.TrimPrefix l "    ".toList ++ "\n".toList))).filter
            (fun t => t ≠ []))] := by
  induction segs with
  | nil =>
    intro st st' ts h0 h1 h2 h3 h
    cases h
    simp only [List.map_nil, List.filter_nil, List.append_nil]
    exact ⟨h0, h1, h2, h3⟩
  | cons sg rest ih =>
    intro st st' ts h0 h1 h2 h3 h
    obtain ⟨hblock, hind, hns, hnm, hna⟩ := hsegs sg (List.mem_cons_self _ _)
    rw [List.flatMap_cons, List.append_assoc] at h
    obtain ⟨sb, hb, h⟩ := parse.loop_append_ok lib _ _ _ _ h
    rw [parse.loop_indented lib sg.1 hblock] at hb
    rw [List.singleton_append] at h
    obtain ⟨sl, hl, h⟩ := parse.loop_cons_ok lib _ _ _ _ h
    have hbl : sb.logText =
        sg.1.flatMap (fun l => strings.TrimPrefix l "    ".toList ++ "\n".toList) := by
      cases hb; dsimp only; rw [h0, List.nil_append]
    have hb1 : sb.suite.TestCases = base ++ [C ts] := by cases hb; exact h1
    have hb2 : sb.shared + n = sb.suites.List.length := by cases hb; exact h2
    have hb3 : ∀ i s, n ≤ i → sb.suites.List[i]? = some s → s.TestCases = base ++ [C ts] := by
      cases hb; exact h3
    obtain ⟨g0, g1, g2, g3⟩ :=
      parse.step_segment lib n base C hC sb sl sg.2 ts hind hns hnm hna hb1 hb2 hb3 hl
    rw [hbl] at g1 g3
    have hfin := ih (fun x hx => hsegs x (List.mem_cons_of_mem _ hx)) sl st' _ g0 g1 g2 g3 h
    have hts : ts ++ [sg.1.flatMap (fun l => strings.TrimPrefix l "    ".toList ++ "\n".toList)].filter
          (fun t => t ≠ []) ++
        (rest.map (fun sg => sg.1.flatMap
          (fun l => strings.TrimPrefix l "    ".toList ++ "\n".toList))).filter (fun t => t ≠ []) =
        ts ++ ((sg :: rest).map (fun sg => sg.1.flatMap
          (fun l => strings.TrimPrefix l "    ".toList ++ "\n".toList))).filter
            (fun t => t ≠ []) := by
      rw [List.map_cons, List.append_assoc, ← List.filter_append, List.singleton_append]
    rw [hts] at hfin
    exact hfin

/-- A metrics line, or a skip or fail action line, that the `switch` gets through adds one
case to the current suite; no suite of the report is shared with it afterwards. -/
theorem parse.dispatch_adds (lib : GoLib) (st st' : parse.State) (line : Str)
    (hadd : (∃ mm, reBenchMetrics.FindStringSubmatch line = some mm) ∨
      ∃ ma, reActionLine.FindStringSubmatch line = some ma ∧
        (ma.getD 1 [] = "SKIP".toList ∨ ma.getD 1 [] = "FAIL".toList))
    (h : parse.dispatch lib st line = .ok st') :
    (∃ x, st'.suite.TestCases = st.suite.TestCases ++ [x]) ∧ st'.suites = st.suites ∧
      st'.shared = 0 := by
  rcases hadd with ⟨mm, hmm⟩ | ⟨ma, hma, hk⟩
  · rw [parse.dispatch_metrics lib st hmm] at h
    split at h
    · cases h
    · cases h
      exact ⟨⟨_, rfl⟩, rfl, rfl⟩
  · rw [parse.dispatch_action lib st hma] at h
    split at h
    · cases h
      exact ⟨⟨_, rfl⟩, rfl, rfl⟩
    · rename_i hS
      rcases hk with hk | hk
      · exact absurd hk hS
      · rw [if_pos hk] at h
        cases h
        exact ⟨⟨_, rfl⟩, rfl, rfl⟩

/-- On a line that is not a suite-start line the `switch` only appends cases to the current
suite, and leaves the report alone or appends the current suite to it. -/
theorem parse.dispatch_nonstart (lib : GoLib) (st st' : parse.State) (line : Str)
    (hns : reSuiteStart.FindStringSubmatch line = none)
    (h : parse.dispatch lib st line = .ok st') :
    (∃ extra, st'.suite.TestCases = st.suite.TestCases ++ extra) ∧
      (st'.suites = st.suites ∨ st'.suites.List = st.suites.List ++ [st'.suite]) := by
  cases he : reSuiteEnd.FindStringSubmatch line with
  | some me =>
    obtain ⟨_, _, _, _, h5, h6⟩ := parse.dispatch_end_ok lib st st' line me he h
    exact ⟨⟨[], by rw [h5, List.append_nil]⟩, Or.inr h6⟩
  | none =>
    obtain ⟨h1, h2⟩ := (parse.dispatch_frame lib st st' line h).2 hns he
    exact ⟨h2, Or.inl h1⟩

/-- A case of the current suite that is not its last case stays as it is, in the current
suite and in every suite appended to the report from position `N` on, as long as no
suite-start line is read. -/
theorem parse.loop_kept (lib : GoLib) (k N : Nat) (c : TestCase) (ls : List Str)
    (hls : ∀ l ∈ ls, reSuiteStart.FindStringSubmatch l = none) :
    ∀ st st' : parse.State,
      k + 1 < st.suite.TestCases.length → st.suite.TestCases[k]? = some c →
      (∀ i s, N ≤ i → st.suites.List[i]? = some s →
        k + 1 < s.TestCases.length ∧ s.TestCases[k]? = some c) →
      parse.loop lib st ls = .ok st' →
      ∀ i s, N ≤ i → st'.suites.List[i]? = some s →
        k + 1 < s.TestCases.length ∧ s.TestCases[k]? = some c := by
  induction ls with
  | nil => intro st st' _ _ hold h; cases h; exact hold
  | cons l ls ih =>
    intro st st' hlen hc hold h
    obtain ⟨st1, hs, hl⟩ := parse.loop_cons_ok lib l ls st st' h
    have hns := hls l (List.mem_cons_self _ _)
    cases hind : strings.HasPrefix l "    ".toList with
    | true =>
      unfold parse.step at hs
      rw [hind] at hs
      have e1 : st1.suite = st.suite := by cases hs; rfl
      have e2 : st1.suites = st.suites := by cases hs; rfl
      exact ih (fun x hx => hls x (List.mem_cons_of_mem _ hx)) st1 st'
        (by rw [e1]; exact hlen) (by rw [e1]; exact hc) (by rw [e2]; exact hold) hl
    | false =>
      rw [parse.step_of_not_indented lib st hind] at hs
      obtain ⟨⟨extra, hcases⟩, hsu⟩ := parse.dispatch_nonstart lib _ st1 l hns hs
      have hflen : k + 1 < st.flush.suite.TestCases.length := by
        rw [parse.State.flush_length]; exact hlen
      have hfc : st.flush.suite.TestCases[k]? = some c := by
        rw [parse.State.flush_suite_getElem st k hlen]; exact hc
      have hfold : ∀ i s, N ≤ i → st.flush.suites.List[i]? = some s →
          k + 1 < s.TestCases.length ∧ s.TestCases[k]? = some c := by
        intro i s hi hget
        rcases parse.State.flush_getElem st i with hsame | hrec
        · rw [hsame] at hget; exact hold i s hi hget
        · rw [hrec] at hget
          cases h0 : st.suites.List[i]? with
          | none => rw [h0] at hget; cases hget
          | some s0 =>
            rw [h0] at hget
            simp only [Option.map_some', Option.some.injEq] at hget
            obtain ⟨g1, g2⟩ := hold i s0 hi h0
            rw [← hget, TestSuite.recordLogText_length,
              TestSuite.recordLogText_getElem_of_lt s0 st.logText k g1]
            exact ⟨g1, g2⟩
      have h1len : k + 1 < st1.suite.TestCases.length := by
        rw [hcases, List.length_append]; omega
      have h1c : st1.suite.TestCases[k]? = some c := by
        rw [hcases, List.getElem?_append_left (by omega)]; exact hfc
      refine ih (fun x hx => hls x (List.mem_cons_of_mem _ hx)) st1 st' h1len h1c ?_ hl
      intro i s hi hget
      rcases hsu with e1 | e1
      · rw [e1] at hget; exact hfold i s hi hget
      · rw [e1] at hget
        by_cases hlt : i < st.flush.suites.List.length
        · rw [List.getElem?_append_left hlt] at hget
          exact hfold i s hi hget
        · rw [List.getElem?_append_right (by omega)] at hget
          cases hidx : i - st.flush.suites.List.length with
          | zero =>
            rw [hidx] at hget
            simp only [List.getElem?_cons_zero, Option.some.injEq] at hget
            rw [← hget]
            exact ⟨h1len, h1c⟩
          | succ j =>
            rw [hidx] at hget
            simp at hget

/-- A case of a suite of the report that is not the last case of that suite stays as it
is, whatever is read later. -/
theorem parse.loop_entry (lib : GoLib) (k : Nat) (c : TestCase) (i : Nat) (ls : List Str) :
    ∀ (st st' : parse.State) (s : TestSuite),
      st.suites.List[i]? = some s → k + 1 < s.TestCases.length → s.TestCases[k]? = some c →
      parse.loop lib st ls = .ok st' →
      ∃ s', st'.suites.List[i]? = some s' ∧ k + 1 < s'.TestCases.length ∧
        s'.TestCases[k]? = some c := by
  induction ls with
  | nil => intro st st' s hs hlen hc h; cases h; exact ⟨s, hs, hlen, hc⟩
  | cons l ls ih =>
    intro st st' s hs hlen hc h
    obtain ⟨st1, hstep, hl⟩ := parse.loop_cons_ok lib l ls st st' h
    cases hind : strings.HasPrefix l "    ".toList with
    | true =>
      unfold parse.step at hstep
      rw [hind] at hstep
      have e2 : st1.suites = st.suites := by cases hstep; rfl
      exact ih st1 st' s (by rw [e2]; exact hs) hlen hc hl
    | false =>
      rw [parse.step_of_not_indented lib st hind] at hstep
      obtain ⟨⟨extra, hext⟩, _⟩ := parse.dispatch_frame lib _ st1 l hstep
      have hflush : ∃ s1, st.flush.suites.List[i]? = some s1 ∧ k + 1 < s1.TestCases.length ∧
          s1.TestCases[k]? = some c := by
        rcases parse.State.flush_getElem st i with hsame | hrec
        · exact ⟨s, by rw [hsame]; exact hs, hlen, hc⟩
        · refine ⟨s.recordLogText st.logText, by rw [hrec, hs]; rfl, ?_, ?_⟩
          · rw [TestSuite.recordLogText_length]; exact hlen
          · rw [TestSuite.recordLogText_getElem_of_lt s st.logText k hlen]; exact hc
      obtain ⟨s1, g1, g2, g3⟩ := hflush
      have hi : i < st.flush.suites.List.length := by
        by_contra hn
        rw [List.getElem?_eq_none (by omega)] at g1
        cases g1
      exact ih st1 st' s1 (by rw [hext, List.getElem?_append_left hi]; exact g1) g2 g3 hl

/-- What follows the lines read while `C ts` is the last case: nothing; or a line that adds
a case, then lines without a suite-start line (`adds`); and then nothing or a suite-start
line and anything (`tail`).  The first of these lines, if there is one, records the pending
log text on the case.  From then on the case stays as it is in every suite that was in the
report from position `n` on or that a suite-end line of `adds` appends. -/
theorem parse.loop_released (lib : GoLib) (n : Nat) (base : List TestCase)
    (C : List Str → TestCase)
    (hC : ∀ (ts : List Str) (t : Str) (su : TestSuite), su.TestCases = base ++ [C ts] →
      (su.recordLogText t).TestCases = base ++ [C (ts ++ [t])])
    (adds tail : List Str)
    (hadds : adds = [] ∨ ∃ p r, adds = p :: r ∧
      ((∃ mm, reBenchMetrics.FindStringSubmatch p = some mm) ∨
        ∃ ma, reActionLine.FindStringSubmatch p = some ma ∧
          (ma.getD 1 [] = "SKIP".toList ∨ ma.getD 1 [] = "FAIL".toList)))
    (hnostart : ∀ l ∈ adds, reSuiteStart.FindStringSubmatch l = none)
    (htail : tail = [] ∨ ∃ v r mv, tail = v :: r ∧
      reSuiteStart.FindStringSubmatch v = some mv)
    (st st' : parse.State) (ts : List Str)
    (h1 : st.suite.TestCases = base ++ [C ts])
    (h2 : st.shared + n = st.suites.List.length)
    (h3 : ∀ i s, n ≤ i → st.suites.List[i]? = some s → s.TestCases = base ++ [C ts])
    (h : parse.loop lib st (adds ++ tail) = .ok st') :
    ∀ i, n ≤ i →
      i < st.suites.List.length + adds.countP
        (fun l => !strings.HasPrefix l "    ".toList && reSuiteEnd.MatchString l) →
      ∃ s, st'.suites.List[i]? = some s ∧
        s.TestCases[base.length]? = some
          (C (ts ++ (if adds ++ tail = [] then [] else [st.logText]).filter
            (fun t => t ≠ []))) := by
  have hget : ∀ (cs : List TestCase) (c : TestCase), cs = base ++ [c] →
      cs[base.length]? = some c := by
    intro cs c hcs
    rw [hcs, List.getElem?_append_right (le_refl _)]
    simp
  obtain ⟨f1, f2, f3⟩ := parse.State.flush_last st n base C ts hC h1 h2 h3
  intro i hi hlt
  rcases hadds with rfl | ⟨p, r, rfl, hp⟩
  · rcases htail with rfl | ⟨v, r, mv, rfl, hv⟩
    · cases h
      simp only [List.countP_nil, Nat.add_zero] at hlt
      refine ⟨st.suites.List[i], List.getElem?_eq_getElem hlt, ?_⟩
      simp only [List.append_nil, if_true, List.filter_nil]
      exact hget _ _ (h3 i _ hi (List.getElem?_eq_getElem hlt))
    · rw [List.nil_append] at h
      obtain ⟨sv, hstep, hrest⟩ := parse.loop_cons_ok lib _ _ _ _ h
      rw [parse.step_of_not_indented lib st (not_indented_of_start hv),
        parse.dispatch_start lib _ hv] at hstep
      have e1 : sv.suites = st.flush.suites := by cases hstep; rfl
      have e2 : sv.shared = 0 := by cases hstep; rfl
      simp only [List.countP_nil, Nat.add_zero] at hlt
      have hlt' : i < st.flush.suites.List.length := by
        rw [parse.State.flush_suites_length]; exact hlt
      have htake := parse.loop_shared lib st.flush.suites.List.length r sv st'
        (by rw [e1, e2]; omega) hrest
      have hentry := congrArg (fun L : List TestSuite => L[i]?) htake
      simp only [List.getElem?_take, hlt', if_true] at hentry
      rw [e1] at hentry
      refine ⟨st.flush.suites.List[i], by rw [hentry]; exact List.getElem?_eq_getElem hlt', ?_⟩
      rw [if_neg (by simp)]
      exact hget _ _ (f3 i _ hi (List.getElem?_eq_getElem hlt'))
  · rw [List.cons_append] at h
    obtain ⟨sp, hstep, hrest⟩ := parse.loop_cons_ok lib _ _ _ _ h
    have hind : strings.HasPrefix p "    ".toList = false := by
      rcases hp with ⟨mm, hmm⟩ | ⟨ma, hma, _⟩
      · exact not_indented_of_metrics hmm
      · exact not_indented_of_action hma
    rw [parse.step_of_not_indented lib st hind] at hstep
    obtain ⟨⟨x, hx⟩, e1, e2⟩ := parse.dispatch_adds lib _ sp p hp hstep
    obtain ⟨sr, hr, htl⟩ := parse.loop_append_ok lib _ _ _ _ hrest
    rw [if_neg (by simp)]
    have hlenp : sp.suites.List.length = st.suites.List.length := by
      rw [e1, parse.State.flush_suites_length]
    have hcp : sp.suite.TestCases[base.length]? =
        some (C (ts ++ [st.logText].filter (fun t => t ≠ []))) := by
      rw [hx, f1, List.append_assoc, List.getElem?_append_right (le_refl _)]
      simp
    have hlp : base.length + 1 < sp.suite.TestCases.length := by
      rw [hx, f1]
      simp only [List.length_append, List.length_singleton]
      omega
    by_cases hold : i < st.suites.List.length
    · have hlt' : i < st.flush.suites.List.length := by
        rw [parse.State.flush_suites_length]; exact hold
      have htake := parse.loop_shared lib st.flush.suites.List.length (r ++ tail) sp st'
        (by rw [e1, e2]; omega) hrest
      have hentry := congrArg (fun L : List TestSuite => L[i]?) htake
      simp only [List.getElem?_take, hlt', if_true] at hentry
      rw [e1] at hentry
      exact ⟨st.flush.suites.List[i], by rw [hentry]; exact List.getElem?_eq_getElem hlt',
        hget _ _ (f3 i _ hi (List.getElem?_eq_getElem hlt'))⟩
    · have hkept := parse.loop_kept lib base.length sp.suites.List.length
        (C (ts ++ [st.logText].filter (fun t => t ≠ []))) r
        (fun l hl => hnostart l (List.mem_cons_of_mem _ hl)) sp sr hlp hcp
        (by
          intro j s hj hs
          rw [List.getElem?_eq_none hj] at hs
          cases hs)
        hr
      have hlenr := parse.loop_suites_length lib r sp sr hr
      have hnoend : (if reSuiteEnd.MatchString p = true then 1 else 0) = 0 := by
        have hnone : reSuiteEnd.FindStringSubmatch p = none := by
          rcases hp with ⟨mm, hmm⟩ | ⟨ma, hma, _⟩
          · exact reSuiteEnd_none_of_metrics hmm
          · exact reSuiteEnd_none_of_action hma
        unfold Re.MatchString
        rw [hnone]
        rfl
      have hcount : (p :: r).countP
            (fun l => !strings.HasPrefix l "    ".toList && reSuiteEnd.MatchString l) =
          r.countP (fun l => !strings.HasPrefix l "    ".toList && reSuiteEnd.MatchString l) := by
        have hpm : reSuiteEnd.MatchString p = false := by
          cases hm : reSuiteEnd.MatchString p with
          | false => rfl
          | true => rw [hm] at hnoend; simp at hnoend
        rw [List.countP_cons, hpm]
        simp
      rw [hcount] at hlt
      have hir : i < sr.suites.List.length := by rw [hlenr, hlenp]; exact hlt
      obtain ⟨g1, g2⟩ := hkept i sr.suites.List[i] (by rw [hlenp]; omega)
        (List.getElem?_eq_getElem hir)
      obtain ⟨s', k1, _, k3⟩ := parse.loop_entry lib base.length _ i tail sr st' _
        (List.getElem?_eq_getElem hir) g1 g2 htl
      exact ⟨s', k1, k3⟩

/-- C3, as the code has it.  `recordLogText` writes to the case of a fail action line as
long as it is the last case of the current suite, and every block of indented lines read
meanwhile and followed by a line that is not indented is recorded on it.

The input is `pre`, a fail action line for benchmark `name`, and then
* `segs`: blocks of indented lines (a block may have no line), each followed by one line
  that is not indented, is not a suite-start line and adds no case (a suite-end line is such
  a line);
* `trail`: indented lines;
* `adds`: nothing, or a metrics, skip or fail line, which adds a case, followed by lines
  none of which is a suite-start line;
* `tail`: nothing, or a suite-start line followed by anything.

`values` lists the text of the blocks of `segs` that have a line and, unless the input ends
with it, of `trail` if it has a line: the lines without their four spaces, each followed by
a newline, truncated to 1000 characters with a trailing `...` if longer.

If `parse` succeeds, every suite that a suite-end line of `segs` or `adds` puts into the
report has, at the position where the fail line added it, the case `name` with one
`categorized_fail` property for each of `values`, in input order, and with `Failure.Text`
equal to the last of them (empty if there is none).  So when the lines immediately
following the fail line are the only block recorded, `Failure.Text` is their text and it is
the value of the only property. -/
theorem parse_fail_log (lib : GoLib) (raw : Str) (pre : List Str) (failLine : Str)
    (segs : List (List Str × Str)) (trail adds tail : List Str) (st : parse.State)
    (m : List Str) (values : List Str)
    (hsplit : strings.Split raw = pre ++ failLine ::
      (segs.flatMap (fun sg => sg.1 ++ [sg.2]) ++ (trail ++ (adds ++ tail))))
    (hpre : parse.loop lib parse.init pre = .ok st)
    (hfail : reActionLine.FindStringSubmatch failLine = some m)
    (hF : m.getD 1 [] = "FAIL".toList)
    (hsegs : ∀ sg ∈ segs, (∀ l ∈ sg.1, strings.HasPrefix l "    ".toList = true) ∧
      strings.HasPrefix sg.2 "    ".toList = false ∧
      reSuiteStart.FindStringSubmatch sg.2 = none ∧
      reBenchMetrics.FindStringSubmatch sg.2 = none ∧
      ∀ ma, reActionLine.FindStringSubmatch sg.2 = some ma →
        ma.getD 1 [] ≠ "SKIP".toList ∧ ma.getD 1 [] ≠ "FAIL".toList)
    (htrail : ∀ l ∈ trail, strings.HasPrefix l "    ".toList = true)
    (hadds : adds = [] ∨ ∃ p r, adds = p :: r ∧
      ((∃ mm, reBenchMetrics.FindStringSubmatch p = some mm) ∨
        ∃ ma, reActionLine.FindStringSubmatch p = some ma ∧
          (ma.getD 1 [] = "SKIP".toList ∨ ma.getD 1 [] = "FAIL".toList)))
    (hnostart : ∀ l ∈ adds, reSuiteStart.FindStringSubmatch l = none)
    (htail : tail = [] ∨ ∃ v r mv, tail = v :: r ∧
      reSuiteStart.FindStringSubmatch v = some mv)
    (hvalues : values =
      ((segs.map (fun sg => sg.1.flatMap
            (fun l => strings.TrimPrefix l "    ".toList ++ "\n".toList)) ++
          (if adds ++ tail = [] then []
           else [trail.flatMap
             (fun l => strings.TrimPrefix l "    ".toList ++ "\n".toList)])).filter
        (fun t => t ≠ [])).map (fun t => truncate t 1000))
    (hok : (parse lib raw).2 = none) :
    ∃ rep, parse lib raw = (some rep, none) ∧
      ∀ i, st.suites.List.length ≤ i →
        i < st.suites.List.length +
          (segs.flatMap (fun sg => sg.1 ++ [sg.2]) ++ (trail ++ adds)).countP
            (fun l => !strings.HasPrefix l "    ".toList && reSuiteEnd.MatchString l) →
        ∃ s, rep.List[i]? = some s ∧
          s.TestCases[st.suite.TestCases.length]? = some
            { ClassName := path.Base st.suite.Name, Name := m.getD 2 [], Time := "0".toList,
              Failure := some { Text := values.getLast?.getD [] },
              Skipped := false,
              PropertyList :=
                { PropertyList :=
                    values.map (fun v => { Name := "categorized_fail".toList, Value := v }) } } := by
  obtain ⟨stZ, hZ⟩ : ∃ stZ, parse.loop lib parse.init (strings.Split raw) = .ok stZ := by
    unfold parse at hok
    cases h : parse.loop lib parse.init (strings.Split raw) with
    | error e => rw [h] at hok; cases hok
    | ok stZ => exact ⟨stZ, rfl⟩
  have hparse : parse lib raw = (some stZ.suites, none) := by unfold parse; rw [hZ]
  refine ⟨stZ.suites, hparse, ?_⟩
  rw [hsplit] at hZ
  obtain ⟨st0, h0, hZ⟩ := parse.loop_append_ok lib _ _ _ _ hZ
  rw [hpre] at h0
  cases h0
  -- the fail action line
  obtain ⟨st1, hs1, hZ⟩ := parse.loop_cons_ok lib _ _ _ _ hZ
  rw [parse.step_of_not_indented lib st (not_indented_of_action hfail),
    parse.dispatch_action lib _ hfail, if_neg (by rw [hF]; decide), if_pos hF] at hs1
  have hC : ∀ (ts : List Str) (t : Str) (su : TestSuite),
      su.TestCases = st.flush.suite.TestCases ++
        [({ ClassName := path.Base st.flush.suite.Name, Name := m.getD 2 [], Time := "0".toList,
            Failure := some { Text := (ts.map (fun t => truncate t 1000)).getLast?.getD [] },
            Skipped := false,
            PropertyList :=
              { PropertyList := (ts.map (fun t => truncate t 1000)).map
                  (fun v => { Name := "categorized_fail".toList, Value := v }) } } : TestCase)] →
      (su.recordLogText t).TestCases = st.flush.suite.TestCases ++
        [({ ClassName := path.Base st.flush.suite.Name, Name := m.getD 2 [], Time := "0".toList,
            Failure := some
              { Text := ((ts ++ [t]).map (fun t => truncate t 1000)).getLast?.getD [] },
            Skipped := false,
            PropertyList :=
              { PropertyList := ((ts ++ [t]).map (fun t => truncate t 1000)).map
                  (fun v => { Name := "categorized_fail".toList, Value := v }) } } : TestCase)] := by
    intro ts t su hsu
    rw [TestSuite.recordLogText_getLast su t _ _
      (by rw [hsu]; exact List.getLast?_concat _) rfl, hsu]
    simp
  have hl1 : st1.logText = [] := by cases hs1; exact parse.State.flush_logText st
  have hc1 : st1.suite.TestCases = st.flush.suite.TestCases ++
      [({ ClassName := path.Base st.flush.suite.Name, Name := m.getD 2 [], Time := "0".toList,
          Failure := some
            { Text := (([] : List Str).map (fun t => truncate t 1000)).getLast?.getD [] },
          Skipped := false,
          PropertyList :=
            { PropertyList := (([] : List Str).map (fun t => truncate t 1000)).map
                (fun v => { Name := "categorized_fail".toList, Value := v }) } } : TestCase)] := by
    cases hs1; rfl
  have hsu1 : st1.suites = st.flush.suites := by cases hs1; rfl
  have hsh1 : st1.shared = 0 := by cases hs1; rfl
  clear hs1
  -- blocks recorded while the case is the last one
  obtain ⟨stW, hW, hZ⟩ := parse.loop_append_ok lib _ _ _ _ hZ
  obtain ⟨w0, w1, w2, w3⟩ := parse.loop_segments lib st.suites.List.length
    st.flush.suite.TestCases
    (fun ts =>
      { ClassName := path.Base st.flush.suite.Name, Name := m.getD 2 [], Time := "0".toList,
        Failure := some { Text := (ts.map (fun t => truncate t 1000)).getLast?.getD [] },
        Skipped := false,
        PropertyList :=
          { PropertyList := (ts.map (fun t => truncate t 1000)).map
              (fun v => { Name := "categorized_fail".toList, Value := v }) } })
    hC segs hsegs st1 stW [] hl1 hc1
    (by rw [hsh1, hsu1, parse.State.flush_suites_length]; omega)
    (by
      intro i s hi hs
      rw [hsu1, List.getElem?_eq_none
        (by rw [parse.State.flush_suites_length]; exact hi)] at hs
      cases hs)
    hW
  -- the indented lines after them
  obtain ⟨sT, hT, hZ⟩ := parse.loop_append_ok lib _ _ _ _ hZ
  rw [parse.loop_indented lib trail htrail] at hT
  have t0 : sT.logText =
      trail.flatMap (fun l => strings.TrimPrefix l "    ".toList ++ "\n".toList) := by
    cases hT; dsimp only; rw [w0, List.nil_append]
  have t1 : sT.suite = stW.suite := by cases hT; rfl
  have t2 : sT.suites = stW.suites := by cases hT; rfl
  have t3 : sT.shared = stW.shared := by cases hT; rfl
  clear hT
  have hrel := parse.loop_released lib st.suites.List.length st.flush.suite.TestCases _ hC
    adds tail hadds hnostart htail sT stZ _ (by rw [t1]; exact w1) (by rw [t2, t3]; exact w2)
    (by rw [t2]; exact w3) hZ
  have hlenW := parse.loop_suites_length lib _ st1 stW hW
  rw [hsu1, parse.State.flush_suites_length] at hlenW
  intro i hi hlt
  have hlt' : i < sT.suites.List.length + adds.countP
      (fun l => !strings.HasPrefix l "    ".toList && reSuiteEnd.MatchString l) := by
    have hz : trail.countP
        (fun l => !strings.HasPrefix l "    ".toList && reSuiteEnd.MatchString l) = 0 := by
      rw [List.countP_eq_zero]
      intro l hl
      rw [htrail l hl]
      simp
    rw [List.countP_append, List.countP_append, hz] at hlt
    rw [t2, hlenW]
    omega
  obtain ⟨s, hs, hcase⟩ := hrel i hi hlt'
  refine ⟨s, hs, ?_⟩
  rw [parse.State.flush_length] at hcase
  rw [hcase, t0, hvalues, parse.State.flush_Name]
  simp only [List.nil_append, List.filter_append]

/-- The amended C3 at two concrete inputs.  In the first, two benchmarks fail and each has
its log line: the fail line of `BenchmarkB` ends the time in which `BenchmarkA` is the last
case, and `BenchmarkA` reaches the report with the text of its own line and one property.
The second is the output of one failing benchmark as `go test` prints it. -/
theorem parse_fail_log_witness :
    (∃ rep s,
      parse decimalLib
        "pkg: foo\n--- FAIL: BenchmarkA\n    a\n--- FAIL: BenchmarkB\n    b\nFAIL\nFAIL\tfoo\t1s\n".toList =
          (some rep, none) ∧
      rep.List[0]? = some s ∧
      s.TestCases[0]? = some
        { ClassName := "foo".toList, Name := "BenchmarkA".toList, Time := "0".toList,
          Failure := some { Text := "a\n".toList },
          Skipped := false,
          PropertyList :=
            { PropertyList :=
                [{ Name := "categorized_fail".toList, Value := "a\n".toList }] } }) ∧
    (∃ rep s,
      parse decimalLib
        "pkg: k8s.io/foo\n--- FAIL: BenchmarkFatal\n    dummy_test.go:95: This Benchmark failed.\nFAIL\nexit status 1\nFAIL\tk8s.io/foo\t17.829s\n".toList =
          (some rep, none) ∧
      rep.List[0]? = some s ∧
      s.TestCases[0]? = some
        { ClassName := "foo".toList, Name := "BenchmarkFatal".toList, Time := "0".toList,
          Failure := some { Text := "dummy_test.go:95: This Benchmark failed.\n".toList },
          Skipped := false,
          PropertyList :=
            { PropertyList :=
                [{ Name := "categorized_fail".toList,
                   Value := "dummy_test.go:95: This Benchmark failed.\n".toList }] } }) := by
  have hnone : ∀ l : Str, reActionLine.FindStringSubmatch l = none →
      ∀ ma, reActionLine.FindStringSubmatch l = some ma →
        ma.getD 1 [] ≠ "SKIP".toList ∧ ma.getD 1 [] ≠ "FAIL".toList :=
    fun l h ma h' => by rw [h] at h'; cases h'
  constructor
  · obtain ⟨rep, hrep, h⟩ := parse_fail_log decimalLib
      "pkg: foo\n--- FAIL: BenchmarkA\n    a\n--- FAIL: BenchmarkB\n    b\nFAIL\nFAIL\tfoo\t1s\n".toList
      ["pkg: foo".toList] "--- FAIL: BenchmarkA".toList [] ["    a".toList]
      ["--- FAIL: BenchmarkB".toList, "    b".toList, "FAIL".toList, "FAIL\tfoo\t1s".toList, []]
      []
      { parse.init with suite := { parse.init.suite with Name := "foo".toList } }
      ["--- FAIL: BenchmarkA".toList, "FAIL".toList, "BenchmarkA".toList]
      ["a\n".toList]
      (by decide) (by rfl) (by decide) (by decide)
      (by intro sg hsg; cases hsg)
      (by decide)
      (Or.inr ⟨_, _, rfl, Or.inr
        ⟨["--- FAIL: BenchmarkB".toList, "FAIL".toList, "BenchmarkB".toList], by decide,
          Or.inr (by decide)⟩⟩)
      (by decide) (Or.inl rfl) (by decide) (by decide)
    obtain ⟨s, hs, hc⟩ := h 0 (by decide) (by decide)
    exact ⟨rep, s, hrep, hs, hc⟩
  · obtain ⟨rep, hrep, h⟩ := parse_fail_log decimalLib
      "pkg: k8s.io/foo\n--- FAIL: BenchmarkFatal\n    dummy_test.go:95: This Benchmark failed.\nFAIL\nexit status 1\nFAIL\tk8s.io/foo\t17.829s\n".toList
      ["pkg: k8s.io/foo".toList] "--- FAIL: BenchmarkFatal".toList
      [(["    dummy_test.go:95: This Benchmark failed.".toList], "FAIL".toList),
       ([], "exit status 1".toList), ([], "FAIL\tk8s.io/foo\t17.829s".toList), ([], [])]
      [] [] []
      { parse.init with suite := { parse.init.suite with Name := "k8s.io/foo".toList } }
      ["--- FAIL: BenchmarkFatal".toList, "FAIL".toList, "BenchmarkFatal".toList]
      ["dummy_test.go:95: This Benchmark failed.\n".toList]
      (by decide) (by rfl) (by decide) (by decide)
      (by
        intro sg hsg
        rcases List.mem_cons.1 hsg with rfl | hsg
        · exact ⟨by decide, by decide, by decide, by decide, hnone _ (by decide)⟩
        rcases List.mem_cons.1 hsg with rfl | hsg
        · exact ⟨by decide, by decide, by decide, by decide, hnone _ (by decide)⟩
        rcases List.mem_cons.1 hsg with rfl | hsg
        · exact ⟨by decide, by decide, by decide, by decide, hnone _ (by decide)⟩
        rcases List.mem_cons.1 hsg with rfl | hsg
        · exact ⟨by decide, by decide, by decide, by decide, hnone _ (by decide)⟩
        · cases hsg)
      (by decide) (Or.inl rfl) (by decide) (Or.inl rfl) (by decide) (by decide)
    obtain ⟨s, hs, hc⟩ := h 0 (by decide) (by decide)
    exact ⟨rep, s, hrep, hs, hc⟩

/-- C3 as stated fails: the fail action line is immediately followed by the indented line
`first`, and the case that reaches the report has `Failure.Text` equal to `second`, the
text of a later indented line, and two `categorized_fail` properties. -/
theorem parse_fail_log_counterexample :
    strings.Split
        "pkg: foo\n--- FAIL: BenchmarkX\n    first\n--- BENCH: BenchmarkX\n    second\nFAIL\tfoo\t1s\n".toList =
        ["pkg: foo".toList, "--- FAIL: BenchmarkX".toList, "    first".toList,
          "--- BENCH: BenchmarkX".toList, "    second".toList, "FAIL\tfoo\t1s".toList, []] ∧
      reActionLine.FindStringSubmatch "--- FAIL: BenchmarkX".toList =
        some ["--- FAIL: BenchmarkX".toList, "FAIL".toList, "BenchmarkX".toList] ∧
      strings.HasPrefix "    first".toList "    ".toList = true ∧
      strings.HasPrefix "--- BENCH: BenchmarkX".toList "    ".toList = false ∧
      parse decimalLib
          "pkg: foo\n--- FAIL: BenchmarkX\n    first\n--- BENCH: BenchmarkX\n    second\nFAIL\tfoo\t1s\n".toList =
        (some
          { XMLName := []
            List :=
              [{ Name := "foo".toList, Tests := 1, Failures := 1, Time := "1.000000".toList
                 TestCases :=
                   [{ ClassName := "foo".toList, Name := "BenchmarkX".toList,
                      Time := "0".toList,
                      Failure := some { Text := "second\n".toList },
                      Skipped := false,
                      PropertyList :=
                        { PropertyList :=
                            [{ Name := "categorized_fail".toList, Value := "first\n".toList },
                             { Name := "categorized_fail".toList,
                               Value := "second\n".toList }] } }] }] },
         none) := by
  decide
